import Mathlib

/-!
# Plandex server: model fallback, git retries, stream replay and logging

A shallow embedding of

* `app/shared/ai_models_large_context.go` (role selection by token budget),
* `app/shared/ai_models_errors.go` (fallback decision table, retry counting),
* `app/server/model/model_request.go` (stop-sequence truncation),
* `app/server/db/git.go` (retrying executor, removal of lock files),
* `app/server/db/branch_helpers.go` (creating and deleting a branch),
* `app/server/handlers/stream_helper.go` (connecting to an active plan),
* `app/server/pkg/llmlog/logger.go` and `pkg/llmlog/logger.go` (the loggers),
* `app/server/pkg/llmlog/config.go` (comma-separated environment variables),
* `app/server/model/plan/tell_prompt_message.go` (the prompt of a turn),
* `app/shared/rbac.go` and `app/server/db/auth_helpers.go` (permissions),

followed by the properties established about them.

Conventions of the embedding.

* A `*ModelRoleConfig` is either `nil` or the address of a config. Addresses are
  natural numbers and the heap is a total map from addresses to configs, so every
  pointer graph, cyclic ones included, is a heap.
* Go `int` is modelled by `Int`; none of the embedded arithmetic can overflow except
  the padded estimate, see `padTokens`.
* A `float64` is an IEEE 754 binary64: conversions, sums and products are rounded to
  nearest, ties to even, and overflow to an infinity; see the section on `float64`.
* A Go `string` is a finite sequence of bytes, `List UInt8`.
* An `error` is its message; a nil error or pointer is `none`.
* What the operating system, git, the database or a callback answers to a call is a
  parameter of the embedded function, and the effects a function has on the outside are
  listed in its result.
-/

namespace Plandex

/-! ## `float64`

Go's `float64` is IEEE 754 binary64. Every finite binary64 value is an integer multiple of
`2 ^ -1074`, so a finite value is kept as its sign and its magnitude counted in that unit;
the operations compute the exact result as a natural number and round it once, to nearest
with ties to even, as the hardware does. -/

/-- The Go type `float64`: the 64 bits of an IEEE 754 binary64 (sign, 11 bits of exponent,
52 bits of fraction), read modulo `2 ^ 64`. -/
structure Float64 where
  bits : Nat
deriving DecidableEq

/-- What a `float64` denotes: a finite value `± u * 2 ^ -1074`, an infinity, or a NaN. -/
inductive F64 where
  | finite (neg : Bool) (u : Nat)
  | inf (neg : Bool)
  | nan
deriving DecidableEq

/-- Binary search for the position of the leading one of `w`: given `2 ^ k ≤ w` and
`w < 2 ^ (k + 2 ^ n)`, the `k` with `2 ^ k ≤ w < 2 ^ (k + 1)`. -/
def bitSearch (w : Nat) : Nat → Nat → Nat
  | 0, k => k
  | n + 1, k => bitSearch w n (if w >>> (k + 2 ^ n) = 0 then k else k + 2 ^ n)

/-- The number of binary digits of `w` (`0` for `w = 0`). -/
def bitLength (w : Nat) : Nat :=
  if w = 0 then 0
  else if w >>> 8192 = 0 then bitSearch w 13 0 + 1
  else Nat.log2 w + 1

/-- The quotient `w / 2 ^ s` rounded to the nearest integer, a tie going to the even
neighbour. -/
def roundShift (w s : Nat) : Nat :=
  let m := w >>> s
  let r := w - (m <<< s)
  if 2 * r > 1 <<< s ∨ (2 * r = 1 <<< s ∧ m % 2 = 1) then m + 1 else m

/-- Rounding of a magnitude to binary64. The magnitude is `w` counted in units of
`2 ^ -(1074 + s0)`; the result is counted in units of `2 ^ -1074`. The result keeps the 53
leading binary digits of `w`, and no digit below `2 ^ -1074` (the subnormal range). -/
def roundMag (w s0 : Nat) : Nat :=
  let s := max (bitLength w - 53) s0
  roundShift w s <<< (s - s0)

/-- The binary64 nearest to `± w * 2 ^ -(1074 + s0)`: a rounded magnitude of `2 ^ 1024` or
more overflows to an infinity. -/
def F64.round (neg : Bool) (w s0 : Nat) : F64 :=
  let u := roundMag w s0
  if u >>> 2098 = 0 then .finite neg u else .inf neg

/-- The value of the bits of a `float64`. With exponent field `ex` and fraction `fr`, a
normal number is `(2 ^ 52 + fr) * 2 ^ (ex - 1075)` and a subnormal one (`ex = 0`) is
`fr * 2 ^ -1074`; `ex = 2047` is an infinity (`fr = 0`) or a NaN. -/
def Float64.decode (f : Float64) : F64 :=
  let b := f.bits % 2 ^ 64
  let neg := decide (2 ^ 63 ≤ b)
  let ex := b / 2 ^ 52 % 2 ^ 11
  let fr := b % 2 ^ 52
  if ex = 2047 then (if fr = 0 then .inf neg else .nan)
  else if ex = 0 then .finite neg fr
  else .finite neg ((2 ^ 52 + fr) <<< (ex - 1))

/-- The constant `1` as a `float64`. -/
def F64.one : F64 := .finite false (1 <<< 1074)

/-- Go conversion `float64(n)` of an integer: the nearest binary64. -/
def F64.ofInt (n : Int) : F64 := F64.round (decide (n < 0)) (n.natAbs <<< 1074) 0

/-- Go `x + y` on `float64`. -/
def F64.add : F64 → F64 → F64
  | .nan, _ => .nan
  | _, .nan => .nan
  | .inf a, .inf b => if a = b then .inf a else .nan
  | .inf a, .finite _ _ => .inf a
  | .finite _ _, .inf b => .inf b
  | .finite a u, .finite b v =>
    if a = b then F64.round a (u + v) 0
    else if u = v then .finite false 0
    else if v < u then F64.round a (u - v) 0
    else F64.round b (v - u) 0

/-- Go `x * y` on `float64`. The exact product of two magnitudes counted in units of
`2 ^ -1074` is counted in units of `2 ^ -2148`. -/
def F64.mul : F64 → F64 → F64
  | .nan, _ => .nan
  | _, .nan => .nan
  | .inf a, .inf b => .inf (a != b)
  | .inf a, .finite b v => if v = 0 then .nan else .inf (a != b)
  | .finite a u, .inf b => if u = 0 then .nan else .inf (a != b)
  | .finite a u, .finite b v => F64.round (a != b) (u * v) 1074

/-- The float is finite and, its fraction discarded, within the range of a 64-bit `int`,
from `-2 ^ 63` to `2 ^ 63 - 1`. -/
def F64.inIntRange : F64 → Bool
  | .finite neg u =>
    if neg then decide (u >>> 1074 ≤ 2 ^ 63) else decide (u >>> 1074 < 2 ^ 63)
  | _ => false

/-- Go conversion `int(x)` of a `float64`, for a 64-bit `int`: the fraction is discarded
(truncation toward zero). For a value outside the range of `int` the language leaves the
result to the implementation; it is `-2 ^ 63` here, which is what the conversion
instruction of amd64 (`CVTTSD2SQ`) delivers for every such value, infinities and NaN
included. -/
def F64.toInt (x : F64) : Int :=
  match x with
  | .finite neg u =>
    if x.inIntRange then
      (if neg then -((u >>> 1074 : Nat) : Int) else ((u >>> 1074 : Nat) : Int))
    else -((2 ^ 63 : Nat) : Int)
  | _ => -((2 ^ 63 : Nat) : Int)

/-- Go `f >= 0` on a `float64`. -/
def Float64.nonneg (f : Float64) : Bool :=
  match f.decode with
  | .finite neg u => !neg || u == 0
  | .inf neg => !neg
  | .nan => false

/-! ## Data model -/

/-- Address of a `ModelRoleConfig` on the heap (a non-nil `*ModelRoleConfig`). -/
abbrev Ref := Nat

/-- The Go type `ModelId` (a string type). -/
abbrev ModelId := String

/-- The Go type `ModelProvider` (a string type). -/
abbrev ModelProvider := String

/-- Modelled from the spec: the declaration of `BaseModelConfig` is not among the sources;
the fields are the ones the embedded functions and `ModelRequest` read. -/
structure BaseModelConfig where
  Provider : ModelProvider
  ModelName : String
  ModelId : ModelId
  ModelTag : String
  MaxOutputTokens : Int
  StopDisabled : Bool
  RoleParamsDisabled : Bool
  SingleMessageNoSystemPrompt : Bool
deriving DecidableEq, Repr

/-- Modelled from the spec: the declaration of `ModelRoleConfig` is not among the sources.
Following the spec it is a role's model selection together with its named fallback links,
each a `*ModelRoleConfig` (`none` is `nil`); the fields are the ones the sources
read or write. -/
structure ModelRoleConfig where
  Role : String
  ModelId : ModelId
  BaseModelConfig : Option BaseModelConfig
  LargeContextFallback : Option Ref
  LargeOutputFallback : Option Ref
  ErrorFallback : Option Ref
deriving DecidableEq, Repr

/-- Modelled from the spec: the result type of `GetSharedBaseConfig` is not among the
sources; `GetRoleForInputTokens` and `GetRoleForOutputTokens` read these two fields. -/
structure BaseModelShared where
  MaxTokens : Int
  TokenEstimatePaddingPct : Float64
deriving DecidableEq

/-- Modelled from the spec: an element of the provider stack that the missing
`GetProvidersForAuthVars` returns; `GetProviderFallback` reads these two fields. -/
structure ModelProviderOption where
  Provider : ModelProvider
  HasClaudeMaxAuth : Bool
deriving DecidableEq, Repr

/-- Modelled from the spec: the result type of the missing `GetAvailableModel`;
`GetProviderFallback` reads its `BaseModelConfig`. -/
structure AvailableModel where
  BaseModelConfig : BaseModelConfig
deriving DecidableEq, Repr

/-- The heap together with the helper methods whose bodies are not among the sources.
Each helper is taken as a parameter, with the arguments that stay fixed during a call
(`settings`, `authVars`, `orgUserConfig`, `customModelsById`) already applied. -/
structure Env where
  /-- The pointee of every non-nil `*ModelRoleConfig`. -/
  heap : Ref → ModelRoleConfig
  /-- The method `c.GetSharedBaseConfig(settings)`. -/
  GetSharedBaseConfig : ModelRoleConfig → BaseModelShared
  /-- The method `c.GetReservedOutputTokens(customModelsById)`. -/
  GetReservedOutputTokens : ModelRoleConfig → Int
  /-- The method `c.GetBaseModelConfig(authVars, settings, orgUserConfig)`. -/
  GetBaseModelConfig : ModelRoleConfig → Option BaseModelConfig
  /-- The method `c.GetProvidersForAuthVars(authVars, settings, orgUserConfig)`. -/
  GetProvidersForAuthVars : ModelRoleConfig → List ModelProviderOption
  /-- The function `GetAvailableModel(provider, modelId)`. -/
  GetAvailableModel : ModelProvider → ModelId → Option AvailableModel

/-! ## `ai_models_large_context.go` -/

/-- The constant `maxFallbackDepth`. -/
def maxFallbackDepth : Nat := 10

/-- The `float64` product `float64(tokens) * (1 + paddingPct)`. -/
def paddedEstimate (tokens : Int) (paddingPct : Float64) : F64 :=
  F64.mul (F64.ofInt tokens) (F64.add F64.one paddingPct.decode)

/-- The padded estimate `int(float64(tokens) * (1 + paddingPct))`. -/
def padTokens (tokens : Int) (paddingPct : Float64) : Int :=
  (paddedEstimate tokens paddingPct).toInt

/-- The loop of `GetFinalLargeContextFallback`. The first argument is the number of
iterations still allowed, `maxFallbackDepth + 1 - n` for the source's counter `n`: the
loop is entered with `n = 0`, and after `n++` it breaks as soon as `n > maxFallbackDepth`,
returning the current config. -/
def finalContextLoop (env : Env) : Nat → ModelRoleConfig → ModelRoleConfig
  | 0, currentConfig => currentConfig
  | remaining + 1, currentConfig =>
    match currentConfig.LargeContextFallback with
    | none => currentConfig
    | some r => finalContextLoop env remaining (env.heap r)

/-- The method `ModelRoleConfig.GetFinalLargeContextFallback`. -/
def GetFinalLargeContextFallback (env : Env) (m : ModelRoleConfig) : ModelRoleConfig :=
  finalContextLoop env (maxFallbackDepth + 1) m

/-- The loop of `GetFinalLargeOutputFallback`, counted as in `finalContextLoop`. -/
def finalOutputLoop (env : Env) : Nat → ModelRoleConfig → ModelRoleConfig
  | 0, currentConfig => currentConfig
  | remaining + 1, currentConfig =>
    match currentConfig.LargeOutputFallback with
    | none => currentConfig
    | some r => finalOutputLoop env remaining (env.heap r)

/-- The method `ModelRoleConfig.GetFinalLargeOutputFallback`. -/
def GetFinalLargeOutputFallback (env : Env) (m : ModelRoleConfig) : ModelRoleConfig :=
  match m.LargeOutputFallback with
  | none => GetFinalLargeContextFallback env m
  | some _ => finalOutputLoop env (maxFallbackDepth + 1) m

/-- The loop of `GetRoleForInputTokens`, counted as in `finalContextLoop`. `maxTokens` is
the variable assigned once before the loop; the loop body never assigns it. -/
def inputLoop (env : Env) (maxTokens inputTokens : Int) :
    Nat → ModelRoleConfig → ModelRoleConfig
  | 0, currentConfig => currentConfig
  | remaining + 1, currentConfig =>
    if maxTokens ≥ inputTokens then currentConfig
    else
      match currentConfig.LargeContextFallback with
      | none => currentConfig
      | some r => inputLoop env maxTokens inputTokens remaining (env.heap r)

/-- The method `ModelRoleConfig.GetRoleForInputTokens`. -/
def GetRoleForInputTokens (env : Env) (m : ModelRoleConfig) (inputTokens : Int) :
    ModelRoleConfig :=
  let sharedBaseConfig := env.GetSharedBaseConfig m
  let maxTokens := sharedBaseConfig.MaxTokens
  let paddingPct := sharedBaseConfig.TokenEstimatePaddingPct
  let inputTokens := padTokens inputTokens paddingPct
  inputLoop env maxTokens inputTokens (maxFallbackDepth + 1) m

/-- The loop of `GetRoleForOutputTokens`, counted as in `finalContextLoop`. -/
def outputLoop (env : Env) (outputTokens : Int) : Nat → ModelRoleConfig → ModelRoleConfig
  | 0, currentConfig => currentConfig
  | remaining + 1, currentConfig =>
    if env.GetReservedOutputTokens currentConfig ≥ outputTokens then currentConfig
    else
      match currentConfig.LargeOutputFallback with
      | none =>
        match currentConfig.LargeContextFallback with
        | none => currentConfig
        | some r => outputLoop env outputTokens remaining (env.heap r)
      | some r => outputLoop env outputTokens remaining (env.heap r)

/-- The method `ModelRoleConfig.GetRoleForOutputTokens`. -/
def GetRoleForOutputTokens (env : Env) (m : ModelRoleConfig) (outputTokens : Int) :
    ModelRoleConfig :=
  let sharedBaseConfig := env.GetSharedBaseConfig m
  let outputTokens := padTokens outputTokens sharedBaseConfig.TokenEstimatePaddingPct
  outputLoop env outputTokens (maxFallbackDepth + 1) m

/-! ### The same loops, one iteration at a time

The traversal loops are embedded a second time as step machines that keep the source's
counter `n` and make a nil dereference an explicit outcome, so that termination and
absence of panics are statements rather than properties of the embedding. -/

/-- What one iteration of a traversal loop does. -/
inductive LoopStep where
  /-- The function returns (a `return`, or the `break` followed by the final `return`). -/
  | ret (c : ModelRoleConfig)
  /-- The loop goes round again with these values of `currentConfig` and `n`. -/
  | next (currentConfig : ModelRoleConfig) (n : Nat)
  /-- A nil pointer is dereferenced. -/
  | nilDeref
deriving DecidableEq

/-- What a bounded number of iterations of a loop leads to. -/
inductive Outcome where
  /-- The function returned this config. -/
  | returned (c : ModelRoleConfig)
  /-- The function panicked on a nil dereference. -/
  | panicked
  /-- The loop is still running after the allowed number of iterations. -/
  | running
deriving DecidableEq

/-- The statements `currentConfig = *p; n++; if n > maxFallbackDepth { break }`, the
`break` leading to `return currentConfig`. -/
def follow (env : Env) (p : Option Ref) (n : Nat) : LoopStep :=
  match p with
  | none => .nilDeref
  | some r =>
    let currentConfig := env.heap r
    let n := n + 1
    if n > maxFallbackDepth then .ret currentConfig else .next currentConfig n

/-- One iteration of the loop of `GetFinalLargeContextFallback`. -/
def finalContextBody (env : Env) (currentConfig : ModelRoleConfig) (n : Nat) : LoopStep :=
  if currentConfig.LargeContextFallback = none then .ret currentConfig
  else follow env currentConfig.LargeContextFallback n

/-- One iteration of the loop of `GetFinalLargeOutputFallback`. -/
def finalOutputBody (env : Env) (currentConfig : ModelRoleConfig) (n : Nat) : LoopStep :=
  if currentConfig.LargeOutputFallback = none then .ret currentConfig
  else follow env currentConfig.LargeOutputFallback n

/-- One iteration of the loop of `GetRoleForInputTokens`. -/
def inputBody (env : Env) (maxTokens inputTokens : Int) (currentConfig : ModelRoleConfig)
    (n : Nat) : LoopStep :=
  if maxTokens ≥ inputTokens then .ret currentConfig
  else if currentConfig.LargeContextFallback = none then .ret currentConfig
  else follow env currentConfig.LargeContextFallback n

/-- One iteration of the loop of `GetRoleForOutputTokens`. -/
def outputBody (env : Env) (outputTokens : Int) (currentConfig : ModelRoleConfig)
    (n : Nat) : LoopStep :=
  if env.GetReservedOutputTokens currentConfig ≥ outputTokens then .ret currentConfig
  else if currentConfig.LargeOutputFallback = none then
    if currentConfig.LargeContextFallback = none then .ret currentConfig
    else follow env currentConfig.LargeContextFallback n
  else follow env currentConfig.LargeOutputFallback n

/-- Run `for { body }` for at most `fuel` iterations. -/
def runLoop (body : ModelRoleConfig → Nat → LoopStep) :
    Nat → ModelRoleConfig → Nat → Outcome
  | 0, _, _ => .running
  | fuel + 1, currentConfig, n =>
    match body currentConfig n with
    | .ret c => .returned c
    | .next c k => runLoop body fuel c k
    | .nilDeref => .panicked

/-- `GetFinalLargeContextFallback`, its loop run for at most `fuel` iterations. -/
def runGetFinalLargeContextFallback (env : Env) (m : ModelRoleConfig) (fuel : Nat) :
    Outcome :=
  runLoop (finalContextBody env) fuel m 0

/-- `GetFinalLargeOutputFallback`, each loop run for at most `fuel` iterations. -/
def runGetFinalLargeOutputFallback (env : Env) (m : ModelRoleConfig) (fuel : Nat) :
    Outcome :=
  if m.LargeOutputFallback = none then runGetFinalLargeContextFallback env m fuel
  else runLoop (finalOutputBody env) fuel m 0

/-- `GetRoleForInputTokens`, its loop run for at most `fuel` iterations. -/
def runGetRoleForInputTokens (env : Env) (m : ModelRoleConfig) (inputTokens : Int)
    (fuel : Nat) : Outcome :=
  let sharedBaseConfig := env.GetSharedBaseConfig m
  let maxTokens := sharedBaseConfig.MaxTokens
  let paddingPct := sharedBaseConfig.TokenEstimatePaddingPct
  let inputTokens := padTokens inputTokens paddingPct
  runLoop (inputBody env maxTokens inputTokens) fuel m 0

/-- `GetRoleForOutputTokens`, its loop run for at most `fuel` iterations. -/
def runGetRoleForOutputTokens (env : Env) (m : ModelRoleConfig) (outputTokens : Int)
    (fuel : Nat) : Outcome :=
  let sharedBaseConfig := env.GetSharedBaseConfig m
  let outputTokens := padTokens outputTokens sharedBaseConfig.TokenEstimatePaddingPct
  runLoop (outputBody env outputTokens) fuel m 0

/-! ### Fallback paths -/

/-- The config reached from `m` by following `k` large-context-fallback links, if the
chain is that long. -/
def contextChain (env : Env) (m : ModelRoleConfig) : Nat → Option ModelRoleConfig
  | 0 => some m
  | k + 1 =>
    match contextChain env m k with
    | none => none
    | some c => c.LargeContextFallback.map env.heap

/-- The link `GetRoleForOutputTokens` follows from a config: its large-output fallback if
defined, otherwise its large-context fallback. -/
def outputLink (c : ModelRoleConfig) : Option Ref :=
  match c.LargeOutputFallback with
  | some r => some r
  | none => c.LargeContextFallback

/-- The config reached from `m` by following `k` links of `outputLink`, if the path is
that long. -/
def outputPath (env : Env) (m : ModelRoleConfig) : Nat → Option ModelRoleConfig
  | 0 => some m
  | k + 1 =>
    match outputPath env m k with
    | none => none
    | some c => (outputLink c).map env.heap

/-! ## `ai_models_errors.go` -/

/-- The Go type `ModelErrKind` (a string type). -/
abbrev ModelErrKind := String

/-- The constant `ErrOverloaded`. -/
def ErrOverloaded : ModelErrKind := "ErrOverloaded"
/-- The constant `ErrContextTooLong`. -/
def ErrContextTooLong : ModelErrKind := "ErrContextTooLong"
/-- The constant `ErrRateLimited`. -/
def ErrRateLimited : ModelErrKind := "ErrRateLimited"
/-- The constant `ErrSubscriptionQuotaExhausted`. -/
def ErrSubscriptionQuotaExhausted : ModelErrKind := "ErrSubscriptionQuotaExhausted"
/-- The constant `ErrOther`. -/
def ErrOther : ModelErrKind := "ErrOther"
/-- The constant `ErrCacheSupport`. -/
def ErrCacheSupport : ModelErrKind := "ErrCacheSupport"

/-- The struct `ModelError`. -/
structure ModelError where
  Kind : ModelErrKind
  Retriable : Bool
  RetryAfterSeconds : Int
deriving DecidableEq, Repr

/-- The method `ModelError.ShouldIncrementRetry`. -/
def ModelError.ShouldIncrementRetry (m : ModelError) : Bool :=
  m.Kind != ErrSubscriptionQuotaExhausted && m.Kind != ErrCacheSupport

/-- Modelled from the spec: the retry counter is kept by callers that are not among the
sources. It starts at zero and is incremented for an error exactly when
`ShouldIncrementRetry` is true of it. -/
def retryCount (errs : List ModelError) : Nat :=
  errs.foldl (fun n e => if e.ShouldIncrementRetry then n + 1 else n) 0

/-- The Go type `FallbackType` (a string type). -/
abbrev FallbackType := String

/-- The constant `FallbackTypeError`. -/
def FallbackTypeError : FallbackType := "error"
/-- The constant `FallbackTypeContext`. -/
def FallbackTypeContext : FallbackType := "context"
/-- The constant `FallbackTypeProvider`. -/
def FallbackTypeProvider : FallbackType := "provider"

/-- A non-nil `*ModelRoleConfig` value as `GetFallbackForModelError` returns it: the
address of a config that is already on the heap, or the address of a newly allocated
config with the given contents (the `&res` of `GetProviderFallback`). -/
inductive RolePtr where
  | addr (r : Ref)
  | fresh (c : ModelRoleConfig)
deriving DecidableEq, Repr

/-- The struct `FallbackResult`. An omitted field of a Go struct literal is the zero
value: `false`, the empty string, `nil`. -/
structure FallbackResult where
  ModelRoleConfig : RolePtr
  IsFallback : Bool
  FallbackType : FallbackType
  BaseModelConfig : Option BaseModelConfig
deriving DecidableEq, Repr

/-- The constant `MAX_RETRIES_BEFORE_FALLBACK`. -/
def MAX_RETRIES_BEFORE_FALLBACK : Int := 1

/-- The provider the loop `for _, p := range providers` of `GetProviderFallback` leaves
in `provider`, which is the empty string before the loop. -/
def findOpenRouter (openRouter : ModelProvider) : List ModelProviderOption → ModelProvider
  | [] => ""
  | p :: rest => if p.Provider = openRouter then p.Provider else findOpenRouter openRouter rest

/-- The method `ModelRoleConfig.GetProviderFallback`; `none` is `nil`, `some res` is
`&res`. The constant `ModelProviderOpenRouter`, whose declaration is not among the
sources, is the parameter `openRouter`; `copier.Copy(&res, m)` copies every field. -/
def GetProviderFallback (env : Env) (openRouter : ModelProvider) (m : ModelRoleConfig) :
    Option ModelRoleConfig :=
  match env.GetProvidersForAuthVars m with
  | [] => none
  | [_] => none
  | firstProvider :: second :: rest =>
    let providers := firstProvider :: second :: rest
    let res := m
    let provider :=
      if !firstProvider.HasClaudeMaxAuth then findOpenRouter openRouter providers else ""
    let provider := if provider = "" then second.Provider else provider
    match env.GetAvailableModel provider m.ModelId with
    | some availableModel =>
      some { res with BaseModelConfig := some availableModel.BaseModelConfig }
    | none => some { res with BaseModelConfig := env.GetBaseModelConfig m }

/-- The method `(*ModelRoleConfig).GetFallbackForModelError` on a non-nil receiver, given
by its address `m`; `modelErr = none` is a nil `*ModelError`. With a nil receiver the
first branch calls the missing method `GetBaseModelConfig` on nil, which the sources do
not determine. The two `log.Println` calls are omitted. -/
def GetFallbackForModelError (env : Env) (openRouter : ModelProvider) (m : Ref)
    (numTotalRetry : Int) (didProviderFallback : Bool) (modelErr : Option ModelError) :
    FallbackResult :=
  let noFallback : FallbackResult :=
    { ModelRoleConfig := .addr m, IsFallback := false, FallbackType := "",
      BaseModelConfig := none }
  match modelErr with
  | none =>
    { ModelRoleConfig := .addr m, BaseModelConfig := env.GetBaseModelConfig (env.heap m),
      IsFallback := false, FallbackType := "" }
  | some modelErr =>
    if modelErr.Kind = ErrContextTooLong then
      match (env.heap m).LargeContextFallback with
      | some r =>
        { ModelRoleConfig := .addr r, BaseModelConfig := env.GetBaseModelConfig (env.heap r),
          FallbackType := FallbackTypeContext, IsFallback := true }
      | none => noFallback
    else if !modelErr.Retriable || numTotalRetry > MAX_RETRIES_BEFORE_FALLBACK then
      match (env.heap m).ErrorFallback with
      | some r =>
        { ModelRoleConfig := .addr r, BaseModelConfig := env.GetBaseModelConfig (env.heap r),
          FallbackType := FallbackTypeError, IsFallback := true }
      | none =>
        if !didProviderFallback then
          match GetProviderFallback env openRouter (env.heap m) with
          | some providerFallback =>
            { ModelRoleConfig := .fresh providerFallback,
              BaseModelConfig := env.GetBaseModelConfig providerFallback,
              FallbackType := FallbackTypeProvider, IsFallback := true }
          | none => noFallback
        else noFallback
    else noFallback

/-! ## `model_request.go`: the stop-sequence shim -/

/-- A Go string: a finite sequence of bytes. -/
abbrev GoString := List UInt8

/-- Search for `substr` in `s`, where `s` starts at offset `i` of the searched string:
the offset of the first occurrence, or `-1`. -/
def indexFrom (substr : GoString) : GoString → Nat → Int
  | [], i => if substr = [] then (i : Int) else -1
  | c :: s, i => if substr.isPrefixOf (c :: s) then (i : Int) else indexFrom substr s (i + 1)

/-- Go standard library `strings.Index(s, substr)`: the index of the first instance of
`substr` in `s`, or `-1` if `substr` is not present in `s`. -/
def Index (s substr : GoString) : Int := indexFrom substr s 0

/-- Go standard library `strings.Contains(s, substr)`. -/
def Contains (s substr : GoString) : Bool := decide (Index s substr ≥ 0)

/-- The `onStream` callback that `ModelRequest` installs when the base model has
`StopDisabled` and `stop` is non-empty; `userOnStream` is `params.OnStream`, `none` is a nil
function value. -/
def onStreamShim (stop : List GoString) (userOnStream : Option (GoString → GoString → Bool))
    (chunk buffer : GoString) : Bool :=
  if stop.any (fun stopSequence => Contains buffer stopSequence) then true
  else
    match userOnStream with
    | some f => f chunk buffer
    | none => false

/-- The loop `for _, s := range stop` of `ModelRequest` on the pair `(earliest, found)`. -/
def stopScan (content : GoString) (stop : List GoString) (init : Int × Bool) : Int × Bool :=
  stop.foldl
    (fun st s =>
      let i := Index content s
      if i != -1 && i < st.1 then (i, true) else st)
    init

/-- The value of `res.Content` that `ModelRequest` returns, as a function of the
`res.Content` that `CreateChatCompletionWithInternalStream` returned (`content`), of
`baseModelConfig.StopDisabled` and of `params.Stop`. -/
def ModelRequestContent (StopDisabled : Bool) (stop : List GoString) (content : GoString) :
    GoString :=
  if StopDisabled && decide (stop.length > 0) then
    let scan := stopScan content stop ((content.length : Int), false)
    let earliest := scan.1
    let found := scan.2
    if found then content.take earliest.toNat else content
  else content

/-! ## Occurrences of a stop string -/

/-- The string `substr` occurs in `s` at byte offset `i`. -/
def OccursAt (s substr : GoString) (i : Nat) : Prop :=
  i ≤ s.length ∧ substr <+: s.drop i

instance (s substr : GoString) (i : Nat) : Decidable (OccursAt s substr i) :=
  inferInstanceAs (Decidable (i ≤ s.length ∧ substr <+: s.drop i))

/-! ## Concrete configurations -/

/-- A role config with the given model and fallback links and nothing else. -/
def mkRole (id : ModelId) (largeContext largeOutput : Option Ref) : ModelRoleConfig :=
  { Role := "planner", ModelId := id, BaseModelConfig := none,
    LargeContextFallback := largeContext, LargeOutputFallback := largeOutput,
    ErrorFallback := none }

/-- An environment with the given heap and token budgets: `limit c` is both the max-token
budget and the reserved-output budget of `c`, the padding percentage is zero, there is no
base model config and no provider. -/
def mkEnv (heap : Ref → ModelRoleConfig) (limit : ModelRoleConfig → Int) : Env :=
  { heap := heap
    GetSharedBaseConfig := fun c => { MaxTokens := limit c, TokenEstimatePaddingPct := ⟨0⟩ }
    GetReservedOutputTokens := limit
    GetBaseModelConfig := fun _ => none
    GetProvidersForAuthVars := fun _ => []
    GetAvailableModel := fun _ _ => none }

/-- A role with an 8k limit whose large-context fallback (address 1) has a 32k limit and
in turn falls back to a config (address 2) with a 128k limit. -/
def smallRole : ModelRoleConfig := mkRole "small" (some 1) none

/-- The first fallback of `smallRole`. -/
def mediumRole : ModelRoleConfig := mkRole "medium" (some 2) none

/-- The last fallback of `smallRole`. -/
def largeRole : ModelRoleConfig := mkRole "large" none none

/-- The environment of `smallRole`, `mediumRole` and `largeRole`. -/
def threeEnv : Env :=
  mkEnv (fun r => if r = 1 then mediumRole else largeRole)
    (fun c => if c.ModelId = "small" then 8000 else if c.ModelId = "medium" then 32000
      else 128000)

/-- An unending chain without repetition: the config at address `r` falls back to the
config at address `r + 1`, and every budget is zero. -/
def longEnv : Env := mkEnv (fun r => mkRole "m" (some (r + 1)) none) (fun _ => 0)

/-- A config that is its own large-context fallback and its own large-output fallback. -/
def selfRole : ModelRoleConfig := mkRole "self" (some 0) (some 0)

/-- A heap on which every address holds `selfRole`, with budgets of 100 tokens. -/
def selfEnv : Env := mkEnv (fun _ => selfRole) (fun _ => 100)

/-- A role with a large-context fallback (address 1) and an error fallback (address 2). -/
def primaryRole : ModelRoleConfig :=
  { Role := "planner", ModelId := "primary", BaseModelConfig := none,
    LargeContextFallback := some 1, LargeOutputFallback := none, ErrorFallback := some 2 }

/-- A heap holding `primaryRole` at address 0 and a role without any fallback everywhere
else, with a stack of two providers for every role. -/
def errEnv : Env :=
  { heap := fun r => if r = 0 then primaryRole else mkRole "bare" none none
    GetSharedBaseConfig := fun _ => { MaxTokens := 8000, TokenEstimatePaddingPct := ⟨0⟩ }
    GetReservedOutputTokens := fun _ => 4000
    GetBaseModelConfig := fun _ => none
    GetProvidersForAuthVars := fun _ =>
      [{ Provider := "anthropic", HasClaudeMaxAuth := false },
       { Provider := "openai", HasClaudeMaxAuth := false }]
    GetAvailableModel := fun _ _ => none }

/-- The provider `GetProviderFallback` selects for a stack of at least two providers
`firstProvider :: second :: rest`: the value of its local variable `provider` when
`GetAvailableModel` is called. -/
def selectedFallbackProvider (openRouter : ModelProvider)
    (firstProvider second : ModelProviderOption) (rest : List ModelProviderOption) :
    ModelProvider :=
  let providers := firstProvider :: second :: rest
  let provider :=
    if !firstProvider.HasClaudeMaxAuth then findOpenRouter openRouter providers else ""
  if provider = "" then second.Provider else provider

/-- A stack of three providers without Claude Max auth, OpenRouter last. -/
def openRouterLastStack : List ModelProviderOption :=
  [{ Provider := "anthropic", HasClaudeMaxAuth := false },
   { Provider := "openai", HasClaudeMaxAuth := false },
   { Provider := "openrouter", HasClaudeMaxAuth := false }]

/-- As `errEnv`, with the provider stack `openRouterLastStack` for every role. -/
def openRouterEnv : Env := { errEnv with GetProvidersForAuthVars := fun _ => openRouterLastStack }

/-! ## `db/git.go`: the retrying executor -/

/-- The bytes of a string literal made of ASCII characters. -/
def bytes (s : String) : GoString := s.toList.map (fun c => UInt8.ofNat c.toNat)

/-- A Go `error` value, identified with its message, the result of `Error()`. -/
structure GoError where
  Error : GoString
deriving DecidableEq, Repr

/-- The verb `%v` of package `fmt` applied to an `error`: its message, and `<nil>` for a
nil error. -/
def fmtError (err : Option GoError) : GoString :=
  match err with
  | none => bytes "<nil>"
  | some e => e.Error

/-- The verb `%v` of package `fmt` applied to a `[]error`: the messages separated by
spaces, in square brackets. -/
def fmtErrors (errs : List GoError) : GoString :=
  bytes "[" ++ List.intercalate (bytes " ") (errs.map (fun e => e.Error)) ++ bytes "]"

/-- The constant `maxGitRetries`. -/
def maxGitRetries : Nat := 5

/-- The constant `time.Millisecond`; a `time.Duration` is a number of nanoseconds. -/
def Millisecond : Int := 1000000

/-- The constant `baseGitRetryDelay`. -/
def baseGitRetryDelay : Int := 100 * Millisecond

/-- The delay before the attempt with index `attempt > 0` of `gitWriteOperation`,
`time.Duration(1<<uint(attempt-1)) * baseGitRetryDelay`. -/
def gitRetryDelay (attempt : Nat) : Int := (2 ^ (attempt - 1) : Nat) * baseGitRetryDelay

/-- The condition under which `gitWriteOperation` retries after an error. -/
def isLockError (err : GoError) : Bool :=
  Contains err.Error (bytes "index.lock") || Contains err.Error (bytes "cannot lock ref")

/-- The effects of `gitWriteOperation` that are observable from outside, in the order in
which they happen. -/
inductive GitEvent where
  /-- The call `time.Sleep(delay)`. -/
  | sleep (delay : Int)
  /-- The call `operation()` made in the iteration `attempt`. -/
  | operation (attempt : Nat)
  /-- The call `gitRemoveIndexLockFileIfExists(repoDir)` made in the iteration `attempt`. -/
  | removeLocks (attempt : Nat)
deriving DecidableEq, Repr

/-- The error `gitWriteOperation` returns after the loop,
`fmt.Errorf("operation %s failed after %d attempts: %v", label, maxGitRetries, err)`;
`%d` of `maxGitRetries` is `5`. -/
def gitRetriesExhausted (label : GoString) (err : Option GoError) : GoError :=
  { Error := bytes "operation " ++ label ++ bytes " failed after " ++ bytes "5"
      ++ bytes " attempts: " ++ fmtError err }

/-- The loop `for attempt := 0; attempt < maxGitRetries; attempt++` of `gitWriteOperation`
and the `return` after it. The first argument is `maxGitRetries - attempt`, `err` is the
variable `err` at the head of the loop. `operation a` is what the call `operation()` of
iteration `a` returns and `removeLocks a` what `gitRemoveIndexLockFileIfExists(repoDir)`
returns in iteration `a` (`none` is nil). The result is the returned error and the events
from this point on. The `log.Printf` calls are omitted. -/
def gitWriteLoop (operation removeLocks : Nat → Option GoError) (label : GoString) :
    Nat → Nat → Option GoError → Option GoError × List GitEvent
  | 0, _, err => (some (gitRetriesExhausted label err), [])
  | remaining + 1, attempt, _ =>
    let backoff := if attempt > 0 then [GitEvent.sleep (gitRetryDelay attempt)] else []
    match operation attempt with
    | none => (none, backoff ++ [GitEvent.operation attempt])
    | some err =>
      if isLockError err then
        let err := removeLocks attempt
        let rest := gitWriteLoop operation removeLocks label remaining (attempt + 1) err
        (rest.1, backoff ++ [GitEvent.operation attempt, GitEvent.removeLocks attempt] ++ rest.2)
      else (some err, backoff ++ [GitEvent.operation attempt])

/-- The function `gitWriteOperation`: the error it returns (`none` is nil) and the events
of the run. -/
def gitWriteOperation (operation removeLocks : Nat → Option GoError) (label : GoString) :
    Option GoError × List GitEvent :=
  gitWriteLoop operation removeLocks label maxGitRetries 0 none

/-- The number of calls of the operation in a run. -/
def invocations (trace : List GitEvent) : Nat :=
  trace.countP (fun ev => match ev with | .operation _ => true | _ => false)

/-- The number of calls of the lock-file cleanup in a run. -/
def cleanups (trace : List GitEvent) : Nat :=
  trace.countP (fun ev => match ev with | .removeLocks _ => true | _ => false)

/-- The delays slept in a run, in order. -/
def sleeps (trace : List GitEvent) : List Int :=
  trace.filterMap (fun ev => match ev with | .sleep d => some d | _ => none)

/-- The events of an iteration in which the operation is called and nothing is cleaned up:
for an iteration other than the first a sleep of `gitRetryDelay attempt`, then the call. -/
def lastAttempt (attempt : Nat) : List GitEvent :=
  (if attempt > 0 then [GitEvent.sleep (gitRetryDelay attempt)] else [])
    ++ [GitEvent.operation attempt]

/-- The events of an iteration in which the operation fails with a lock error: those of
`lastAttempt`, then the lock-file cleanup. -/
def failedAttempt (attempt : Nat) : List GitEvent :=
  lastAttempt attempt ++ [GitEvent.removeLocks attempt]

/-- The events of `count` consecutive iterations from `attempt` on in each of which the
operation fails with a lock error. -/
def failedAttempts (attempt : Nat) : Nat → List GitEvent
  | 0 => []
  | count + 1 => failedAttempt attempt ++ failedAttempts (attempt + 1) count

/-- An operation that fails with a lock error in its first `k` calls and succeeds in
every later one. -/
def lockedThenOk (k : Nat) (attempt : Nat) : Option GoError :=
  if attempt < k then
    some { Error := bytes "fatal: Unable to create '.git/index.lock': File exists." }
  else none

/-- An operation that fails with a lock error twice and then with another error. -/
def lockedThenFatal (attempt : Nat) : Option GoError :=
  if attempt < 2 then some { Error := bytes "error: cannot lock ref 'refs/heads/main'" }
  else some { Error := bytes "fatal: not a git repository" }

/-! ## `db/git.go`: removal of the lock files -/

/-- What the operating system answers to `removeLockFile` on one path. -/
structure LockFileFs where
  /-- The first `os.Stat(path)` reports that the file does not exist. -/
  absentBefore : Bool
  /-- The result of `os.Remove(path)`. -/
  removeErr : Option GoError
  /-- The second `os.Stat(path)` reports that the file does not exist. -/
  absentAfter : Bool
deriving DecidableEq, Repr

/-- The function `removeLockFile`; `none` is nil. The `log.Printf` calls are omitted. -/
def removeLockFile (path : GoString) (fs : LockFileFs) : Option GoError :=
  if fs.absentBefore then none
  else
    match fs.removeErr with
    | some err =>
      some { Error := bytes "error removing lock file " ++ path ++ bytes ": " ++ err.Error }
    | none =>
      if !fs.absentAfter then
        some { Error := bytes "lock file " ++ path ++ bytes " still exists after removal" }
      else none

/-- Go standard library `filepath.Join` on elements that are non-empty and need no
cleaning: the elements separated by slashes. -/
def joinPath (elems : List GoString) : GoString := List.intercalate (bytes "/") elems

/-- The slice `paths` of `gitRemoveIndexLockFileIfExists`. -/
def lockFilePaths (repoDir : GoString) : List GoString :=
  [joinPath [repoDir, bytes ".git", bytes "index.lock"],
   joinPath [repoDir, bytes ".git", bytes "refs", bytes "heads", bytes "HEAD.lock"],
   joinPath [repoDir, bytes ".git", bytes "HEAD.lock"]]

/-- What the goroutines of `gitRemoveIndexLockFileIfExists` send on `errCh`, listed by
goroutine: the goroutine started for `paths[i]` sends the result of `removeLockFile` on
that path, `fs i` being the answers of the operating system for it. -/
def lockFileResults (repoDir : GoString) (fs : Nat → LockFileFs) : List (Option GoError) :=
  List.zipWith (fun path i => removeLockFile path (fs i)) (lockFilePaths repoDir)
    (List.range (lockFilePaths repoDir).length)

/-- The function `gitRemoveIndexLockFileIfExists`; `none` is nil. The goroutines run
concurrently, so the values arrive on `errCh` in some order: `order` lists the goroutines
in the order in which their values are received, a permutation of `0, 1, 2`. The recovery
from a panic is omitted, `removeLockFile` having none in this embedding. -/
def gitRemoveIndexLockFileIfExists (repoDir : GoString) (fs : Nat → LockFileFs)
    (order : List Nat) : Option GoError :=
  let errs := order.filterMap (fun i => (lockFileResults repoDir fs).getD i none)
  if errs.length > 0 then
    some { Error := bytes "error removing lock files: " ++ fmtErrors errs }
  else none

/-- The operating system's answers when the lock file exists and is removed. -/
def fsRemoved : LockFileFs := { absentBefore := false, removeErr := none, absentAfter := true }

/-- The operating system's answers when the lock file exists and cannot be removed. -/
def fsDenied : LockFileFs :=
  { absentBefore := false, removeErr := some { Error := bytes "permission denied" },
    absentAfter := false }

/-! ## `app/server/pkg/llmlog`: the logger of package `plandex-server/pkg/llmlog` -/

/-- The struct `Filters` of `config.go`. -/
structure Filters where
  Roles : List GoString
  Providers : List GoString
deriving DecidableEq, Repr

/-- The struct `Config` of `config.go`. -/
structure Config where
  Enabled : Bool
  FilePath : GoString
  Format : GoString
  Level : GoString
  RetentionDays : Int
  MaxFileSize : GoString
  IncludeContent : Bool
  IncludeSensitive : Bool
  Filters : Filters
deriving DecidableEq, Repr

/-- An `*os.File` that is not nil: `os.Stdout`, or the file opened at a path. -/
inductive File where
  | stdout
  | opened (path : GoString)
deriving DecidableEq, Repr

/-- What the operating system and the standard library answer during one call of a
method of a logger. -/
structure IoOutcome where
  /-- The formatted time `time.Now().UTC().Format(time.RFC3339Nano)`. -/
  now : GoString
  /-- The error of `json.Marshal`. -/
  marshalErr : Option GoError
  /-- The error of `l.out.Write`. -/
  writeErr : Option GoError
  /-- The error of `l.file.Sync`. -/
  syncErr : Option GoError
  /-- The error of `l.file.Close`. -/
  closeErr : Option GoError
deriving DecidableEq, Repr

/-- The error `fmt.Errorf(prefix + ": %w", err)`. -/
def wrapError (description : String) (err : GoError) : GoError :=
  { Error := bytes description ++ bytes ": " ++ err.Error }

/-- The error `fmt.Errorf(description + ": %v", err)`. -/
def wrapErrorV (description : String) (err : GoError) : GoError :=
  { Error := bytes description ++ bytes ": " ++ err.Error }

/-- Go standard library `filepath.Dir` on a path that needs no cleaning: the path up to
its last slash, `/` for a file of the root directory and `.` for a path without slash. -/
def filepathDir (path : GoString) : GoString :=
  let dir := (path.reverse.dropWhile (fun c => c != 47)).drop 1
  if path.contains 47 then (if dir = [] then bytes "/" else dir.reverse) else bytes "."

namespace ServerLlmlog

/-- The struct `Logger`; the atomic booleans are their values, the mutex and the wait
group have no state in a sequential run. -/
structure Logger where
  cfg : Config
  out : File
  file : Option File
  enabled : Bool
  closed : Bool
deriving DecidableEq, Repr

/-- The function `NewLogger`: the pair it returns, `none` being nil. `mkdirErr` is the
error of `os.MkdirAll(dir, 0755)` and `openErr` the error of `os.OpenFile`. -/
def NewLogger (cfg : Config) (mkdirErr openErr : Option GoError) :
    Option Logger × Option GoError :=
  if cfg.Enabled && cfg.FilePath != [] then
    let dir := filepathDir cfg.FilePath
    match mkdirErr with
    | some err =>
      (none, some { Error := bytes "failed to create log directory " ++ dir ++ bytes ": "
        ++ err.Error })
    | none =>
      match openErr with
      | some err =>
        (none, some { Error := bytes "failed to open log file " ++ cfg.FilePath ++ bytes ": "
          ++ err.Error })
      | none =>
        (some { cfg := cfg, enabled := cfg.Enabled, closed := false,
                out := File.opened cfg.FilePath, file := some (File.opened cfg.FilePath) },
          none)
  else
    (some { cfg := cfg, enabled := cfg.Enabled, closed := false, out := File.stdout,
            file := none }, none)

/-- A message of an `LLMRequest`, by its role and its content. -/
structure ChatMessage where
  Role : GoString
  Content : GoString
deriving DecidableEq, Repr

/-- The struct `LLMRequest` of `wrapper.go`, without the fields `Temperature` (a float) and
`Input` (an `interface{}`), which the logger does not inspect; `Timestamp` is the
formatted time. -/
structure LLMRequest where
  RequestID : GoString
  Model : GoString
  Messages : List ChatMessage
  MaxTokens : Int
  Timestamp : GoString
  Provider : GoString
deriving DecidableEq, Repr

/-- The map handed to `logJSON`, by the value of its key `type` and the values of its
other keys. -/
inductive LogEntry where
  | request (req : LLMRequest)
  | streamChunk (timestamp requestID chunk : GoString)
  | streamEnd (timestamp requestID : GoString) (error : Option GoString)
  | error (timestamp requestID error : GoString)
  | log (timestamp data : GoString)
deriving DecidableEq, Repr

/-- A logger together with everything handed to `out.Write` so far, oldest first: the
writer and the entry whose encoding was handed to it. -/
structure LogState where
  logger : Logger
  written : List (File × LogEntry)
deriving DecidableEq, Repr

/-- The method `Logger.logJSON`. -/
def logJSON (s : LogState) (io : IoOutcome) (data : LogEntry) : LogState × Option GoError :=
  if s.logger.closed then (s, some { Error := bytes "logger is closed" })
  else
    match io.marshalErr with
    | some err => (s, some (wrapError "failed to marshal log entry" err))
    | none =>
      let s := { s with written := s.written ++ [(s.logger.out, data)] }
      match io.writeErr with
      | some err => (s, some (wrapError "failed to write log" err))
      | none => (s, none)

/-- The method `Logger.LogRequest`. -/
def LogRequest (s : LogState) (io : IoOutcome) (req : LLMRequest) : LogState × Option GoError :=
  if !s.logger.enabled || s.logger.closed then (s, none)
  else logJSON s io (LogEntry.request req)

/-- The method `Logger.LogStreamChunk`. -/
def LogStreamChunk (s : LogState) (io : IoOutcome) (requestID chunk : GoString) :
    LogState × Option GoError :=
  if !s.logger.enabled || s.logger.closed || chunk == [] then (s, none)
  else logJSON s io (LogEntry.streamChunk io.now requestID chunk)

/-- The method `Logger.LogStreamEnd`. -/
def LogStreamEnd (s : LogState) (io : IoOutcome) (requestID : GoString) (err : Option GoError) :
    LogState × Option GoError :=
  if !s.logger.enabled || s.logger.closed then (s, none)
  else logJSON s io (LogEntry.streamEnd io.now requestID (err.map (fun e => e.Error)))

/-- The method `Logger.LogError`. -/
def LogError (s : LogState) (io : IoOutcome) (requestID : GoString) (err : Option GoError) :
    LogState × Option GoError :=
  match err with
  | none => (s, none)
  | some err =>
    if !s.logger.enabled || s.logger.closed then (s, none)
    else logJSON s io (LogEntry.error io.now requestID err.Error)

/-- The dynamic type of the argument `entry` of `Logger.Log`. -/
inductive LogArg where
  | request (req : LLMRequest)
  | error (err : GoError)
  | other (data : GoString)
deriving DecidableEq, Repr

/-- The method `Logger.Log`. -/
def Log (s : LogState) (io : IoOutcome) (entry : LogArg) : LogState × Option GoError :=
  if !s.logger.enabled || s.logger.closed then (s, none)
  else
    match entry with
    | .request v => LogRequest s io v
    | .error v => LogError s io (bytes "") (some v)
    | .other data => logJSON s io (LogEntry.log io.now data)

/-- The method `Logger.Close`. -/
def Close (s : LogState) (io : IoOutcome) : LogState × Option GoError :=
  if s.logger.closed then (s, none)
  else
    let s := { s with logger := { s.logger with closed := true, enabled := false } }
    match s.logger.file with
    | some file =>
      if file != File.stdout then
        match io.syncErr with
        | some err => (s, some (wrapError "failed to sync log file" err))
        | none =>
          match io.closeErr with
          | some err => (s, some (wrapError "failed to close log file" err))
          | none => (s, none)
      else (s, none)
    | none => (s, none)

/-- The method `Logger.EnableLogging`. -/
def EnableLogging (s : LogState) : LogState :=
  if !s.logger.closed then { s with logger := { s.logger with enabled := true } } else s

/-- The method `Logger.DisableLogging`. -/
def DisableLogging (s : LogState) : LogState :=
  { s with logger := { s.logger with enabled := false } }

/-- The method `Logger.IsEnabled`. -/
def IsEnabled (s : LogState) : Bool := s.logger.enabled && !s.logger.closed

/-- The method `Logger.IsClosed`. -/
def IsClosed (s : LogState) : Bool := s.logger.closed

/-- A call of one of the methods of a logger that log or that change its state. -/
inductive Call where
  | LogRequest (req : LLMRequest)
  | LogStreamChunk (requestID chunk : GoString)
  | LogStreamEnd (requestID : GoString) (err : Option GoError)
  | LogError (requestID : GoString) (err : Option GoError)
  | Log (entry : LogArg)
  | Close
  | EnableLogging
  | DisableLogging
deriving DecidableEq, Repr

/-- The effect of a call and the error it returns; the methods without result return
`none`. -/
def perform (s : LogState) (io : IoOutcome) : Call → LogState × Option GoError
  | .LogRequest req => LogRequest s io req
  | .LogStreamChunk requestID chunk => LogStreamChunk s io requestID chunk
  | .LogStreamEnd requestID err => LogStreamEnd s io requestID err
  | .LogError requestID err => LogError s io requestID err
  | .Log entry => Log s io entry
  | .Close => Close s io
  | .EnableLogging => (EnableLogging s, none)
  | .DisableLogging => (DisableLogging s, none)

/-- The effect of a sequence of calls and the errors they return, in order. -/
def performAll (s : LogState) : List (Call × IoOutcome) → LogState × List (Option GoError)
  | [] => (s, [])
  | (call, io) :: rest =>
    let r := perform s io call
    let rs := performAll r.1 rest
    (rs.1, r.2 :: rs.2)

end ServerLlmlog

/-! ## `pkg/llmlog`: the logger of the top-level package -/

namespace Llmlog

/-- The struct `Logger` of `pkg/llmlog/logger.go`. -/
structure Logger where
  cfg : Config
  out : File
  file : Option File
  enabled : Bool
deriving DecidableEq, Repr

/-- The function `NewLogger` of `pkg/llmlog/logger.go`, with the same conventions as
`ServerLlmlog.NewLogger`. The declaration of its `Config` is not among the sources; it
reads the fields `Enabled` and `FilePath`. -/
def NewLogger (cfg : Config) (mkdirErr openErr : Option GoError) :
    Option Logger × Option GoError :=
  if cfg.Enabled && cfg.FilePath != [] then
    match mkdirErr with
    | some _ => (some { cfg := cfg, enabled := cfg.Enabled, out := File.stdout, file := none }, none)
    | none =>
      match openErr with
      | some _ =>
        (some { cfg := cfg, enabled := cfg.Enabled, out := File.stdout, file := none }, none)
      | none =>
        (some { cfg := cfg, enabled := cfg.Enabled, out := File.opened cfg.FilePath,
                file := some (File.opened cfg.FilePath) }, none)
  else (some { cfg := cfg, enabled := cfg.Enabled, out := File.stdout, file := none }, none)

/-- The method `Logger.Close` of `pkg/llmlog/logger.go`; `closeErr` is the error of
`l.file.Close()`. -/
def Close (l : Logger) (closeErr : Option GoError) : Logger × Option GoError :=
  match l.file with
  | some _ => ({ l with file := none }, closeErr)
  | none => (l, none)

end Llmlog

/-- A config that enables logging to a file below a directory that cannot be created. -/
def unwritableConfig : Config :=
  { Enabled := true, FilePath := bytes "/root/llmlog_should_fail/test.log", Format := bytes "json",
    Level := bytes "basic", RetentionDays := 7, MaxFileSize := bytes "100MB",
    IncludeContent := true, IncludeSensitive := false,
    Filters := { Roles := [bytes "*"], Providers := [bytes "*"] } }

/-- The operating system's answers when nothing fails. -/
def ioOk : IoOutcome :=
  { now := bytes "2025-01-01T00:00:00Z", marshalErr := none, writeErr := none, syncErr := none,
    closeErr := none }

/-- An enabled logger that writes to an open file, with nothing written yet. -/
def openLogState : ServerLlmlog.LogState :=
  { logger := { cfg := unwritableConfig, out := File.opened (bytes "/tmp/llm.log"),
                file := some (File.opened (bytes "/tmp/llm.log")), enabled := true,
                closed := false },
    written := [] }

/-- A request to log. -/
def sampleRequest : ServerLlmlog.LLMRequest :=
  { RequestID := bytes "r1", Model := bytes "m", Messages := [], MaxTokens := 100,
    Timestamp := bytes "2025-01-01T00:00:00Z", Provider := bytes "p" }

/-! ## `handlers/stream_helper.go`: connecting to an active plan -/

/-- Modelled from the spec: the type tag of a streamed event; the declaration of
`StreamMessageType` and of its constants is not among the sources. -/
inductive StreamMessageType where
  | start
  | connectActive
  | contentChunk
  | buildInfo
  | heartbeat
  | error
  | aborted
  | done
deriving DecidableEq, Repr

/-- Modelled from the spec: the struct `BuildInfo`, whose declaration is not among the
sources, with the fields `initConnectActive` assigns. -/
structure BuildInfo where
  Path : GoString
  NumTokens : Int
  Finished : Bool
deriving DecidableEq, Repr

/-- Modelled from the spec: the struct `StreamMessage`, whose declaration is not among the
sources, with the fields `initConnectActive` assigns; `MessageType` is the field `Type`. An
omitted field of a Go struct literal is the zero value. -/
structure StreamMessage where
  MessageType : StreamMessageType
  InitPrompt : GoString
  InitBuildOnly : Bool
  InitReplies : List GoString
  MissingFilePath : GoString
  BuildInfo : Option BuildInfo
deriving DecidableEq, Repr

/-- Modelled from the spec: a build of a build queue, whose declaration is not among the
sources, by the result of its method `BuildFinished()`. -/
structure ActiveBuild where
  BuildFinished : Bool
deriving DecidableEq, Repr

/-- Modelled from the spec: the struct `ActivePlan`, whose declaration is not among the
sources, with the fields `initConnectActive` reads. The map `BuildQueuesByPath` is the
list of its entries in the order in which `range` visits them. -/
structure ActivePlan where
  Id : GoString
  Prompt : GoString
  BuildOnly : Bool
  StoredReplyIds : List GoString
  CurrentReplyContent : GoString
  MissingFilePath : GoString
  BuildQueuesByPath : List (GoString × List ActiveBuild)
deriving DecidableEq, Repr

/-- Modelled from the spec: the struct `db.ConvoMessage`, whose declaration is not among
the sources, with the fields `initConnectActive` and `resolvePromptMessage` read. -/
structure ConvoMessage where
  Id : GoString
  Role : GoString
  Message : GoString
deriving DecidableEq, Repr

/-- The map `convoMsgById` after the loop `for _, convoMsg := range convo`. -/
def convoMsgById (convo : List ConvoMessage) : GoString → Option ConvoMessage :=
  convo.foldl (fun m convoMsg => fun id => if id = convoMsg.Id then some convoMsg else m id)
    (fun _ => none)

/-- The slice `msg.InitReplies` after the loop `for _, replyId := range
active.StoredReplyIds`, starting from `init`. -/
def appendStoredReplies (convo : List ConvoMessage) (storedReplyIds : List GoString)
    (init : List GoString) : List GoString :=
  storedReplyIds.foldl
    (fun replies replyId =>
      match convoMsgById convo replyId with
      | some convoMsg => replies ++ [convoMsg.Message]
      | none => replies)
    init

/-- The message `initConnectActive` has built when it reaches the first `json.Marshal`;
`convo` is what `db.GetPlanConvo` returned, which is only read when
`len(active.StoredReplyIds) > 0`. -/
def connectActiveMessage (active : ActivePlan) (convo : List ConvoMessage) : StreamMessage :=
  let msg : StreamMessage :=
    { MessageType := StreamMessageType.connectActive, InitPrompt := [], InitBuildOnly := false,
      InitReplies := [], MissingFilePath := [], BuildInfo := none }
  let msg :=
    if active.Prompt != [] && !active.BuildOnly then { msg with InitPrompt := active.Prompt }
    else msg
  let msg := if active.BuildOnly then { msg with InitBuildOnly := true } else msg
  let msg :=
    if active.StoredReplyIds.length > 0 then
      { msg with InitReplies := appendStoredReplies convo active.StoredReplyIds msg.InitReplies }
    else msg
  let msg :=
    if active.CurrentReplyContent != [] then
      { msg with InitReplies := msg.InitReplies ++ [active.CurrentReplyContent] }
    else msg
  if active.MissingFilePath != [] then { msg with MissingFilePath := active.MissingFilePath }
  else msg

/-- The struct `buildInfo` after the loop `for _, build := range queue`. -/
def queueBuildInfo (path : GoString) (queue : List ActiveBuild) : BuildInfo :=
  queue.foldl
    (fun buildInfo build =>
      if build.BuildFinished then { buildInfo with NumTokens := 0, Finished := true }
      else { buildInfo with Finished := false })
    { Path := path, NumTokens := 0, Finished := false }

/-- How a call of `initConnectActive` ends. -/
inductive InitResult where
  /-- It returns nil. -/
  | ok
  /-- It returns this error. -/
  | failed (err : GoError)
  /-- It dereferences the nil result of the second `GetActivePlan`. -/
  | nilDeref
deriving DecidableEq, Repr

/-- The loop `for path, queue := range buildQueuesByPath` of `initConnectActive`: the
messages handed to `sendStreamMessage`, in order, and how the function ends. The message of
the entry at position `i` of the remaining entries is the one with index `index + i`;
`marshalErr k` is the error of `json.Marshal` for the message with index `k` and
`writeErr k` the error of `sendStreamMessage` for it. -/
def sendBuildInfos (marshalErr writeErr : Nat → Option GoError) :
    List (GoString × List ActiveBuild) → Nat → List StreamMessage × InitResult
  | [], _ => ([], InitResult.ok)
  | (path, queue) :: rest, index =>
    let msg : StreamMessage :=
      { MessageType := StreamMessageType.buildInfo, InitPrompt := [], InitBuildOnly := false,
        InitReplies := [], MissingFilePath := [],
        BuildInfo := some (queueBuildInfo path queue) }
    match marshalErr index with
    | some err => ([], InitResult.failed (wrapErrorV "error marshalling message" err))
    | none =>
      match writeErr index with
      | some err => ([msg], InitResult.failed (wrapErrorV "error sending message" err))
      | none =>
        let r := sendBuildInfos marshalErr writeErr rest (index + 1)
        (msg :: r.1, r.2)

/-- The function `initConnectActive`: the messages handed to `sendStreamMessage`, in
order, and how the function ends. `active` is the result of the first
`modelPlan.GetActivePlan`, `getPlanConvo` the result of `db.GetPlanConvo`, `activeLater` the
result of the second `modelPlan.GetActivePlan`; the connect message has index 0 for
`marshalErr` and `writeErr`. The `log.Println` calls are omitted. -/
def initConnectActive (planId branch : GoString) (active : Option ActivePlan)
    (getPlanConvo : Except GoError (List ConvoMessage)) (activeLater : Option ActivePlan)
    (marshalErr writeErr : Nat → Option GoError) : List StreamMessage × InitResult :=
  match active with
  | none =>
    ([], InitResult.failed
      ⟨bytes "active plan not found for plan ID " ++ planId ++ bytes " on branch " ++ branch⟩)
  | some active =>
    match (if active.StoredReplyIds.length > 0 then getPlanConvo else Except.ok []) with
    | Except.error err => ([], InitResult.failed (wrapErrorV "error getting plan convo" err))
    | Except.ok convo =>
      let msg := connectActiveMessage active convo
      match marshalErr 0 with
      | some err => ([], InitResult.failed (wrapErrorV "error marshalling message" err))
      | none =>
        match writeErr 0 with
        | some err => ([msg], InitResult.failed (wrapErrorV "error sending connect message" err))
        | none =>
          match activeLater with
          | none => ([msg], InitResult.nilDeref)
          | some activeLater =>
            let r := sendBuildInfos marshalErr writeErr activeLater.BuildQueuesByPath 1
            (msg :: r.1, r.2)

/-- An active plan with two stored replies, a reply in progress and two build queues. -/
def sampleActivePlan : ActivePlan :=
  { Id := bytes "P1", Prompt := bytes "add a test", BuildOnly := false,
    StoredReplyIds := [bytes "r1", bytes "r2"], CurrentReplyContent := bytes "third",
    MissingFilePath := [],
    BuildQueuesByPath :=
      [(bytes "a.go", [{ BuildFinished := true }]), (bytes "b.go", [{ BuildFinished := false }])] }

/-- The conversation of `sampleActivePlan`: a prompt and the two stored replies. -/
def sampleConvo : List ConvoMessage :=
  [{ Id := bytes "u1", Role := bytes "user", Message := bytes "add a test" },
   { Id := bytes "r1", Role := bytes "assistant", Message := bytes "first" },
   { Id := bytes "r2", Role := bytes "assistant", Message := bytes "second" }]

/-- The message the conversation holds for a reply id: the text of the conversation message
with that id, the last one if several messages share the id, and the empty string if there
is none. -/
def heldMessage (convo : List ConvoMessage) (id : GoString) : GoString :=
  match (convo.filter (fun c => c.Id == id)).getLast? with
  | some c => c.Message
  | none => []

/-- The conversation of `sampleActivePlan` without the message of the stored reply `r2`. -/
def shortConvo : List ConvoMessage :=
  [{ Id := bytes "u1", Role := bytes "user", Message := bytes "add a test" },
   { Id := bytes "r1", Role := bytes "assistant", Message := bytes "first" }]

/-! ## `db/branch_helpers.go`: creating and deleting a branch -/

/-- What exists for one branch name of one plan, in the database and in the git
repository. The effects of the calls on the database and on git are those the calls
report: a call that returns an error has changed nothing, a call that returns nil has done
what it is for. -/
structure BranchStore where
  /-- The table `branches` has a committed row for the name. -/
  row : Bool
  /-- The open transaction has inserted a row for the name and has not committed it. -/
  txInserted : Bool
  /-- The open transaction has deleted the row for the name and has not committed that. -/
  txDeleted : Bool
  /-- The git repository has a branch of the name. -/
  gitBranch : Bool
  /-- The sum of the increments of the active-branch count that succeeded. -/
  activeBranches : Int
deriving DecidableEq, Repr

/-- The function `CreateBranch`: the store afterwards and the error it returns (`none` is
nil; the `*Branch` it returns is nil exactly when the error is not). `hasTx` tells whether
`tx` is non-nil, `insertErr` is the error of the `INSERT` (run on `tx` if there is one, on
`Conn` otherwise), `gitErr` the error of `repo.GitCreateBranch(name)` and `incErr` the error
of `IncActiveBranches(plan.Id, 1, tx)`. -/
def CreateBranch (hasTx : Bool) (name : GoString) (insertErr gitErr incErr : Option GoError)
    (store : BranchStore) : BranchStore × Option GoError :=
  match insertErr with
  | some err => (store, some (wrapErrorV "error creating branch" err))
  | none =>
    let store := if hasTx then { store with txInserted := true } else { store with row := true }
    let afterGit : BranchStore × Option GoError :=
      if name != bytes "main" then
        match gitErr with
        | some err => (store, some (wrapErrorV "error creating git branch" err))
        | none => ({ store with gitBranch := true }, none)
      else (store, none)
    match afterGit.2 with
    | some err => (afterGit.1, some err)
    | none =>
      match incErr with
      | some err => (afterGit.1, some (wrapErrorV "error incrementing active branches" err))
      | none => ({ afterGit.1 with activeBranches := afterGit.1.activeBranches + 1 }, none)

/-- The function that `DeleteBranch` passes to `WithTx`: the store afterwards and the
error it returns. `deleteErr` is the error of the `DELETE` run on `tx`, `incErr` the error of
`IncActiveBranches(planId, -1, tx)` and `gitErr` the error of `repo.GitDeleteBranch(branch)`. -/
def deleteBranchTx (deleteErr incErr gitErr : Option GoError) (store : BranchStore) :
    BranchStore × Option GoError :=
  match deleteErr with
  | some err => (store, some (wrapErrorV "error deleting branch" err))
  | none =>
    let store := { store with txDeleted := true }
    match incErr with
    | some err => (store, some (wrapErrorV "error decrementing active branches" err))
    | none =>
      let store := { store with activeBranches := store.activeBranches - 1 }
      match gitErr with
      | some err => (store, some (wrapErrorV "error deleting branch dir" err))
      | none => ({ store with gitBranch := false }, none)

/-- Modelled from the spec: the function `WithTx`, which is not among the sources. It runs
`fn` in a database transaction of its own and returns what `fn` returns: when `fn` returns
nil the transaction is committed, when `fn` returns an error it is rolled back, so that the
database is as it was before the call. The git repository is not part of the transaction:
what `fn` did to it stays. Beginning and committing the transaction are taken to
succeed. -/
def WithTx (fn : BranchStore → BranchStore × Option GoError) (store : BranchStore) :
    BranchStore × Option GoError :=
  let r := fn store
  match r.2 with
  | some err => ({ store with gitBranch := r.1.gitBranch }, some err)
  | none =>
    ({ r.1 with
        row := if r.1.txDeleted then false else if r.1.txInserted then true else r.1.row,
        txInserted := false, txDeleted := false },
     none)

/-- The function `DeleteBranch`. -/
def DeleteBranch (deleteErr incErr gitErr : Option GoError) (store : BranchStore) :
    BranchStore × Option GoError :=
  WithTx (deleteBranchTx deleteErr incErr gitErr) store

/-- A store in which the branch exists neither in the database nor in git. -/
def noBranch : BranchStore :=
  { row := false, txInserted := false, txDeleted := false, gitBranch := false,
    activeBranches := 0 }

/-- A store in which the branch exists in the database and in git. -/
def fullBranch : BranchStore :=
  { row := true, txInserted := false, txDeleted := false, gitBranch := true,
    activeBranches := 1 }

/-- A base model config for the model of the given name. -/
def mkBase (name : String) : BaseModelConfig :=
  { Provider := "openai", ModelName := name, ModelId := name, ModelTag := name,
    MaxOutputTokens := 4000, StopDisabled := false, RoleParamsDisabled := false,
    SingleMessageNoSystemPrompt := false }

/-- As `threeEnv`, with a base model config for every role, named after the role's
model. -/
def threeBaseEnv : Env :=
  { threeEnv with GetBaseModelConfig := fun c => some (mkBase c.ModelId) }

/-! ## `app/server/pkg/llmlog/config.go`: comma-separated environment variables -/

/-- Go standard library `strings.Split(s, sep)` for a separator `sep` of one byte: the
substrings of `s` between the separators, `s` itself as only element when `s` does not
contain the separator. -/
def splitByte (sep : UInt8) : GoString → List GoString
  | [] => [[]]
  | c :: s =>
    if c = sep then [] :: splitByte sep s
    else
      match splitByte sep s with
      | [] => [[c]]
      | item :: items => (c :: item) :: items

/-- The white space characters of Unicode, each in its UTF-8 encoding: the code points for
which Go's `unicode.IsSpace` is true. They are U+0009 to U+000D, U+0020, U+0085, U+00A0,
U+1680, U+2000 to U+200A, U+2028, U+2029, U+202F, U+205F and U+3000. -/
def whiteSpace : List GoString :=
  [[0x09], [0x0A], [0x0B], [0x0C], [0x0D], [0x20], [0xC2, 0x85], [0xC2, 0xA0],
   [0xE1, 0x9A, 0x80],
   [0xE2, 0x80, 0x80], [0xE2, 0x80, 0x81], [0xE2, 0x80, 0x82], [0xE2, 0x80, 0x83],
   [0xE2, 0x80, 0x84], [0xE2, 0x80, 0x85], [0xE2, 0x80, 0x86], [0xE2, 0x80, 0x87],
   [0xE2, 0x80, 0x88], [0xE2, 0x80, 0x89], [0xE2, 0x80, 0x8A],
   [0xE2, 0x80, 0xA8], [0xE2, 0x80, 0xA9], [0xE2, 0x80, 0xAF], [0xE2, 0x81, 0x9F],
   [0xE3, 0x80, 0x80]]

/-- The white space character that `s` starts with, if it starts with one. -/
def leadingSpace (s : GoString) : Option GoString :=
  whiteSpace.find? (fun e => e.isPrefixOf s)

/-- The white space character that `s` ends with, if it ends with one. -/
def trailingSpace (s : GoString) : Option GoString :=
  whiteSpace.find? (fun e => e.isSuffixOf s)

/-- Removal of leading white space, at most `fuel` characters of it. -/
def trimLeftSpace : Nat → GoString → GoString
  | 0, s => s
  | fuel + 1, s =>
    match leadingSpace s with
    | some e => trimLeftSpace fuel (s.drop e.length)
    | none => s

/-- Removal of trailing white space, at most `fuel` characters of it. -/
def trimRightSpace : Nat → GoString → GoString
  | 0, s => s
  | fuel + 1, s =>
    match trailingSpace s with
    | some e => trimRightSpace fuel (s.take (s.length - e.length))
    | none => s

/-- Go standard library `strings.TrimSpace(s)`: `s` with all leading and trailing white
space removed, as defined by Unicode. The library decodes one character at a time, from the
front and then from the back; a character it decodes is a white space character exactly
when the bytes at that end are one of the encodings of `whiteSpace`, since every other byte
sequence decodes to a character that is not white space or to the replacement character
of an invalid encoding, which is not white space either. -/
def TrimSpace (s : GoString) : GoString :=
  let t := trimLeftSpace s.length s
  trimRightSpace t.length t

/-- The string `s` consists of white space characters only. -/
def IsWhiteSpace (s : GoString) : Prop :=
  ∃ chars : List GoString, (∀ c ∈ chars, c ∈ whiteSpace) ∧ s = chars.flatten

/-- The slice `out` of `getEnvCSV` after the loop `for _, p := range parts`, starting from
`out`. -/
def appendTrimmed (parts : List GoString) (out : List GoString) : List GoString :=
  parts.foldl
    (fun out p =>
      let p := TrimSpace p
      if p != [] then out ++ [p] else out)
    out

/-- The function `getEnvCSV`; `v` is the value `os.Getenv(key)` and `dflt` the parameter
`def`. -/
def getEnvCSV (v : GoString) (dflt : List GoString) : List GoString :=
  if v == [] then dflt
  else
    let parts := splitByte 44 v
    let out := appendTrimmed parts []
    if out.length == 0 then dflt else out

/-! ## `model_request.go`: the model a request names -/

/-- The model identity that `ModelRequest` hands to a hook. -/
structure HookModel where
  ModelName : String
  ModelId : ModelId
  ModelTag : String
deriving DecidableEq, Repr

/-- What `ModelRequest` says about the model: the role config it has selected (the value of
`modelConfig` after the selection), the field `Model` of the request, the model reported
to the hook `WillSendModelRequest`, and the model, provider, role and role config reported
to the hook `DidSendModelRequest`. -/
structure ModelRequestModels where
  selected : ModelRoleConfig
  reqModel : String
  willSend : HookModel
  didSend : HookModel
  didSendProvider : ModelProvider
  didSendRole : String
  didSendConfig : ModelRoleConfig
deriving DecidableEq, Repr

/-- The statements of `ModelRequest` that determine the model of the request and of the
hooks; `none` is the nil dereference of a nil `baseModelConfig`. `inputTokensEstimate` is
the value of the variable of that name, computed from the messages by functions that are
not among the sources, and `estimatedOutputTokens` is `params.EstimatedOutputTokens`. -/
def ModelRequestModelsOf (env : Env) (modelConfig : ModelRoleConfig)
    (inputTokensEstimate estimatedOutputTokens : Int) : Option ModelRequestModels :=
  match env.GetBaseModelConfig modelConfig with
  | none => none
  | some baseModelConfig =>
    let config := GetRoleForInputTokens env modelConfig inputTokensEstimate
    let modelConfig := config
    let modelConfig :=
      if estimatedOutputTokens != 0 then
        GetRoleForOutputTokens env modelConfig estimatedOutputTokens
      else modelConfig
    some
      { selected := modelConfig
        reqModel := baseModelConfig.ModelName
        willSend :=
          { ModelName := baseModelConfig.ModelName, ModelId := baseModelConfig.ModelId,
            ModelTag := baseModelConfig.ModelTag }
        didSend :=
          { ModelName := baseModelConfig.ModelName, ModelId := baseModelConfig.ModelId,
            ModelTag := baseModelConfig.ModelTag }
        didSendProvider := baseModelConfig.Provider
        didSendRole := modelConfig.Role
        didSendConfig := modelConfig }

/-- An 8k role whose only fallback, at every address, has a 32k limit and no fallback; the
base model config of a role is named after the role's model. -/
def twoBaseEnv : Env :=
  { mkEnv (fun _ => mkRole "fallback" none none)
      (fun c => if c.ModelId = "small" then 8000 else 32000) with
    GetBaseModelConfig := fun c => some (mkBase c.ModelId) }

/-! ## `model/plan/tell_prompt_message.go`: the prompt of a turn -/

/-- The fields of the request that `resolvePromptMessage` branches on, and its prompt. -/
structure TellRequest where
  IsUserContinue : Bool
  IsChatOnly : Bool
  Prompt : GoString
deriving DecidableEq, Repr

/-- The constants and functions of package `prompts`, which is not among the sources. The
two wrapping functions are given as functions of the field `Prompt` of their parameter, the
other fields being the same in every call within one `resolvePromptMessage`. -/
structure Prompts where
  UserContinuePrompt : GoString
  AutoContinueImplementationPrompt : GoString
  AutoContinuePlanningPrompt : GoString
  GetWrappedChatOnlyPrompt : GoString → GoString
  GetWrappedPrompt : GoString → GoString

/-- The part of `activeTellStreamState` that `resolvePromptMessage` reads:
`lastSuccessfulConvoMessage` is the result of the method of that name (`none` is nil),
`isImplementationStage` tells whether `currentStage.TellStage` is
`TellStageImplementation`, `userPrompt` is the field before the call. -/
structure TellState where
  req : TellRequest
  iteration : Int
  lastSuccessfulConvoMessage : Option ConvoMessage
  isImplementationStage : Bool
  userPrompt : GoString
deriving DecidableEq, Repr

/-- What `resolvePromptMessage` returns and leaves behind: the text of the message it
returns (`none` when it returns nil), its boolean result, whether it has sent the error
`ApiErrorTypeContinueNoMessages` on `StreamDoneCh`, the field `userPrompt` afterwards and
the keys of `skipConvoMessages` that are set to true. -/
structure ResolvedPrompt where
  text : Option GoString
  ok : Bool
  sentNoMessagesError : Bool
  userPrompt : GoString
  skipConvoMessages : List GoString
deriving DecidableEq, Repr

/-- The constant `openai.ChatMessageRoleUser` of the go-openai library. -/
def ChatMessageRoleUser : GoString := bytes "user"

/-- The method `activeTellStreamState.resolvePromptMessage`. The `log.Println` calls are
omitted. -/
def resolvePromptMessage (prompts : Prompts) (state : TellState) : ResolvedPrompt :=
  let req := state.req
  if req.IsUserContinue && state.lastSuccessfulConvoMessage.isNone then
    { text := none, ok := false, sentNoMessagesError := true, userPrompt := state.userPrompt,
      skipConvoMessages := [] }
  else if req.IsChatOnly then
    if req.IsUserContinue then
      match state.lastSuccessfulConvoMessage with
      | none =>
        { text := none, ok := false, sentNoMessagesError := true,
          userPrompt := state.userPrompt, skipConvoMessages := [] }
      | some lastMessage =>
        if lastMessage.Role = ChatMessageRoleUser then
          let content := lastMessage.Message
          { text := some (prompts.GetWrappedChatOnlyPrompt content), ok := true,
            sentNoMessagesError := false, userPrompt := content,
            skipConvoMessages := [lastMessage.Id] }
        else
          { text := some (prompts.GetWrappedChatOnlyPrompt prompts.UserContinuePrompt),
            ok := true, sentNoMessagesError := false, userPrompt := state.userPrompt,
            skipConvoMessages := [] }
    else
      { text := some (prompts.GetWrappedChatOnlyPrompt req.Prompt), ok := true,
        sentNoMessagesError := false, userPrompt := state.userPrompt, skipConvoMessages := [] }
  else if req.IsUserContinue then
    match state.lastSuccessfulConvoMessage with
    | none =>
      { text := none, ok := false, sentNoMessagesError := true, userPrompt := state.userPrompt,
        skipConvoMessages := [] }
    | some lastMessage =>
      if lastMessage.Role = ChatMessageRoleUser then
        let content := lastMessage.Message
        { text := some (prompts.GetWrappedPrompt content), ok := true,
          sentNoMessagesError := false, userPrompt := content, skipConvoMessages := [] }
      else
        { text := some (prompts.GetWrappedPrompt prompts.UserContinuePrompt), ok := true,
          sentNoMessagesError := false, userPrompt := state.userPrompt,
          skipConvoMessages := [] }
  else
    let prompt :=
      if state.iteration = 0 then req.Prompt
      else if state.isImplementationStage then prompts.AutoContinueImplementationPrompt
      else prompts.AutoContinuePlanningPrompt
    { text := some (prompts.GetWrappedPrompt prompt), ok := true, sentNoMessagesError := false,
      userPrompt := prompt, skipConvoMessages := [] }

/-- Prompts whose wrapping functions leave the prompt as it is. -/
def plainPrompts : Prompts :=
  { UserContinuePrompt := bytes "continue", AutoContinueImplementationPrompt := bytes "implement",
    AutoContinuePlanningPrompt := bytes "plan", GetWrappedChatOnlyPrompt := fun p => p,
    GetWrappedPrompt := fun p => p }

/-- A state in which the user continues a plan whose last message is a user message. -/
def continueState (isChatOnly : Bool) : TellState :=
  { req := { IsUserContinue := true, IsChatOnly := isChatOnly, Prompt := [] },
    iteration := 0,
    lastSuccessfulConvoMessage :=
      some { Id := bytes "u7", Role := bytes "user", Message := bytes "now add tests" },
    isImplementationStage := false, userPrompt := [] }

/-! ## `shared/rbac.go` and `db/auth_helpers.go`: permissions -/

/-- The string `toAdd` that `GetUserPermissions` appends for a row: the name of the
permission, followed by `|` and the resource id when `resource_id` is not NULL. -/
def permissionKey (permission : GoString) (resourceId : Option GoString) : GoString :=
  match resourceId with
  | some id => permission ++ bytes "|" ++ id
  | none => permission

/-- The method `Permissions.HasPermission`; `perms` lists the keys of the map in the order
in which `range` visits them. The element `split[0]` exists, `strings.Split` returning at
least one substring. -/
def HasPermission (perms : List GoString) (permission : GoString) : Bool :=
  match perms with
  | [] => false
  | p :: rest =>
    let split := splitByte 124 p
    let perm := split.headD []
    if perm = permission then true else HasPermission rest permission

/-- The method `Permissions.HasPermissionForResource`; `perms` lists the keys of the map in
the order in which `range` visits them, and `none` is the run-time panic of the index
expression `split[1]` when `split` has a single element. -/
def HasPermissionForResource (perms : List GoString) (permission resourceId : GoString) :
    Option Bool :=
  match perms with
  | [] => some false
  | p :: rest =>
    match splitByte 124 p with
    | perm :: resId :: _ =>
      if perm = permission && resId = resourceId then some true
      else HasPermissionForResource rest permission resourceId
    | _ => none

/-! ## `db/git.go`: clearing uncommitted changes -/

/-- A command started with `exec.Command`: its arguments, the program first, and the field
`Dir` of the command, empty when it is not set. -/
structure GitCommand where
  args : List GoString
  dir : GoString
deriving DecidableEq, Repr

/-- The directory whose repository a git command works on when the process that starts it
has the working directory `cwd`: the path given with the option `-C`, else the field `Dir`
of the command, else `cwd`. -/
def gitWorkDir (cwd : GoString) (cmd : GitCommand) : GoString :=
  match cmd.args with
  | _ :: option :: path :: _ =>
    if option = bytes "-C" then path else if cmd.dir = [] then cwd else cmd.dir
  | _ => if cmd.dir = [] then cwd else cmd.dir

/-- The function `getOrgDir`; `baseDir` is the variable `BaseDir`. -/
def getOrgDir (baseDir orgId : GoString) : GoString := joinPath [baseDir, bytes "orgs", orgId]

/-- The function `getPlanDir`. -/
def getPlanDir (baseDir orgId planId : GoString) : GoString :=
  joinPath [getOrgDir baseDir orgId, bytes "plans", planId]

/-- The method `GitRepo.GitClearUncommittedChanges`: the error it returns and the commands
it starts, in order. `cwd` is the working directory of the server process and
`statusIn d` what `git status --porcelain` prints and returns when it works on the
repository of directory `d`; `resetErr a` and `cleanErr a` are the errors of the call with
index `a` of `git reset --hard` and of `git clean -d -f`, `removeLocks` the results of the
lock-file cleanups. The `log.Printf` calls are omitted. -/
def GitClearUncommittedChanges (baseDir orgId planId cwd : GoString)
    (statusIn : GoString → GoString × Option GoError)
    (resetErr cleanErr removeLocks : Nat → Option GoError) : Option GoError × List GitCommand :=
  let dir := getPlanDir baseDir orgId planId
  let status : GitCommand := { args := [bytes "git", bytes "status", bytes "--porcelain"], dir := [] }
  let reset : GitCommand :=
    { args := [bytes "git", bytes "-C", dir, bytes "reset", bytes "--hard"], dir := [] }
  let clean : GitCommand :=
    { args := [bytes "git", bytes "-C", dir, bytes "clean", bytes "-d", bytes "-f"], dir := [] }
  let res := statusIn (gitWorkDir cwd status)
  match res.2 with
  | some err =>
    (some { Error := bytes "error checking for uncommitted changes: " ++ err.Error
        ++ bytes ", output: " ++ res.1 }, [status])
  | none =>
    let hasChanges := TrimSpace res.1 != []
    if !hasChanges then (none, [status])
    else
      let resetRun := gitWriteOperation
        (fun a => (resetErr a).map (fun err =>
          { Error := bytes "error resetting staged changes | err: " ++ err.Error }))
        removeLocks (bytes "GitClearUncommittedChanges > gitReset: plan=" ++ planId)
      let resets := List.replicate (invocations resetRun.2) reset
      match resetRun.1 with
      | some err => (some err, status :: resets)
      | none =>
        let cleanRun := gitWriteOperation
          (fun a => (cleanErr a).map (fun err =>
            { Error := bytes "error cleaning untracked files | err: " ++ err.Error }))
          removeLocks (bytes "GitClearUncommittedChanges > gitClean: plan=" ++ planId)
        (cleanRun.1, status :: resets ++ List.replicate (invocations cleanRun.2) clean)

/-- The output of `git status --porcelain` when the repository of the plan `p1` has a
modified file and every other directory is clean. -/
def dirtyPlanOnly (dir : GoString) : GoString × Option GoError :=
  if dir = bytes "/plandex-server/orgs/o1/plans/p1" then (bytes " M main.go\n", none)
  else ([], none)

/-- The environment `mkEnv heap limit` with the padding percentage `paddingPct` for every
config instead of zero. -/
def mkEnvPadded (heap : Ref → ModelRoleConfig) (limit : ModelRoleConfig → Int)
    (paddingPct : Float64) : Env :=
  { heap := heap
    GetSharedBaseConfig := fun c =>
      { MaxTokens := limit c, TokenEstimatePaddingPct := paddingPct }
    GetReservedOutputTokens := limit
    GetBaseModelConfig := fun _ => none
    GetProvidersForAuthVars := fun _ => []
    GetAvailableModel := fun _ _ => none }

/-- The `float64` nearest to `0.13`, a padding of 13 percent. -/
def thirteenPercent : Float64 := ⟨0x3FC0A3D70A3D70A4⟩

/-- The `float64` `1e15`, which is exactly `10 ^ 15`. -/
def hugePadding : Float64 := ⟨0x430C6BF526340000⟩

/-- The only fallback of `smallRole` in `fallbackEnv`. -/
def fallbackRole : ModelRoleConfig := mkRole "fallback" none none

/-- The role `smallRole` with an 8k limit whose large-context fallback is `fallbackRole`,
with a 32k limit and no further fallback, under the given padding percentage. -/
def fallbackEnv (paddingPct : Float64) : Env :=
  mkEnvPadded (fun _ => fallbackRole) (fun c => if c.ModelId = "small" then 8000 else 32000)
    paddingPct

/-- The environment `threeEnv` with a budget of 112 instead of 8000 for `smallRole` and a
padding of 13 percent. -/
def paddedThreeEnv : Env :=
  mkEnvPadded (fun r => if r = 1 then mediumRole else largeRole)
    (fun c => if c.ModelId = "small" then 112 else if c.ModelId = "medium" then 32000
      else 128000)
    thirteenPercent

/-! # Properties -/

/-! ## Padding -/

theorem shiftLeft_eq_mul (a n : Nat) : a <<< n = a * 2 ^ n := Nat.shiftLeft_eq a n

theorem shiftRight_eq_div (a n : Nat) : a >>> n = a / 2 ^ n := Nat.shiftRight_eq_div_pow a n

theorem one_shiftLeft_eq (n : Nat) : 1 <<< n = 2 ^ n := by
  rw [shiftLeft_eq_mul, Nat.one_mul]

theorem two_pow_pos (n : Nat) : 0 < 2 ^ n := Nat.two_pow_pos n

theorem shiftRight_eq_zero_iff (w n : Nat) : w >>> n = 0 ↔ w < 2 ^ n := by
  rw [shiftRight_eq_div, Nat.div_eq_zero_iff (two_pow_pos n)]

theorem bitSearch_spec (w : Nat) :
    ∀ (n k : Nat), 2 ^ k ≤ w → w < 2 ^ (k + 2 ^ n) →
      2 ^ bitSearch w n k ≤ w ∧ w < 2 ^ (bitSearch w n k + 1) := by
  intro n
  induction n with
  | zero =>
    intro k h1 h2
    exact ⟨h1, by simpa [bitSearch] using h2⟩
  | succ n ih =>
    intro k h1 h2
    rw [bitSearch]
    by_cases hz : w >>> (k + 2 ^ n) = 0
    · rw [if_pos hz]
      exact ih k h1 ((shiftRight_eq_zero_iff w _).mp hz)
    · rw [if_neg hz]
      refine ih (k + 2 ^ n) ?_ ?_
      · by_contra hlt
        exact hz ((shiftRight_eq_zero_iff w _).mpr (by omega))
      · have e : k + 2 ^ n + 2 ^ n = k + 2 ^ (n + 1) := by rw [pow_succ]; omega
        rw [e]
        exact h2

/-- A number `w ≠ 0` has exactly `bitLength w` binary digits. -/
theorem bitLength_spec (w : Nat) (hw : w ≠ 0) :
    2 ^ (bitLength w - 1) ≤ w ∧ w < 2 ^ bitLength w := by
  unfold bitLength
  rw [if_neg hw]
  by_cases hbig : w >>> 8192 = 0
  · rw [if_pos hbig, Nat.add_sub_cancel]
    refine bitSearch_spec w 13 0 (Nat.pos_of_ne_zero hw) ?_
    have e : 0 + 2 ^ 13 = 8192 := by norm_num
    rw [e]
    exact (shiftRight_eq_zero_iff w 8192).mp hbig
  · rw [if_neg hbig, Nat.add_sub_cancel]
    exact ⟨Nat.log2_self_le hw, Nat.lt_log2_self⟩

theorem bitLength_eq (w : Nat) : bitLength w = if w = 0 then 0 else Nat.log2 w + 1 := by
  by_cases hw : w = 0
  · simp [hw, bitLength]
  · rw [if_neg hw]
    obtain ⟨h1, h2⟩ := bitLength_spec w hw
    have h3 : 2 ^ Nat.log2 w ≤ w := Nat.log2_self_le hw
    have h4 : w < 2 ^ (Nat.log2 w + 1) := Nat.lt_log2_self
    have a : bitLength w - 1 < Nat.log2 w + 1 :=
      (Nat.pow_lt_pow_iff_right (le_refl 2)).mp (lt_of_le_of_lt h1 h4)
    have b : Nat.log2 w < bitLength w :=
      (Nat.pow_lt_pow_iff_right (le_refl 2)).mp (lt_of_le_of_lt h3 h2)
    omega

theorem le_roundShift (w s : Nat) : w >>> s ≤ roundShift w s := by
  unfold roundShift
  simp only []
  split <;> omega

/-- Rounding is monotone at a representable value: a magnitude that is at least
`k * 2 ^ j`, with `k` of at most 53 binary digits and `2 ^ j` no finer than the unit of the
result, is not rounded below `k * 2 ^ j`. -/
theorem le_roundMag (w s0 k j : Nat) (hk : k < 2 ^ 53) (hj : s0 ≤ j) (h : k * 2 ^ j ≤ w) :
    k * 2 ^ j ≤ roundMag w s0 * 2 ^ s0 := by
  unfold roundMag
  simp only []
  generalize hs : max (bitLength w - 53) s0 = s
  have hs0 : s0 ≤ s := by rw [← hs]; exact le_max_right _ _
  have e : roundShift w s <<< (s - s0) * 2 ^ s0 = roundShift w s * 2 ^ s := by
    rw [shiftLeft_eq_mul, Nat.mul_assoc, ← pow_add, Nat.sub_add_cancel hs0]
  rw [e]
  refine le_trans ?_ (Nat.mul_le_mul_right _ (le_roundShift w s))
  rw [shiftRight_eq_div]
  by_cases hjs : s ≤ j
  · have e2 : k * 2 ^ j = k * 2 ^ (j - s) * 2 ^ s := by
      rw [Nat.mul_assoc, ← pow_add, Nat.sub_add_cancel hjs]
    rw [e2] at h ⊢
    exact Nat.mul_le_mul_right _ ((Nat.le_div_iff_mul_le (two_pow_pos s)).mpr h)
  · have hsj : j < s := Nat.lt_of_not_le hjs
    have hsb : s = bitLength w - 53 := by
      rw [← hs]
      rw [← hs] at hsj
      omega
    have hw : w ≠ 0 := by
      intro h0
      rw [h0] at hsb
      simp [bitLength] at hsb
      omega
    have hlow := (bitLength_spec w hw).1
    have hL : bitLength w - 1 = 52 + s := by omega
    rw [hL] at hlow
    have h52 : 2 ^ 52 ≤ w / 2 ^ s := by
      rw [Nat.le_div_iff_mul_le (two_pow_pos s), ← pow_add]
      exact hlow
    have h1 : k * 2 ^ j ≤ 2 ^ 53 * 2 ^ j := Nat.mul_le_mul_right _ (le_of_lt hk)
    have h2 : 2 ^ 53 * 2 ^ j ≤ 2 ^ 52 * 2 ^ s := by
      rw [← pow_add, ← pow_add]
      exact Nat.pow_le_pow_right (by norm_num) (by omega)
    exact le_trans h1 (le_trans h2 (Nat.mul_le_mul_right _ h52))

theorem round_cases (neg : Bool) (w s0 k j : Nat) (hk : k < 2 ^ 53) (hj : s0 ≤ j)
    (h : k * 2 ^ j ≤ w) :
    F64.round neg w s0 = .inf neg
      ∨ ∃ u, F64.round neg w s0 = .finite neg u ∧ k * 2 ^ j ≤ u * 2 ^ s0 := by
  unfold F64.round
  simp only []
  split
  · exact Or.inr ⟨_, rfl, le_roundMag w s0 k j hk hj h⟩
  · exact Or.inl rfl

theorem round_two_pow_le (w e : Nat) (h : 2 ^ e ≤ w) :
    F64.round false w 0 = .inf false
      ∨ ∃ x, F64.round false w 0 = .finite false x ∧ 2 ^ e ≤ x := by
  rcases round_cases false w 0 1 e (by norm_num) (Nat.zero_le _)
    ((Nat.le_of_eq (Nat.one_mul _)).trans h) with h | ⟨x, hx, hle⟩
  · exact Or.inl h
  · rw [Nat.one_mul, pow_zero, Nat.mul_one] at hle
    exact Or.inr ⟨x, hx, hle⟩

/-- Padding by a non-negative percentage does not lower an estimate that a `float64`
holds exactly, as long as the padded estimate is in the range of `int`. -/
theorem le_padTokens (tokens : Int) (paddingPct : Float64) (h0 : 0 ≤ tokens)
    (h53 : tokens < 2 ^ 53) (hp : paddingPct.nonneg = true)
    (hfit : (paddedEstimate tokens paddingPct).inIntRange = true) :
    tokens ≤ padTokens tokens paddingPct := by
  obtain ⟨n, rfl⟩ := Int.eq_ofNat_of_zero_le h0
  have hn : n < 2 ^ 53 := by exact_mod_cast h53
  have hneg : decide ((n : Int) < 0) = false := by simp
  unfold padTokens
  unfold paddedEstimate at hfit ⊢
  have hsum : F64.add F64.one paddingPct.decode = .inf false
      ∨ ∃ x, F64.add F64.one paddingPct.decode = .finite false x ∧ 2 ^ 1074 ≤ x := by
    unfold Float64.nonneg at hp
    cases hd : paddingPct.decode with
    | nan => rw [hd] at hp; simp at hp
    | inf neg =>
      rw [hd] at hp
      have : neg = false := by simpa using hp
      subst this
      exact Or.inl rfl
    | finite neg u =>
      rw [hd] at hp
      have key : ∀ w, 1 <<< 1074 ≤ w → F64.round false w 0 = .inf false
          ∨ ∃ x, F64.round false w 0 = .finite false x ∧ 2 ^ 1074 ≤ x := by
        intro w hw
        rw [one_shiftLeft_eq] at hw
        exact round_two_pow_le w 1074 hw
      cases neg with
      | false =>
        have : F64.add F64.one (.finite false u) = F64.round false (1 <<< 1074 + u) 0 := by
          simp [F64.add, F64.one]
        rw [this]
        exact key _ (Nat.le_add_right _ _)
      | true =>
        have hu : u = 0 := by simpa using hp
        subst hu
        have hne : (1 : Nat) <<< 1074 ≠ 0 := by
          rw [one_shiftLeft_eq]
          exact (pow_pos (by norm_num) _).ne'
        have : F64.add F64.one (.finite true 0) = F64.round false (1 <<< 1074) 0 := by
          have hlt : 0 < (1 : Nat) <<< 1074 := Nat.pos_of_ne_zero hne
          simp [F64.add, F64.one, hne, hlt]
        rw [this]
        exact key _ (le_refl _)
  have hconv : F64.ofInt (n : Int) = .inf false
      ∨ ∃ a, F64.ofInt (n : Int) = .finite false a ∧ n * 2 ^ 1074 ≤ a := by
    unfold F64.ofInt
    rw [hneg, Int.natAbs_ofNat, shiftLeft_eq_mul]
    rcases round_cases false (n * 2 ^ 1074) 0 n 1074 hn (Nat.zero_le _) (le_refl _)
      with h | ⟨a, ha, hle⟩
    · exact Or.inl h
    · rw [pow_zero, Nat.mul_one] at hle
      exact Or.inr ⟨a, ha, hle⟩
  rcases hconv with hc | ⟨a, hc, ha⟩
  · rw [hc] at hfit
    rcases hsum with hs | ⟨x, hs, _⟩
    · rw [hs] at hfit; simp [F64.mul, F64.inIntRange] at hfit
    · rw [hs] at hfit
      simp only [F64.mul] at hfit
      split at hfit <;> simp [F64.inIntRange] at hfit
  · rw [hc] at hfit ⊢
    rcases hsum with hs | ⟨x, hs, hx⟩
    · rw [hs] at hfit
      simp only [F64.mul] at hfit
      split at hfit <;> simp [F64.inIntRange] at hfit
    · rw [hs] at hfit ⊢
      have hprod : n * 2 ^ 2148 ≤ a * x := by
        have e : n * 2 ^ 2148 = n * 2 ^ 1074 * 2 ^ 1074 := by
          rw [Nat.mul_assoc, ← pow_add]
        rw [e]
        exact Nat.mul_le_mul ha hx
      have hmul : F64.mul (.finite false a) (.finite false x)
          = F64.round false (a * x) 1074 := by
        simp [F64.mul]
      rw [hmul] at hfit ⊢
      rcases round_cases false (a * x) 1074 n 2148 hn (by norm_num) hprod
        with h | ⟨y, hy, hle⟩
      · rw [h] at hfit; simp [F64.inIntRange] at hfit
      · rw [hy] at hfit ⊢
        have hny : n ≤ y >>> 1074 := by
          rw [shiftRight_eq_div, Nat.le_div_iff_mul_le (two_pow_pos _)]
          have e : n * 2 ^ 2148 = n * 2 ^ 1074 * 2 ^ 1074 := by
            rw [Nat.mul_assoc, ← pow_add]
          rw [e] at hle
          exact Nat.le_of_mul_le_mul_right hle (two_pow_pos _)
        simp only [F64.toInt, hfit, if_true]
        simp only [Bool.false_eq_true, if_false]
        exact_mod_cast hny

/-- A padding of 13 percent (`0.13`, bits `3FC0A3D70A3D70A4`) on an estimate of 100: the
sum `1 + 0.13` is rounded to the `float64` just below `1.13`, the product is
`112.99999999999999`, and its conversion is `112`. -/
theorem padTokens_thirteen_percent : padTokens 100 ⟨0x3FC0A3D70A3D70A4⟩ = 112 := by
  decide

theorem padTokens_no_padding :
    padTokens 1 ⟨0⟩ = 1 ∧ padTokens 1000 ⟨0⟩ = 1000 ∧ padTokens 10000 ⟨0⟩ = 10000
      ∧ padTokens 200000 ⟨0⟩ = 200000 := by
  decide

/-! ## The traversal loops return, and return what the closed forms say -/

theorem follow_last (env : Env) (r : Ref) (n : Nat) (h : maxFallbackDepth ≤ n) :
    follow env (some r) n = .ret (env.heap r) := by
  simp [follow]
  omega

theorem follow_next (env : Env) (r : Ref) (n : Nat) (h : n < maxFallbackDepth) :
    follow env (some r) n = .next (env.heap r) (n + 1) := by
  simp [follow]
  omega

theorem runLoop_finalContext (env : Env) :
    ∀ (k fuel n : Nat) (cur : ModelRoleConfig), n + (k + 1) = maxFallbackDepth + 1 →
      k + 1 ≤ fuel →
      runLoop (finalContextBody env) fuel cur n = .returned (finalContextLoop env (k + 1) cur) := by
  intro k
  induction k with
  | zero =>
    intro fuel n cur hn hf
    obtain ⟨fuel, rfl⟩ : ∃ f, fuel = f + 1 := ⟨fuel - 1, by omega⟩
    cases hc : cur.LargeContextFallback with
    | none => simp [runLoop, finalContextBody, finalContextLoop, hc]
    | some r =>
      simp [runLoop, finalContextBody, finalContextLoop, hc,
        follow_last env r n (by omega)]
  | succ k ih =>
    intro fuel n cur hn hf
    obtain ⟨fuel, rfl⟩ : ∃ f, fuel = f + 1 := ⟨fuel - 1, by omega⟩
    cases hc : cur.LargeContextFallback with
    | none => simp [runLoop, finalContextBody, finalContextLoop, hc]
    | some r =>
      have ih2 := ih fuel (n + 1) (env.heap r) (by omega) (by omega)
      rw [runLoop]
      simp only [finalContextBody, hc, follow_next env r n (by omega)]
      simpa [finalContextLoop, hc] using ih2

theorem runLoop_finalOutput (env : Env) :
    ∀ (k fuel n : Nat) (cur : ModelRoleConfig), n + (k + 1) = maxFallbackDepth + 1 →
      k + 1 ≤ fuel →
      runLoop (finalOutputBody env) fuel cur n = .returned (finalOutputLoop env (k + 1) cur) := by
  intro k
  induction k with
  | zero =>
    intro fuel n cur hn hf
    obtain ⟨fuel, rfl⟩ : ∃ f, fuel = f + 1 := ⟨fuel - 1, by omega⟩
    cases hc : cur.LargeOutputFallback with
    | none => simp [runLoop, finalOutputBody, finalOutputLoop, hc]
    | some r =>
      simp [runLoop, finalOutputBody, finalOutputLoop, hc, follow_last env r n (by omega)]
  | succ k ih =>
    intro fuel n cur hn hf
    obtain ⟨fuel, rfl⟩ : ∃ f, fuel = f + 1 := ⟨fuel - 1, by omega⟩
    cases hc : cur.LargeOutputFallback with
    | none => simp [runLoop, finalOutputBody, finalOutputLoop, hc]
    | some r =>
      have ih2 := ih fuel (n + 1) (env.heap r) (by omega) (by omega)
      rw [runLoop]
      simp only [finalOutputBody, hc, follow_next env r n (by omega)]
      simpa [finalOutputLoop, hc] using ih2

theorem runLoop_input (env : Env) (maxTokens inputTokens : Int) :
    ∀ (k fuel n : Nat) (cur : ModelRoleConfig), n + (k + 1) = maxFallbackDepth + 1 →
      k + 1 ≤ fuel →
      runLoop (inputBody env maxTokens inputTokens) fuel cur n
        = .returned (inputLoop env maxTokens inputTokens (k + 1) cur) := by
  intro k
  induction k with
  | zero =>
    intro fuel n cur hn hf
    obtain ⟨fuel, rfl⟩ : ∃ f, fuel = f + 1 := ⟨fuel - 1, by omega⟩
    by_cases hb : maxTokens ≥ inputTokens
    · simp [runLoop, inputBody, inputLoop, hb]
    · cases hc : cur.LargeContextFallback with
      | none => simp [runLoop, inputBody, inputLoop, hb, hc]
      | some r =>
        simp [runLoop, inputBody, inputLoop, hb, hc, follow_last env r n (by omega)]
  | succ k ih =>
    intro fuel n cur hn hf
    obtain ⟨fuel, rfl⟩ : ∃ f, fuel = f + 1 := ⟨fuel - 1, by omega⟩
    by_cases hb : maxTokens ≥ inputTokens
    · simp [runLoop, inputBody, inputLoop, hb]
    · cases hc : cur.LargeContextFallback with
      | none => simp [runLoop, inputBody, inputLoop, hb, hc]
      | some r =>
        have ih2 := ih fuel (n + 1) (env.heap r) (by omega) (by omega)
        rw [runLoop]
        simp only [inputBody, hb, hc, follow_next env r n (by omega)]
        simpa [inputLoop, hb, hc] using ih2

theorem runLoop_output (env : Env) (outputTokens : Int) :
    ∀ (k fuel n : Nat) (cur : ModelRoleConfig), n + (k + 1) = maxFallbackDepth + 1 →
      k + 1 ≤ fuel →
      runLoop (outputBody env outputTokens) fuel cur n
        = .returned (outputLoop env outputTokens (k + 1) cur) := by
  intro k
  induction k with
  | zero =>
    intro fuel n cur hn hf
    obtain ⟨fuel, rfl⟩ : ∃ f, fuel = f + 1 := ⟨fuel - 1, by omega⟩
    by_cases hb : env.GetReservedOutputTokens cur ≥ outputTokens
    · simp [runLoop, outputBody, outputLoop, hb]
    · cases ho : cur.LargeOutputFallback with
      | none =>
        cases hc : cur.LargeContextFallback with
        | none => simp [runLoop, outputBody, outputLoop, hb, ho, hc]
        | some r =>
          simp [runLoop, outputBody, outputLoop, hb, ho, hc, follow_last env r n (by omega)]
      | some r =>
        simp [runLoop, outputBody, outputLoop, hb, ho, follow_last env r n (by omega)]
  | succ k ih =>
    intro fuel n cur hn hf
    obtain ⟨fuel, rfl⟩ : ∃ f, fuel = f + 1 := ⟨fuel - 1, by omega⟩
    by_cases hb : env.GetReservedOutputTokens cur ≥ outputTokens
    · simp [runLoop, outputBody, outputLoop, hb]
    · cases ho : cur.LargeOutputFallback with
      | none =>
        cases hc : cur.LargeContextFallback with
        | none => simp [runLoop, outputBody, outputLoop, hb, ho, hc]
        | some r =>
          have ih2 := ih fuel (n + 1) (env.heap r) (by omega) (by omega)
          rw [runLoop]
          simp only [outputBody, hb, ho, hc, follow_next env r n (by omega)]
          simpa [outputLoop, hb, ho, hc] using ih2
      | some r =>
        have ih2 := ih fuel (n + 1) (env.heap r) (by omega) (by omega)
        rw [runLoop]
        simp only [outputBody, hb, ho, follow_next env r n (by omega)]
        simpa [outputLoop, hb, ho] using ih2

/-- C2. For every heap, cyclic ones included, every receiver and every token estimate, the
loops of `GetRoleForInputTokens`, `GetRoleForOutputTokens`, `GetFinalLargeContextFallback`
and `GetFinalLargeOutputFallback` return within `maxFallbackDepth + 1` iterations: run for
any number `fuel ≥ maxFallbackDepth + 1` of iterations they have returned a config (they
are neither still running nor stopped by a nil dereference), namely the config the closed
form of each function computes. -/
theorem C2_fallback_traversals_terminate (env : Env) (m : ModelRoleConfig)
    (inputTokens outputTokens : Int) (fuel : Nat) (hfuel : maxFallbackDepth + 1 ≤ fuel) :
    runGetRoleForInputTokens env m inputTokens fuel
        = .returned (GetRoleForInputTokens env m inputTokens)
      ∧ runGetRoleForOutputTokens env m outputTokens fuel
        = .returned (GetRoleForOutputTokens env m outputTokens)
      ∧ runGetFinalLargeContextFallback env m fuel
        = .returned (GetFinalLargeContextFallback env m)
      ∧ runGetFinalLargeOutputFallback env m fuel
        = .returned (GetFinalLargeOutputFallback env m) := by
  refine ⟨?_, ?_, ?_, ?_⟩
  · exact runLoop_input env _ _ maxFallbackDepth fuel 0 m (by omega) hfuel
  · exact runLoop_output env _ maxFallbackDepth fuel 0 m (by omega) hfuel
  · exact runLoop_finalContext env maxFallbackDepth fuel 0 m (by omega) hfuel
  · unfold runGetFinalLargeOutputFallback GetFinalLargeOutputFallback
    cases ho : m.LargeOutputFallback with
    | none =>
      simpa using runLoop_finalContext env maxFallbackDepth fuel 0 m (by omega) hfuel
    | some r =>
      simpa using runLoop_finalOutput env maxFallbackDepth fuel 0 m (by omega) hfuel

/-- C2, on a cyclic heap: a config that is its own large-context and large-output
fallback, asked for more tokens than its budget; all four loops return it after eleven
iterations. -/
theorem C2_fallback_traversals_terminate_witness :
    maxFallbackDepth + 1 ≤ 11
      ∧ runGetRoleForInputTokens selfEnv selfRole 1000 11 = .returned selfRole
      ∧ runGetRoleForOutputTokens selfEnv selfRole 1000 11 = .returned selfRole
      ∧ runGetFinalLargeContextFallback selfEnv selfRole 11 = .returned selfRole
      ∧ runGetFinalLargeOutputFallback selfEnv selfRole 11 = .returned selfRole := by
  have h := C2_fallback_traversals_terminate selfEnv selfRole 1000 1000 11 (by decide)
  have e1 : GetRoleForInputTokens selfEnv selfRole 1000 = selfRole := by
    simp only [GetRoleForInputTokens, selfEnv, mkEnv]
    decide
  have e2 : GetRoleForOutputTokens selfEnv selfRole 1000 = selfRole := by
    simp only [GetRoleForOutputTokens, selfEnv, mkEnv]
    decide
  have e3 : GetFinalLargeContextFallback selfEnv selfRole = selfRole := by decide
  have e4 : GetFinalLargeOutputFallback selfEnv selfRole = selfRole := by decide
  rw [e1, e2, e3, e4] at h
  exact ⟨by decide, h⟩

/-! ## Selection by input tokens -/

/-- C1, at a failing input. The role has an 8k budget, its first fallback 32k, the
fallback of that one 128k, and the padded estimate is 10000. The first config along the
chain whose budget is at least the padded estimate is the 32k fallback, one link away;
`GetRoleForInputTokens` returns the 128k config at the end of the chain instead. -/
theorem C1_first_sufficient_config_skipped :
    GetRoleForInputTokens threeEnv smallRole 10000 = largeRole
      ∧ padTokens 10000 (threeEnv.GetSharedBaseConfig smallRole).TokenEstimatePaddingPct
          = 10000
      ∧ contextChain threeEnv smallRole 0 = some smallRole
      ∧ (threeEnv.GetSharedBaseConfig smallRole).MaxTokens = 8000
      ∧ contextChain threeEnv smallRole 1 = some mediumRole
      ∧ (threeEnv.GetSharedBaseConfig mediumRole).MaxTokens = 32000
      ∧ largeRole ≠ mediumRole := by
  refine ⟨?_, ?_, by decide, by decide, by decide, by decide, by decide⟩
  · simp only [GetRoleForInputTokens, threeEnv, mkEnv]
    decide
  · decide

/-- C3, at a failing input. On a chain of pairwise distinct configs that never ends and
whose budgets are all too small, `GetRoleForInputTokens` and `GetRoleForOutputTokens`
return the config eleven links away from the receiver, which is none of the configs
within `maxFallbackDepth` links. -/
theorem C3_eleventh_link_followed :
    GetRoleForInputTokens longEnv (longEnv.heap 0) 1 = longEnv.heap 11
      ∧ GetRoleForOutputTokens longEnv (longEnv.heap 0) 1 = longEnv.heap 11
      ∧ contextChain longEnv (longEnv.heap 0) 11 = some (longEnv.heap 11)
      ∧ outputPath longEnv (longEnv.heap 0) 11 = some (longEnv.heap 11)
      ∧ (∀ k, k ≤ maxFallbackDepth →
          contextChain longEnv (longEnv.heap 0) k ≠ some (longEnv.heap 11))
      ∧ (∀ k, k ≤ maxFallbackDepth →
          outputPath longEnv (longEnv.heap 0) k ≠ some (longEnv.heap 11)) := by
  refine ⟨?_, ?_, by decide, by decide, by decide, by decide⟩
  · simp only [GetRoleForInputTokens, longEnv, mkEnv]
    decide
  · simp only [GetRoleForOutputTokens, longEnv, mkEnv]
    decide

/-- C8 as stated fails: a role with an 8k limit whose only large-context fallback has a 32k
limit and no further fallback, a 10k-token estimate and the non-negative padding
percentage `1e15`. The product `float64(10000) * (1 + 1e15)` is `10000000000000010240`,
which is not below `2 ^ 63`; its conversion to `int` is `-2 ^ 63`, which does not exceed
the limit of 8000, and `GetRoleForInputTokens` returns the role itself, not the
fallback. -/
theorem C8_padding_overflow_counterexample :
    ((fallbackEnv hugePadding).GetSharedBaseConfig smallRole).MaxTokens = 8000
      ∧ ((fallbackEnv hugePadding).GetSharedBaseConfig smallRole).TokenEstimatePaddingPct.decode
          = .finite false (10 ^ 15 <<< 1074)
      ∧ ((fallbackEnv hugePadding).GetSharedBaseConfig smallRole).TokenEstimatePaddingPct.nonneg
          = true
      ∧ smallRole.LargeContextFallback = some 1
      ∧ (fallbackEnv hugePadding).heap 1 = fallbackRole
      ∧ ((fallbackEnv hugePadding).GetSharedBaseConfig fallbackRole).MaxTokens = 32000
      ∧ fallbackRole.LargeContextFallback = none
      ∧ paddedEstimate 10000 hugePadding = .finite false (10000000000000010240 <<< 1074)
      ∧ padTokens 10000 hugePadding = -9223372036854775808
      ∧ GetRoleForInputTokens (fallbackEnv hugePadding) smallRole 10000 = smallRole
      ∧ GetRoleForInputTokens (fallbackEnv hugePadding) smallRole 10000 ≠ fallbackRole := by
  decide

/-- C8, amended. A role with an 8k context limit whose only large-context fallback has a
32k limit and no further fallback: for a 10k-token estimate and any non-negative padding
percentage for which the product `float64(10000) * (1 + paddingPct)` is within the range
of `int`, `GetRoleForInputTokens` returns the fallback config, which is not the role
itself. -/
theorem C8_fallback_selected_when_padded_estimate_fits (env : Env) (m : ModelRoleConfig)
    (r : Ref)
    (hlimit : (env.GetSharedBaseConfig m).MaxTokens = 8000)
    (hpad : (env.GetSharedBaseConfig m).TokenEstimatePaddingPct.nonneg = true)
    (hfit : (paddedEstimate 10000
      (env.GetSharedBaseConfig m).TokenEstimatePaddingPct).inIntRange = true)
    (hlink : m.LargeContextFallback = some r)
    (_hfblimit : (env.GetSharedBaseConfig (env.heap r)).MaxTokens = 32000)
    (hfbend : (env.heap r).LargeContextFallback = none) :
    GetRoleForInputTokens env m 10000 = env.heap r
      ∧ GetRoleForInputTokens env m 10000 ≠ m := by
  have hp : (10000 : Int) ≤ padTokens 10000 (env.GetSharedBaseConfig m).TokenEstimatePaddingPct :=
    le_padTokens 10000 _ (by norm_num) (by norm_num) hpad hfit
  have hlt : ¬ (env.GetSharedBaseConfig m).MaxTokens
      ≥ padTokens 10000 (env.GetSharedBaseConfig m).TokenEstimatePaddingPct := by
    rw [hlimit]
    omega
  have hres : GetRoleForInputTokens env m 10000 = env.heap r := by
    simp [GetRoleForInputTokens, maxFallbackDepth, inputLoop, hlt, hlink, hfbend]
  refine ⟨hres, ?_⟩
  rw [hres]
  intro h
  rw [h, hlink] at hfbend
  exact Option.noConfusion hfbend

/-- C8, amended, on the 8k role whose fallback has a 32k limit and no fallback, with a
padding of 13 percent: the padded estimate is 11299 and the fallback is returned. -/
theorem C8_fallback_selected_when_padded_estimate_fits_witness :
    padTokens 10000 thirteenPercent = 11299
      ∧ GetRoleForInputTokens (fallbackEnv thirteenPercent) smallRole 10000
          = (fallbackEnv thirteenPercent).heap 1
      ∧ GetRoleForInputTokens (fallbackEnv thirteenPercent) smallRole 10000 ≠ smallRole :=
  ⟨by decide,
   C8_fallback_selected_when_padded_estimate_fits (fallbackEnv thirteenPercent) smallRole 1
     (by decide) (by decide) (by decide) (by decide) (by decide) (by decide)⟩

/-! ## Selection by output tokens -/

theorem outputPath_succ (env : Env) (m : ModelRoleConfig) (k : Nat) :
    outputPath env m (k + 1)
      = match outputLink m with
        | none => none
        | some r => outputPath env (env.heap r) k := by
  induction k with
  | zero => cases h : outputLink m <;> simp [outputPath, h]
  | succ k ih =>
    rw [outputPath, ih]
    cases h : outputLink m <;> simp [outputPath]

theorem outputLoop_step (env : Env) (outputTokens : Int) (remaining : Nat)
    (cur : ModelRoleConfig) (hb : ¬ env.GetReservedOutputTokens cur ≥ outputTokens) :
    outputLoop env outputTokens (remaining + 1) cur
      = match outputLink cur with
        | none => cur
        | some r => outputLoop env outputTokens remaining (env.heap r) := by
  cases ho : cur.LargeOutputFallback with
  | none =>
    cases hc : cur.LargeContextFallback <;> simp [outputLoop, outputLink, hb, ho, hc]
  | some r => simp [outputLoop, outputLink, hb, ho]

theorem outputLoop_first_sufficient (env : Env) (outputTokens : Int) :
    ∀ (k remaining : Nat) (cur c : ModelRoleConfig), k < remaining →
      outputPath env cur k = some c →
      env.GetReservedOutputTokens c ≥ outputTokens →
      (∀ j, j < k → ∀ d, outputPath env cur j = some d →
        ¬ env.GetReservedOutputTokens d ≥ outputTokens) →
      outputLoop env outputTokens remaining cur = c := by
  intro k
  induction k with
  | zero =>
    intro remaining cur c hk hpath hsuff _
    obtain ⟨remaining, rfl⟩ : ∃ f, remaining = f + 1 := ⟨remaining - 1, by omega⟩
    simp only [outputPath, Option.some.injEq] at hpath
    subst hpath
    simp [outputLoop, hsuff]
  | succ k ih =>
    intro remaining cur c hk hpath hsuff hbefore
    obtain ⟨remaining, rfl⟩ : ∃ f, remaining = f + 1 := ⟨remaining - 1, by omega⟩
    have hcur : ¬ env.GetReservedOutputTokens cur ≥ outputTokens :=
      hbefore 0 (by omega) cur rfl
    rw [outputLoop_step env outputTokens remaining cur hcur]
    rw [outputPath_succ] at hpath
    cases hl : outputLink cur with
    | none => simp [hl] at hpath
    | some r =>
      simp only [hl] at hpath ⊢
      refine ih remaining (env.heap r) c (by omega) hpath hsuff ?_
      intro j hj d hd
      refine hbefore (j + 1) (by omega) d ?_
      rw [outputPath_succ]
      simpa [hl] using hd

theorem outputLoop_path_end (env : Env) (outputTokens : Int) :
    ∀ (k remaining : Nat) (cur c : ModelRoleConfig), k < remaining →
      outputPath env cur k = some c →
      outputLink c = none →
      (∀ j, j ≤ k → ∀ d, outputPath env cur j = some d →
        ¬ env.GetReservedOutputTokens d ≥ outputTokens) →
      outputLoop env outputTokens remaining cur = c := by
  intro k
  induction k with
  | zero =>
    intro remaining cur c hk hpath hend hnone
    obtain ⟨remaining, rfl⟩ : ∃ f, remaining = f + 1 := ⟨remaining - 1, by omega⟩
    have hcur : ¬ env.GetReservedOutputTokens cur ≥ outputTokens :=
      hnone 0 (le_refl 0) cur rfl
    simp only [outputPath, Option.some.injEq] at hpath
    subst hpath
    rw [outputLoop_step env outputTokens remaining cur hcur]
    simp [hend]
  | succ k ih =>
    intro remaining cur c hk hpath hend hnone
    obtain ⟨remaining, rfl⟩ : ∃ f, remaining = f + 1 := ⟨remaining - 1, by omega⟩
    have hcur : ¬ env.GetReservedOutputTokens cur ≥ outputTokens :=
      hnone 0 (by omega) cur rfl
    rw [outputLoop_step env outputTokens remaining cur hcur]
    rw [outputPath_succ] at hpath
    cases hl : outputLink cur with
    | none => simp [hl] at hpath
    | some r =>
      simp only [hl] at hpath ⊢
      refine ih remaining (env.heap r) c (by omega) hpath hend ?_
      intro j hj d hd
      refine hnone (j + 1) (by omega) d ?_
      rw [outputPath_succ]
      simpa [hl] using hd

/-- C9 as stated fails: on a heap where a config is its own fallback and its budget (100)
is below the padded estimate (1000), `GetRoleForOutputTokens` returns that config, which
neither has a sufficient budget nor is a config with neither fallback. -/
theorem C9_cycle_counterexample :
    GetRoleForOutputTokens selfEnv selfRole 1000 = selfRole
      ∧ ¬ selfEnv.GetReservedOutputTokens selfRole
          ≥ padTokens 1000 (selfEnv.GetSharedBaseConfig selfRole).TokenEstimatePaddingPct
      ∧ ¬ (selfRole.LargeOutputFallback = none ∧ selfRole.LargeContextFallback = none) := by
  refine ⟨?_, ?_, by decide⟩
  · simp only [GetRoleForOutputTokens, selfEnv, mkEnv]
    decide
  · simp only [selfEnv, mkEnv]
    decide

/-- C9, amended. Along the path that from each config follows its large-output fallback
if defined and otherwise its large-context fallback: if a config at most
`maxFallbackDepth` links away from the receiver has a reserved-output budget of at least
the padded estimate and no config before it on the path has, `GetRoleForOutputTokens`
returns it; and if the path ends at most `maxFallbackDepth` links away, at a config with
neither fallback, and no config on the path has a sufficient budget,
`GetRoleForOutputTokens` returns that last config. -/
theorem C9_output_selection_within_depth (env : Env) (m : ModelRoleConfig)
    (outputTokens : Int) (k : Nat) (c : ModelRoleConfig) (hk : k ≤ maxFallbackDepth)
    (hpath : outputPath env m k = some c) :
    ((env.GetReservedOutputTokens c
          ≥ padTokens outputTokens (env.GetSharedBaseConfig m).TokenEstimatePaddingPct
        ∧ ∀ j, j < k → ∀ d, outputPath env m j = some d →
            ¬ env.GetReservedOutputTokens d
              ≥ padTokens outputTokens (env.GetSharedBaseConfig m).TokenEstimatePaddingPct) →
      GetRoleForOutputTokens env m outputTokens = c)
    ∧ ((c.LargeOutputFallback = none ∧ c.LargeContextFallback = none
        ∧ ∀ j, j ≤ k → ∀ d, outputPath env m j = some d →
            ¬ env.GetReservedOutputTokens d
              ≥ padTokens outputTokens (env.GetSharedBaseConfig m).TokenEstimatePaddingPct) →
      GetRoleForOutputTokens env m outputTokens = c) := by
  constructor
  · rintro ⟨hsuff, hbefore⟩
    exact outputLoop_first_sufficient env _ k (maxFallbackDepth + 1) m c (by omega) hpath
      hsuff hbefore
  · rintro ⟨ho, hc, hnone⟩
    refine outputLoop_path_end env _ k (maxFallbackDepth + 1) m c (by omega) hpath ?_ hnone
    simp [outputLink, ho, hc]

/-- C9, amended, on a role with a budget of 112 that falls back to a 32k and then a 128k
config, with a padding of 13 percent. An estimate of 100 is padded to 112 and selects the
role itself, an estimate of 10000 selects the 32k config one link away, and an estimate of
200000 the last config of the path. -/
theorem C9_output_selection_within_depth_witness :
    padTokens 100 (paddedThreeEnv.GetSharedBaseConfig smallRole).TokenEstimatePaddingPct = 112
      ∧ paddedThreeEnv.GetReservedOutputTokens smallRole = 112
      ∧ GetRoleForOutputTokens paddedThreeEnv smallRole 100 = smallRole
      ∧ GetRoleForOutputTokens paddedThreeEnv smallRole 10000 = mediumRole
      ∧ GetRoleForOutputTokens paddedThreeEnv smallRole 200000 = largeRole := by
  have h0 : outputPath paddedThreeEnv smallRole 0 = some smallRole := by decide
  have h1 : outputPath paddedThreeEnv smallRole 1 = some mediumRole := by decide
  have h2 : outputPath paddedThreeEnv smallRole 2 = some largeRole := by decide
  refine ⟨by decide, by decide, ?_, ?_, ?_⟩
  · refine (C9_output_selection_within_depth paddedThreeEnv smallRole 100 0 smallRole
      (by decide) h0).1 ⟨by decide, ?_⟩
    intro j hj
    omega
  · refine (C9_output_selection_within_depth paddedThreeEnv smallRole 10000 1 mediumRole
      (by decide) h1).1 ⟨by decide, ?_⟩
    intro j hj d hd
    obtain rfl : j = 0 := by omega
    rw [h0] at hd
    obtain rfl := Option.some.inj hd
    decide
  · refine (C9_output_selection_within_depth paddedThreeEnv smallRole 200000 2 largeRole
      (by decide) h2).2 ⟨rfl, rfl, ?_⟩
    intro j hj d hd
    have hd3 : d = smallRole ∨ d = mediumRole ∨ d = largeRole := by
      interval_cases j
      · rw [h0] at hd
        exact Or.inl (Option.some.inj hd).symm
      · rw [h1] at hd
        exact Or.inr (Or.inl (Option.some.inj hd).symm)
      · rw [h2] at hd
        exact Or.inr (Or.inr (Option.some.inj hd).symm)
    rcases hd3 with rfl | rfl | rfl <;> decide

/-! ## The fallback decision table -/

/-- C4. On a non-nil receiver `m` and an error of kind `ErrContextTooLong`,
`GetFallbackForModelError` returns `m.LargeContextFallback` with `IsFallback = true` and
`FallbackType = context` when that fallback is defined, and `m` itself with
`IsFallback = false` when it is not, whatever `Retriable`, `numTotalRetry`,
`didProviderFallback` and `m.ErrorFallback` are. -/
theorem C4_context_too_long_uses_large_context_fallback (env : Env)
    (openRouter : ModelProvider) (m : Ref) (numTotalRetry : Int)
    (didProviderFallback : Bool) (modelErr : ModelError)
    (hkind : modelErr.Kind = ErrContextTooLong) :
    (∀ r, (env.heap m).LargeContextFallback = some r →
        GetFallbackForModelError env openRouter m numTotalRetry didProviderFallback
            (some modelErr)
          = { ModelRoleConfig := .addr r, IsFallback := true,
              FallbackType := FallbackTypeContext,
              BaseModelConfig := env.GetBaseModelConfig (env.heap r) })
    ∧ ((env.heap m).LargeContextFallback = none →
        GetFallbackForModelError env openRouter m numTotalRetry didProviderFallback
            (some modelErr)
          = { ModelRoleConfig := .addr m, IsFallback := false, FallbackType := "",
              BaseModelConfig := none }) := by
  constructor
  · intro r hr
    simp [GetFallbackForModelError, hkind, hr]
  · intro hr
    simp [GetFallbackForModelError, hkind, hr]

/-- C4, on a role with both a large-context and an error fallback, for a non-retriable
error after five retries and a provider fallback, and on a role without fallback. -/
theorem C4_context_too_long_uses_large_context_fallback_witness :
    GetFallbackForModelError errEnv "openrouter" 0 5 true
        (some { Kind := ErrContextTooLong, Retriable := false, RetryAfterSeconds := 0 })
      = { ModelRoleConfig := .addr 1, IsFallback := true, FallbackType := FallbackTypeContext,
          BaseModelConfig := none }
    ∧ GetFallbackForModelError errEnv "openrouter" 3 5 false
        (some { Kind := ErrContextTooLong, Retriable := false, RetryAfterSeconds := 0 })
      = { ModelRoleConfig := .addr 3, IsFallback := false, FallbackType := "",
          BaseModelConfig := none } :=
  ⟨(C4_context_too_long_uses_large_context_fallback errEnv "openrouter" 0 5 true
      { Kind := ErrContextTooLong, Retriable := false, RetryAfterSeconds := 0 } rfl).1 1
      (by decide),
   (C4_context_too_long_uses_large_context_fallback errEnv "openrouter" 3 5 false
      { Kind := ErrContextTooLong, Retriable := false, RetryAfterSeconds := 0 } rfl).2
      (by decide)⟩

/-- C5. On a non-nil receiver `m` whose `ErrorFallback` is defined and an error of a kind
other than `ErrContextTooLong`, `GetFallbackForModelError` returns `m.ErrorFallback` with
`IsFallback = true` and `FallbackType = error` if and only if the error is not retriable
or `numTotalRetry > MAX_RETRIES_BEFORE_FALLBACK`, where `MAX_RETRIES_BEFORE_FALLBACK = 1`;
otherwise it returns `m` itself with `IsFallback = false`. -/
theorem C5_error_fallback_after_retry_threshold (env : Env) (openRouter : ModelProvider)
    (m : Ref) (numTotalRetry : Int) (didProviderFallback : Bool) (modelErr : ModelError)
    (r : Ref) (hfb : (env.heap m).ErrorFallback = some r)
    (hkind : modelErr.Kind ≠ ErrContextTooLong) :
    MAX_RETRIES_BEFORE_FALLBACK = 1
    ∧ (((GetFallbackForModelError env openRouter m numTotalRetry didProviderFallback
            (some modelErr)).ModelRoleConfig = .addr r
        ∧ (GetFallbackForModelError env openRouter m numTotalRetry didProviderFallback
            (some modelErr)).IsFallback = true
        ∧ (GetFallbackForModelError env openRouter m numTotalRetry didProviderFallback
            (some modelErr)).FallbackType = FallbackTypeError)
      ↔ (modelErr.Retriable = false ∨ numTotalRetry > MAX_RETRIES_BEFORE_FALLBACK))
    ∧ (¬ (modelErr.Retriable = false ∨ numTotalRetry > MAX_RETRIES_BEFORE_FALLBACK) →
        GetFallbackForModelError env openRouter m numTotalRetry didProviderFallback
            (some modelErr)
          = { ModelRoleConfig := .addr m, IsFallback := false, FallbackType := "",
              BaseModelConfig := none }) := by
  refine ⟨rfl, ?_, ?_⟩
  · by_cases hc : modelErr.Retriable = false ∨ numTotalRetry > MAX_RETRIES_BEFORE_FALLBACK
    · have hif : (!modelErr.Retriable || decide (numTotalRetry > MAX_RETRIES_BEFORE_FALLBACK))
          = true := by
        rcases hc with h | h <;> simp [h]
      simp [GetFallbackForModelError, hkind, hfb, hif, hc]
    · have hif : (!modelErr.Retriable || decide (numTotalRetry > MAX_RETRIES_BEFORE_FALLBACK))
          = false := by
        push_neg at hc
        simp [hc.1, hc.2]
      simp [GetFallbackForModelError, hkind, hif, hc]
  · intro hc
    have hif : (!modelErr.Retriable || decide (numTotalRetry > MAX_RETRIES_BEFORE_FALLBACK))
        = false := by
      push_neg at hc
      simp [hc.1, hc.2]
    simp [GetFallbackForModelError, hkind, hif]


/-- C5, on a role with an error fallback at address 2: a retriable overloaded error falls
back after the second retry and not after the first; a non-retriable one falls back at
once. -/
theorem C5_error_fallback_after_retry_threshold_witness :
    (GetFallbackForModelError errEnv "openrouter" 0 1 false
        (some { Kind := ErrOverloaded, Retriable := true, RetryAfterSeconds := 0 })
      = { ModelRoleConfig := .addr 0, IsFallback := false, FallbackType := "",
          BaseModelConfig := none })
    ∧ (errEnv.heap 0).ErrorFallback = some 2
    ∧ ((GetFallbackForModelError errEnv "openrouter" 0 2 false
          (some { Kind := ErrOverloaded, Retriable := true, RetryAfterSeconds := 0 })).ModelRoleConfig
        = .addr 2
      ∧ (GetFallbackForModelError errEnv "openrouter" 0 2 false
          (some { Kind := ErrOverloaded, Retriable := true, RetryAfterSeconds := 0 })).IsFallback
        = true
      ∧ (GetFallbackForModelError errEnv "openrouter" 0 2 false
          (some { Kind := ErrOverloaded, Retriable := true, RetryAfterSeconds := 0 })).FallbackType
        = FallbackTypeError) :=
  ⟨(C5_error_fallback_after_retry_threshold errEnv "openrouter" 0 1 false
      { Kind := ErrOverloaded, Retriable := true, RetryAfterSeconds := 0 } 2 (by decide)
      (by decide)).2.2 (by decide),
   by decide,
   (C5_error_fallback_after_retry_threshold errEnv "openrouter" 0 2 false
      { Kind := ErrOverloaded, Retriable := true, RetryAfterSeconds := 0 } 2 (by decide)
      (by decide)).2.1.mpr (Or.inr (by decide))⟩

/-- C6. On a non-nil receiver `m` without `ErrorFallback` and an error of a kind other than
`ErrContextTooLong` that is not retriable or comes with `numTotalRetry > 1`,
`GetFallbackForModelError` returns a provider fallback (`IsFallback = true`,
`FallbackType = provider`, the config that `GetProviderFallback` returns) if and only if
`didProviderFallback` is false and `GetProviderFallback` returns a non-nil config; in every
other case it returns `m` itself with `IsFallback = false`. -/
theorem C6_provider_fallback_tried_once (env : Env) (openRouter : ModelProvider) (m : Ref)
    (numTotalRetry : Int) (didProviderFallback : Bool) (modelErr : ModelError)
    (hfb : (env.heap m).ErrorFallback = none) (hkind : modelErr.Kind ≠ ErrContextTooLong)
    (hcond : modelErr.Retriable = false ∨ numTotalRetry > 1) :
    (((GetFallbackForModelError env openRouter m numTotalRetry didProviderFallback
            (some modelErr)).IsFallback = true
        ∧ (GetFallbackForModelError env openRouter m numTotalRetry didProviderFallback
            (some modelErr)).FallbackType = FallbackTypeProvider)
      ↔ (didProviderFallback = false ∧ GetProviderFallback env openRouter (env.heap m) ≠ none))
    ∧ (∀ c, didProviderFallback = false →
        GetProviderFallback env openRouter (env.heap m) = some c →
        GetFallbackForModelError env openRouter m numTotalRetry didProviderFallback
            (some modelErr)
          = { ModelRoleConfig := .fresh c, IsFallback := true,
              FallbackType := FallbackTypeProvider,
              BaseModelConfig := env.GetBaseModelConfig c })
    ∧ (¬ (didProviderFallback = false ∧ GetProviderFallback env openRouter (env.heap m) ≠ none) →
        GetFallbackForModelError env openRouter m numTotalRetry didProviderFallback
            (some modelErr)
          = { ModelRoleConfig := .addr m, IsFallback := false, FallbackType := "",
              BaseModelConfig := none }) := by
  have hif : (!modelErr.Retriable || decide (numTotalRetry > MAX_RETRIES_BEFORE_FALLBACK))
      = true := by
    rcases hcond with h | h
    · simp [h]
    · simp [MAX_RETRIES_BEFORE_FALLBACK, h]
  cases hd : didProviderFallback with
  | true => simp [GetFallbackForModelError, hkind, hfb, hif]
  | false =>
    cases hp : GetProviderFallback env openRouter (env.heap m) with
    | none => simp [GetFallbackForModelError, hkind, hfb, hif, hp]
    | some c => simp [GetFallbackForModelError, hkind, hfb, hif, hp]

/-- C6, on a role without fallbacks and a stack of two providers: a non-retriable error
gets the provider fallback when none was tried before and no fallback when one was. -/
theorem C6_provider_fallback_tried_once_witness :
    GetProviderFallback errEnv "openrouter" (errEnv.heap 3) = some (mkRole "bare" none none)
    ∧ GetFallbackForModelError errEnv "openrouter" 3 0 false
        (some { Kind := ErrOther, Retriable := false, RetryAfterSeconds := 0 })
      = { ModelRoleConfig := .fresh (mkRole "bare" none none), IsFallback := true,
          FallbackType := FallbackTypeProvider, BaseModelConfig := none }
    ∧ GetFallbackForModelError errEnv "openrouter" 3 0 true
        (some { Kind := ErrOther, Retriable := false, RetryAfterSeconds := 0 })
      = { ModelRoleConfig := .addr 3, IsFallback := false, FallbackType := "",
          BaseModelConfig := none } :=
  ⟨by decide,
   (C6_provider_fallback_tried_once errEnv "openrouter" 3 0 false
      { Kind := ErrOther, Retriable := false, RetryAfterSeconds := 0 } (by decide) (by decide)
      (Or.inl rfl)).2.1 (mkRole "bare" none none) rfl (by decide),
   (C6_provider_fallback_tried_once errEnv "openrouter" 3 0 true
      { Kind := ErrOther, Retriable := false, RetryAfterSeconds := 0 } (by decide) (by decide)
      (Or.inl rfl)).2.2 (by decide)⟩

/-! ## Retry counting -/

theorem retryCount_foldl_quota (quota : List ModelError)
    (hq : ∀ e ∈ quota, e.Kind = ErrSubscriptionQuotaExhausted) (n : Nat) :
    quota.foldl (fun n e => if e.ShouldIncrementRetry then n + 1 else n) n = n := by
  induction quota generalizing n with
  | nil => rfl
  | cons e rest ih =>
    have he : e.ShouldIncrementRetry = false := by
      simp [ModelError.ShouldIncrementRetry, hq e (List.mem_cons_self _ _)]
    rw [List.foldl_cons]
    simp only [he, Bool.false_eq_true, if_false]
    exact ih (fun x hx => hq x (List.mem_cons_of_mem _ hx)) n

/-- C7. `ShouldIncrementRetry` is false exactly for the kinds
`ErrSubscriptionQuotaExhausted` and `ErrCacheSupport`, whatever `Retriable` and
`RetryAfterSeconds` are; hence a counter incremented only when `ShouldIncrementRetry` is
true equals 1 after any number of quota-exhausted errors followed by one overloaded
error. -/
theorem C7_quota_and_cache_errors_do_not_count :
    (∀ e : ModelError, e.ShouldIncrementRetry = false
        ↔ (e.Kind = ErrSubscriptionQuotaExhausted ∨ e.Kind = ErrCacheSupport))
    ∧ (∀ (quota : List ModelError) (overloaded : ModelError),
        (∀ e ∈ quota, e.Kind = ErrSubscriptionQuotaExhausted) →
        overloaded.Kind = ErrOverloaded →
        retryCount (quota ++ [overloaded]) = 1) := by
  constructor
  · intro e
    simp only [ModelError.ShouldIncrementRetry, Bool.and_eq_false_iff, bne_eq_false_iff_eq]
  · intro quota overloaded hq ho
    have hinc : overloaded.ShouldIncrementRetry = true := by
      simp only [ModelError.ShouldIncrementRetry, ho]
      decide
    unfold retryCount
    rw [List.foldl_append, retryCount_foldl_quota quota hq 0]
    simp [hinc]

/-- C7, for three quota-exhausted errors that differ in `Retriable` and
`RetryAfterSeconds`, followed by one retriable overloaded error. -/
theorem C7_quota_and_cache_errors_do_not_count_witness :
    retryCount
      ([{ Kind := ErrSubscriptionQuotaExhausted, Retriable := true, RetryAfterSeconds := 30 },
        { Kind := ErrSubscriptionQuotaExhausted, Retriable := false, RetryAfterSeconds := 0 },
        { Kind := ErrSubscriptionQuotaExhausted, Retriable := true, RetryAfterSeconds := 0 }]
        ++ [{ Kind := ErrOverloaded, Retriable := true, RetryAfterSeconds := 5 }]) = 1 :=
  C7_quota_and_cache_errors_do_not_count.2 _ _ (by decide) rfl

/-! ## The stop-sequence shim -/

theorem occursAt_zero (s substr : GoString) : OccursAt s substr 0 ↔ substr <+: s := by
  simp [OccursAt]

theorem occursAt_cons_succ (c : UInt8) (s substr : GoString) (j : Nat) :
    OccursAt (c :: s) substr (j + 1) ↔ OccursAt s substr j := by
  simp [OccursAt]

theorem indexFrom_spec (substr : GoString) :
    ∀ (s : GoString) (i : Nat),
      (indexFrom substr s i = -1 ∧ ∀ j, ¬ OccursAt s substr j)
      ∨ ∃ k : Nat, indexFrom substr s i = ((i + k : Nat) : Int) ∧ OccursAt s substr k
          ∧ ∀ j, j < k → ¬ OccursAt s substr j := by
  intro s
  induction s with
  | nil =>
    intro i
    by_cases h : substr = []
    · right
      exact ⟨0, by simp [indexFrom, h], by simp [OccursAt, h], by omega⟩
    · left
      refine ⟨by simp [indexFrom, h], ?_⟩
      intro j hj
      apply h
      simpa [OccursAt] using hj.2
  | cons c s ih =>
    intro i
    by_cases h : substr.isPrefixOf (c :: s) = true
    · right
      refine ⟨0, by simp [indexFrom, h], ?_, by omega⟩
      rw [occursAt_zero]
      exact List.isPrefixOf_iff_prefix.mp h
    · have h0 : ¬ OccursAt (c :: s) substr 0 := by
        rw [occursAt_zero]
        intro hp
        exact h (List.isPrefixOf_iff_prefix.mpr hp)
      rcases ih (i + 1) with ⟨hidx, hno⟩ | ⟨k, hidx, hocc, hmin⟩
      · left
        refine ⟨by simp [indexFrom, h, hidx], ?_⟩
        intro j
        cases j with
        | zero => exact h0
        | succ j =>
          rw [occursAt_cons_succ]
          exact hno j
      · right
        refine ⟨k + 1, ?_, ?_, ?_⟩
        · have e : indexFrom substr (c :: s) i = indexFrom substr s (i + 1) := by
            simp [indexFrom, h]
          rw [e, hidx]
          push_cast
          omega
        · rw [occursAt_cons_succ]
          exact hocc
        · intro j hj
          cases j with
          | zero => exact h0
          | succ j =>
            rw [occursAt_cons_succ]
            exact hmin j (by omega)


theorem index_eq_neg_one_or_least (content s : GoString) :
    (Index content s = -1 ∧ ∀ j, ¬ OccursAt content s j)
    ∨ ∃ k : Nat, Index content s = (k : Int) ∧ OccursAt content s k
        ∧ ∀ j, j < k → ¬ OccursAt content s j := by
  simpa [Index] using indexFrom_spec s content 0

theorem stopScan_cons (content s : GoString) (stop : List GoString) (init : Int × Bool) :
    stopScan content (s :: stop) init
      = stopScan content stop
          (if Index content s != -1 && Index content s < init.1 then (Index content s, true)
            else init) := by
  simp [stopScan]

/-- What the loop over the stop strings computes, from any starting pair. -/
theorem stopScan_spec (content : GoString) :
    ∀ (stop : List GoString) (e : Int) (f : Bool),
      (stopScan content stop (e, f)).1 ≤ e
      ∧ (∀ s ∈ stop, Index content s ≠ -1 → (stopScan content stop (e, f)).1 ≤ Index content s)
      ∧ ((stopScan content stop (e, f)).1 = e
          ∨ ∃ s ∈ stop, Index content s ≠ -1 ∧ Index content s = (stopScan content stop (e, f)).1)
      ∧ ((stopScan content stop (e, f)).2 = true
          ↔ (f = true ∨ (stopScan content stop (e, f)).1 < e)) := by
  intro stop
  induction stop with
  | nil =>
    intro e f
    simp [stopScan]
  | cons s stop ih =>
    intro e f
    rw [stopScan_cons]
    by_cases hc : Index content s ≠ -1 ∧ Index content s < e
    · have hif : (Index content s != -1 && decide (Index content s < e)) = true := by
        simp [hc.1, hc.2]
      simp only [hif, if_true]
      obtain ⟨h1, h2, h3, h4⟩ := ih (Index content s) true
      refine ⟨by omega, ?_, ?_, ?_⟩
      · intro t ht hne
        rcases List.mem_cons.mp ht with rfl | ht
        · exact h1
        · exact h2 t ht hne
      · right
        rcases h3 with h3 | ⟨t, ht, hne, heq⟩
        · exact ⟨s, List.mem_cons_self _ _, hc.1, h3.symm⟩
        · exact ⟨t, List.mem_cons_of_mem _ ht, hne, heq⟩
      · constructor
        · intro _
          right
          omega
        · intro _
          exact h4.mpr (Or.inl rfl)
    · have hif : (Index content s != -1 && decide (Index content s < e)) = false := by
        by_cases hne : Index content s = -1
        · simp [hne]
        · have : ¬ Index content s < e := fun hlt => hc ⟨hne, hlt⟩
          simp [this]
      simp only [hif, Bool.false_eq_true, if_false]
      obtain ⟨h1, h2, h3, h4⟩ := ih e f
      refine ⟨h1, ?_, ?_, h4⟩
      · intro t ht hne
        rcases List.mem_cons.mp ht with rfl | ht
        · have : ¬ Index content t < e := fun hlt => hc ⟨hne, hlt⟩
          omega
        · exact h2 t ht hne
      · rcases h3 with h3 | ⟨t, ht, hne, heq⟩
        · exact Or.inl h3
        · exact Or.inr ⟨t, List.mem_cons_of_mem _ ht, hne, heq⟩

/-- C10. With `StopDisabled` and a non-empty stop list, the content `ModelRequest` returns
is the content of the completion call cut at the smallest offset at which any of the stop
strings occurs (smallest over all stop strings, whatever their order in the list), and is
that content unchanged when no stop string occurs in it. -/
theorem C10_truncates_at_earliest_stop (stop : List GoString) (content : GoString)
    (hstop : stop ≠ []) :
    ((∀ s ∈ stop, ∀ i, ¬ OccursAt content s i) →
        ModelRequestContent true stop content = content)
    ∧ (∀ i, (∃ s ∈ stop, OccursAt content s i) →
        (∀ s ∈ stop, ∀ j, OccursAt content s j → i ≤ j) →
        ModelRequestContent true stop content = content.take i) := by
  have hlen : stop.length > 0 := List.length_pos.mpr hstop
  obtain ⟨h1, h2, h3, h4⟩ := stopScan_spec content stop (content.length : Int) false
  have hdef : ModelRequestContent true stop content
      = if (stopScan content stop ((content.length : Int), false)).2 = true
        then content.take (stopScan content stop ((content.length : Int), false)).1.toNat
        else content := by
    simp [ModelRequestContent, hlen]
  constructor
  · intro hno
    have hall : ∀ s ∈ stop, Index content s = -1 := by
      intro s hs
      rcases index_eq_neg_one_or_least content s with ⟨h, _⟩ | ⟨k, _, hocc, _⟩
      · exact h
      · exact absurd hocc (hno s hs k)
    have he : (stopScan content stop ((content.length : Int), false)).1 = content.length := by
      rcases h3 with h3 | ⟨t, ht, hne, _⟩
      · exact h3
      · exact absurd (hall t ht) hne
    have hf : ¬ (stopScan content stop ((content.length : Int), false)).2 = true := by
      rw [h4]
      simp [he]
    rw [hdef, if_neg hf]
  · intro i ⟨s0, hs0, hocc0⟩ hmin
    have hi_len : i ≤ content.length := hocc0.1
    have hidx0 : Index content s0 = (i : Int) := by
      rcases index_eq_neg_one_or_least content s0 with ⟨_, hno⟩ | ⟨k, hk, hocc, hleast⟩
      · exact absurd hocc0 (hno i)
      · have h1 : i ≤ k := hmin s0 hs0 k hocc
        have h2 : ¬ i < k := fun hlt => hleast i hlt hocc0
        rw [hk]
        congr 1
        omega
    have hle : (stopScan content stop ((content.length : Int), false)).1 ≤ (i : Int) := by
      have := h2 s0 hs0 (by rw [hidx0]; omega)
      rwa [hidx0] at this
    have hge : (i : Int) ≤ (stopScan content stop ((content.length : Int), false)).1 := by
      rcases h3 with h3 | ⟨t, ht, hne, heq⟩
      · rw [h3]
        exact_mod_cast hi_len
      · rcases index_eq_neg_one_or_least content t with ⟨h, _⟩ | ⟨k, hk, hocc, _⟩
        · exact absurd h hne
        · rw [← heq, hk]
          exact_mod_cast hmin t ht k hocc
    have he : (stopScan content stop ((content.length : Int), false)).1 = (i : Int) :=
      le_antisymm hle hge
    rw [hdef, he]
    by_cases hf : (stopScan content stop ((content.length : Int), false)).2 = true
    · simp [hf]
    · rw [if_neg hf]
      have : ¬ (i : Int) < content.length := by
        intro hlt
        apply hf
        rw [h4, he]
        exact Or.inr hlt
      have hil : i = content.length := by omega
      rw [hil, List.take_length]

/-- C10, for the stop strings `[9, 9]`, `[3, 4]`, `[2]` in that order and the content
`[1, 2, 3, 4]`: the first stop string does not occur, the second occurs at offset 2, the
third at offset 1, and the content is cut at offset 1. -/
theorem C10_truncates_at_earliest_stop_witness :
    ModelRequestContent true [[9, 9], [3, 4], [2]] [1, 2, 3, 4] = [1] := by
  refine (C10_truncates_at_earliest_stop [[9, 9], [3, 4], [2]] [1, 2, 3, 4] (by decide)).2 1
    ⟨[2], by decide, by decide⟩ ?_
  intro s hs j hj
  by_contra hlt
  obtain rfl : j = 0 := by omega
  simp only [List.mem_cons, List.mem_singleton, List.not_mem_nil, or_false] at hs
  rcases hs with rfl | rfl | rfl <;> revert hj <;> decide

/-! ## The provider fallback -/

theorem findOpenRouter_of_mem (openRouter : ModelProvider) (providers : List ModelProviderOption)
    (h : ∃ p ∈ providers, p.Provider = openRouter) :
    findOpenRouter openRouter providers = openRouter := by
  induction providers with
  | nil => simp at h
  | cons p rest ih =>
    by_cases hp : p.Provider = openRouter
    · simp [findOpenRouter, hp]
    · simp only [findOpenRouter, hp, if_false]
      rcases h with ⟨q, hq, hqo⟩
      rcases List.mem_cons.mp hq with rfl | hq
      · exact absurd hqo hp
      · exact ih ⟨q, hq, hqo⟩

theorem findOpenRouter_of_not_mem (openRouter : ModelProvider)
    (providers : List ModelProviderOption)
    (h : ¬ ∃ p ∈ providers, p.Provider = openRouter) :
    findOpenRouter openRouter providers = "" := by
  induction providers with
  | nil => rfl
  | cons p rest ih =>
    have hp : ¬ p.Provider = openRouter := fun hp => h ⟨p, List.mem_cons_self _ _, hp⟩
    simp only [findOpenRouter, hp, if_false]
    exact ih (fun ⟨q, hq, hqo⟩ => h ⟨q, List.mem_cons_of_mem _ hq, hqo⟩)

/-- C17. `GetProviderFallback` returns nil if and only if the provider stack has fewer
than two providers. Otherwise, `ModelProviderOpenRouter` being a non-empty string, the
provider it selects is OpenRouter when the first provider does not have Claude Max auth and
OpenRouter appears anywhere in the stack, and the second provider of the stack in every
other case; the config it returns is the receiver with only `BaseModelConfig` replaced
(by the base config of the available model for that provider and the receiver's `ModelId`,
or by the receiver's own base config when there is none), so it keeps the receiver's
`ModelId`. -/
theorem C17_provider_fallback_selection (env : Env) (openRouter : ModelProvider)
    (m : ModelRoleConfig) (hopen : openRouter ≠ "") :
    (GetProviderFallback env openRouter m = none
        ↔ (env.GetProvidersForAuthVars m).length < 2)
    ∧ (∀ firstProvider second rest,
        env.GetProvidersForAuthVars m = firstProvider :: second :: rest →
        (firstProvider.HasClaudeMaxAuth = false
            ∧ (∃ p ∈ firstProvider :: second :: rest, p.Provider = openRouter) →
          selectedFallbackProvider openRouter firstProvider second rest = openRouter)
        ∧ (¬ (firstProvider.HasClaudeMaxAuth = false
            ∧ ∃ p ∈ firstProvider :: second :: rest, p.Provider = openRouter) →
          selectedFallbackProvider openRouter firstProvider second rest = second.Provider)
        ∧ GetProviderFallback env openRouter m
          = some { m with
              BaseModelConfig :=
                match env.GetAvailableModel
                    (selectedFallbackProvider openRouter firstProvider second rest)
                    m.ModelId with
                | some availableModel => some availableModel.BaseModelConfig
                | none => env.GetBaseModelConfig m })
    ∧ (∀ res, GetProviderFallback env openRouter m = some res → res.ModelId = m.ModelId) := by
  have hmain : ∀ firstProvider second rest,
      env.GetProvidersForAuthVars m = firstProvider :: second :: rest →
      GetProviderFallback env openRouter m
        = some { m with
            BaseModelConfig :=
              match env.GetAvailableModel
                  (selectedFallbackProvider openRouter firstProvider second rest)
                  m.ModelId with
              | some availableModel => some availableModel.BaseModelConfig
              | none => env.GetBaseModelConfig m } := by
    intro firstProvider second rest hstack
    unfold GetProviderFallback
    rw [hstack]
    simp only [selectedFallbackProvider]
    cases env.GetAvailableModel _ m.ModelId <;> rfl
  refine ⟨?_, ?_, ?_⟩
  · cases hstack : env.GetProvidersForAuthVars m with
    | nil => simp [GetProviderFallback, hstack]
    | cons firstProvider tl =>
      cases tl with
      | nil => simp [GetProviderFallback, hstack]
      | cons second rest =>
        rw [hmain firstProvider second rest hstack]
        simp
  · intro firstProvider second rest hstack
    refine ⟨?_, ?_, hmain firstProvider second rest hstack⟩
    · rintro ⟨hauth, hmem⟩
      simp [selectedFallbackProvider, hauth, findOpenRouter_of_mem openRouter _ hmem, hopen]
    · intro hnot
      by_cases hauth : firstProvider.HasClaudeMaxAuth = false
      · have hmem : ¬ ∃ p ∈ firstProvider :: second :: rest, p.Provider = openRouter :=
          fun hmem => hnot ⟨hauth, hmem⟩
        simp [selectedFallbackProvider, hauth, findOpenRouter_of_not_mem openRouter _ hmem]
      · have hauth2 : firstProvider.HasClaudeMaxAuth = true := by simpa using hauth
        simp [selectedFallbackProvider, hauth2]
  · intro res hres
    cases hstack : env.GetProvidersForAuthVars m with
    | nil => simp [GetProviderFallback, hstack] at hres
    | cons firstProvider tl =>
      cases tl with
      | nil => simp [GetProviderFallback, hstack] at hres
      | cons second rest =>
        rw [hmain firstProvider second rest hstack] at hres
        rw [← Option.some.inj hres]

/-- C17, on a stack of three providers whose last is OpenRouter and whose first has no
Claude Max auth: OpenRouter is selected and the config keeps the receiver's model. -/
theorem C17_provider_fallback_selection_witness :
    "openrouter" ≠ ""
    ∧ selectedFallbackProvider "openrouter"
        { Provider := "anthropic", HasClaudeMaxAuth := false }
        { Provider := "openai", HasClaudeMaxAuth := false }
        [{ Provider := "openrouter", HasClaudeMaxAuth := false }] = "openrouter"
    ∧ GetProviderFallback openRouterEnv "openrouter" primaryRole = some primaryRole :=
  ⟨by decide,
   ((C17_provider_fallback_selection openRouterEnv "openrouter" primaryRole (by decide)).2.1
      _ _ _ rfl).1
      ⟨rfl, ⟨{ Provider := "openrouter", HasClaudeMaxAuth := false }, by decide, rfl⟩⟩,
   ((C17_provider_fallback_selection openRouterEnv "openrouter" primaryRole (by decide)).2.1
      _ _ _ rfl).2.2⟩

/-! ## Selection by input tokens when every budget is too small -/

theorem contextChain_succ (env : Env) (m : ModelRoleConfig) (k : Nat) :
    contextChain env m (k + 1)
      = match m.LargeContextFallback with
        | none => none
        | some r => contextChain env (env.heap r) k := by
  induction k with
  | zero => cases h : m.LargeContextFallback <;> simp [contextChain, h]
  | succ k ih =>
    rw [contextChain, ih]
    cases h : m.LargeContextFallback <;> simp [contextChain]

theorem finalContextLoop_chain_end (env : Env) :
    ∀ (k remaining : Nat) (cur c : ModelRoleConfig), k < remaining →
      contextChain env cur k = some c → c.LargeContextFallback = none →
      finalContextLoop env remaining cur = c := by
  intro k
  induction k with
  | zero =>
    intro remaining cur c hk hchain hend
    obtain ⟨remaining, rfl⟩ : ∃ f, remaining = f + 1 := ⟨remaining - 1, by omega⟩
    simp only [contextChain, Option.some.injEq] at hchain
    subst hchain
    simp [finalContextLoop, hend]
  | succ k ih =>
    intro remaining cur c hk hchain hend
    obtain ⟨remaining, rfl⟩ : ∃ f, remaining = f + 1 := ⟨remaining - 1, by omega⟩
    rw [contextChain_succ] at hchain
    cases hl : cur.LargeContextFallback with
    | none => simp [hl] at hchain
    | some r =>
      simp only [hl] at hchain
      simp only [finalContextLoop, hl]
      exact ih remaining (env.heap r) c (by omega) hchain hend

theorem inputLoop_of_receiver_too_small (env : Env) (maxTokens inputTokens : Int)
    (hsmall : ¬ maxTokens ≥ inputTokens) :
    ∀ (remaining : Nat) (cur : ModelRoleConfig),
      inputLoop env maxTokens inputTokens remaining cur = finalContextLoop env remaining cur := by
  intro remaining
  induction remaining with
  | zero => intro cur; rfl
  | succ remaining ih =>
    intro cur
    cases hl : cur.LargeContextFallback with
    | none => simp [inputLoop, finalContextLoop, hsmall, hl]
    | some r => simp [inputLoop, finalContextLoop, hsmall, hl, ih]

/-- C18. When the large-context-fallback chain of a role ends after at most
`maxFallbackDepth` links (so it is acyclic) and the padded input-token estimate exceeds
the max-token budget of the role and of every fallback in the chain,
`GetRoleForInputTokens` returns the last config of the chain, which is also what
`GetFinalLargeContextFallback` returns. -/
theorem C18_all_budgets_too_small_returns_final_fallback (env : Env) (m : ModelRoleConfig)
    (inputTokens : Int) (k : Nat) (c : ModelRoleConfig) (hk : k ≤ maxFallbackDepth)
    (hchain : contextChain env m k = some c) (hend : c.LargeContextFallback = none)
    (hsmall : ∀ j, j ≤ k → ∀ d, contextChain env m j = some d →
      (env.GetSharedBaseConfig d).MaxTokens
        < padTokens inputTokens (env.GetSharedBaseConfig m).TokenEstimatePaddingPct) :
    GetRoleForInputTokens env m inputTokens = c
      ∧ GetFinalLargeContextFallback env m = c
      ∧ GetRoleForInputTokens env m inputTokens = GetFinalLargeContextFallback env m := by
  have hfinal : GetFinalLargeContextFallback env m = c :=
    finalContextLoop_chain_end env k (maxFallbackDepth + 1) m c (by omega) hchain hend
  have hm : ¬ (env.GetSharedBaseConfig m).MaxTokens
      ≥ padTokens inputTokens (env.GetSharedBaseConfig m).TokenEstimatePaddingPct := by
    have := hsmall 0 (Nat.zero_le k) m rfl
    omega
  have hinput : GetRoleForInputTokens env m inputTokens = GetFinalLargeContextFallback env m :=
    inputLoop_of_receiver_too_small env _ _ hm (maxFallbackDepth + 1) m
  exact ⟨hinput.trans hfinal, hfinal, hinput⟩

/-- C18, on a role with a budget of 112 that falls back to a 32k and then a 128k config,
with a padding of 13 percent: an estimate of 200000 is padded to 225999, which exceeds
every budget of the chain, and the last config of the chain is returned. -/
theorem C18_all_budgets_too_small_returns_final_fallback_witness :
    padTokens 200000 (paddedThreeEnv.GetSharedBaseConfig smallRole).TokenEstimatePaddingPct
        = 225999
      ∧ GetRoleForInputTokens paddedThreeEnv smallRole 200000 = largeRole
      ∧ GetFinalLargeContextFallback paddedThreeEnv smallRole = largeRole
      ∧ GetRoleForInputTokens paddedThreeEnv smallRole 200000
          = GetFinalLargeContextFallback paddedThreeEnv smallRole := by
  refine ⟨by decide, ?_⟩
  refine C18_all_budgets_too_small_returns_final_fallback paddedThreeEnv smallRole 200000 2
    largeRole (by decide) (by decide) rfl ?_
  intro j hj d hd
  have h0 : contextChain paddedThreeEnv smallRole 0 = some smallRole := by decide
  have h1 : contextChain paddedThreeEnv smallRole 1 = some mediumRole := by decide
  have h2 : contextChain paddedThreeEnv smallRole 2 = some largeRole := by decide
  have hd3 : d = smallRole ∨ d = mediumRole ∨ d = largeRole := by
    interval_cases j
    · rw [h0] at hd
      exact Or.inl (Option.some.inj hd).symm
    · rw [h1] at hd
      exact Or.inr (Or.inl (Option.some.inj hd).symm)
    · rw [h2] at hd
      exact Or.inr (Or.inr (Option.some.inj hd).symm)
  rcases hd3 with rfl | rfl | rfl <;> decide

/-! ## The retrying executor -/

theorem gitWriteLoop_all_locked (operation removeLocks : Nat → Option GoError)
    (label : GoString) :
    ∀ (remaining attempt : Nat) (err : Option GoError),
      (∀ i, attempt ≤ i → i < attempt + remaining →
        ∃ e, operation i = some e ∧ isLockError e = true) →
      (gitWriteLoop operation removeLocks label remaining attempt err).2
          = failedAttempts attempt remaining
        ∧ ∃ last, (gitWriteLoop operation removeLocks label remaining attempt err).1
            = some (gitRetriesExhausted label last) := by
  intro remaining
  induction remaining with
  | zero =>
    intro attempt err _
    exact ⟨rfl, err, rfl⟩
  | succ remaining ih =>
    intro attempt err hlock
    obtain ⟨e, he, hel⟩ := hlock attempt (le_refl _) (by omega)
    obtain ⟨h1, last, h2⟩ := ih (attempt + 1) (removeLocks attempt)
      (fun i hi hi2 => hlock i (by omega) (by omega))
    refine ⟨?_, last, ?_⟩
    · simp only [gitWriteLoop, he, hel, if_true, h1, failedAttempts, failedAttempt, lastAttempt]
      simp
    · simp only [gitWriteLoop, he, hel, if_true, h2]

theorem gitWriteLoop_stops (operation removeLocks : Nat → Option GoError) (label : GoString) :
    ∀ (j remaining attempt : Nat) (err : Option GoError), j < remaining →
      (∀ i, attempt ≤ i → i < attempt + j →
        ∃ e, operation i = some e ∧ isLockError e = true) →
      (∀ e, operation (attempt + j) = some e → isLockError e = false) →
      gitWriteLoop operation removeLocks label remaining attempt err
        = (operation (attempt + j), failedAttempts attempt j ++ lastAttempt (attempt + j)) := by
  intro j
  induction j with
  | zero =>
    intro remaining attempt err hj _ hstop
    obtain ⟨remaining, rfl⟩ : ∃ r, remaining = r + 1 := ⟨remaining - 1, by omega⟩
    cases hop : operation attempt with
    | none => simp [gitWriteLoop, hop, failedAttempts, lastAttempt]
    | some e =>
      have := hstop e (by simpa using hop)
      simp [gitWriteLoop, hop, this, failedAttempts, lastAttempt]
  | succ j ih =>
    intro remaining attempt err hj hlock hstop
    obtain ⟨remaining, rfl⟩ : ∃ r, remaining = r + 1 := ⟨remaining - 1, by omega⟩
    obtain ⟨e, he, hel⟩ := hlock attempt (le_refl _) (by omega)
    have ih2 := ih remaining (attempt + 1) (removeLocks attempt) (by omega)
      (fun i hi hi2 => hlock i (by omega) (by omega))
      (by
        intro e2 he2
        apply hstop e2
        rw [← he2]
        congr 1
        omega)
    have hidx : attempt + 1 + j = attempt + (j + 1) := by omega
    simp only [gitWriteLoop, he, hel, if_true, ih2, failedAttempts, failedAttempt, lastAttempt,
      hidx]
    simp

theorem invocations_append (s t : List GitEvent) :
    invocations (s ++ t) = invocations s + invocations t := by
  simp [invocations]

theorem cleanups_append (s t : List GitEvent) :
    cleanups (s ++ t) = cleanups s + cleanups t := by
  simp [cleanups]

theorem invocations_lastAttempt (a : Nat) : invocations (lastAttempt a) = 1 := by
  by_cases h : a > 0 <;> simp [invocations, lastAttempt, h]

theorem cleanups_lastAttempt (a : Nat) : cleanups (lastAttempt a) = 0 := by
  by_cases h : a > 0 <;> simp [cleanups, lastAttempt, h]

theorem invocations_failedAttempts (count : Nat) :
    ∀ a, invocations (failedAttempts a count) = count := by
  induction count with
  | zero => intro a; rfl
  | succ count ih =>
    intro a
    rw [failedAttempts, failedAttempt, invocations_append, invocations_append,
      invocations_lastAttempt, ih]
    simp [invocations]
    omega

theorem cleanups_failedAttempts (count : Nat) :
    ∀ a, cleanups (failedAttempts a count) = count := by
  induction count with
  | zero => intro a; rfl
  | succ count ih =>
    intro a
    rw [failedAttempts, failedAttempt, cleanups_append, cleanups_append,
      cleanups_lastAttempt, ih]
    simp [cleanups]
    omega
theorem gitWriteLoop_shape (operation removeLocks : Nat → Option GoError) (label : GoString) :
    ∀ (remaining attempt : Nat) (err : Option GoError),
      ∃ j, j ≤ remaining
        ∧ (gitWriteLoop operation removeLocks label remaining attempt err).2
          = failedAttempts attempt j
            ++ (if j < remaining then lastAttempt (attempt + j) else []) := by
  intro remaining
  induction remaining with
  | zero =>
    intro attempt err
    exact ⟨0, le_refl _, rfl⟩
  | succ remaining ih =>
    intro attempt err
    cases hop : operation attempt with
    | none =>
      refine ⟨0, by omega, ?_⟩
      simp [gitWriteLoop, hop, failedAttempts, lastAttempt]
    | some e =>
      by_cases hel : isLockError e = true
      · obtain ⟨j, hj, hshape⟩ := ih (attempt + 1) (removeLocks attempt)
        refine ⟨j + 1, by omega, ?_⟩
        have hidx : attempt + 1 + j = attempt + (j + 1) := by omega
        simp only [gitWriteLoop, hop, hel, if_true, hshape, failedAttempts, failedAttempt,
          lastAttempt, hidx]
        by_cases hlt : j < remaining
        · simp [hlt]
        · simp [hlt]
      · refine ⟨0, by omega, ?_⟩
        simp [gitWriteLoop, hop, hel, failedAttempts, lastAttempt]

theorem removeLocks_mem_failedAttempts (b : Nat) :
    ∀ (count a : Nat), GitEvent.removeLocks b ∈ failedAttempts a count → a ≤ b ∧ b < a + count := by
  intro count
  induction count with
  | zero => intro a h; simp [failedAttempts] at h
  | succ count ih =>
    intro a h
    simp only [failedAttempts, failedAttempt, lastAttempt, List.mem_append] at h
    rcases h with (h | h) | h
    · exfalso
      by_cases ha : a > 0 <;> simp [ha] at h
    · simp at h
      omega
    · have := ih (a + 1) h
      omega

/-- C11. If the operation fails with a lock-contention error (a message containing
`index.lock` or `cannot lock ref`) in its first `k` calls and succeeds in every later one,
`gitWriteOperation` calls it exactly `min (k + 1) maxGitRetries` times, with
`maxGitRetries = 5`, returns nil if `k < 5` and a non-nil error if `k ≥ 5`, and runs the
lock-file cleanup once after each failed call: the run consists of `min k 5` iterations
made of the call followed by the cleanup and, if `k < 5`, of the call that succeeds. -/
theorem C11_lock_contention_retried_up_to_five_times
    (operation removeLocks : Nat → Option GoError) (label : GoString) (k : Nat)
    (hlock : ∀ i, i < k → ∃ e, operation i = some e ∧ isLockError e = true)
    (hok : ∀ i, k ≤ i → operation i = none) :
    maxGitRetries = 5
    ∧ invocations (gitWriteOperation operation removeLocks label).2 = min (k + 1) maxGitRetries
    ∧ (k < 5 → (gitWriteOperation operation removeLocks label).1 = none)
    ∧ (5 ≤ k → (gitWriteOperation operation removeLocks label).1 ≠ none)
    ∧ cleanups (gitWriteOperation operation removeLocks label).2 = min k maxGitRetries
    ∧ (gitWriteOperation operation removeLocks label).2
        = failedAttempts 0 (min k maxGitRetries)
          ++ (if k < maxGitRetries then lastAttempt k else []) := by
  by_cases hk : k < maxGitRetries
  · have hrun := gitWriteLoop_stops operation removeLocks label k maxGitRetries 0 none hk
      (fun i _ hi => hlock i (by omega))
      (by
        intro e he
        rw [Nat.zero_add, hok k (le_refl _)] at he
        exact Option.noConfusion he)
    rw [Nat.zero_add, hok k (le_refl _)] at hrun
    have htrace : (gitWriteOperation operation removeLocks label).2
        = failedAttempts 0 k ++ lastAttempt k := by
      unfold gitWriteOperation
      rw [hrun]
    have hres : (gitWriteOperation operation removeLocks label).1 = none := by
      unfold gitWriteOperation
      rw [hrun]
    have hmin : min k maxGitRetries = k := by omega
    have hmin2 : min (k + 1) maxGitRetries = k + 1 := by omega
    refine ⟨rfl, ?_, fun _ => hres, ?_, ?_, ?_⟩
    · rw [htrace, invocations_append, invocations_failedAttempts, invocations_lastAttempt, hmin2]
    · intro h5
      exact absurd hk (by unfold maxGitRetries; omega)
    · rw [htrace, cleanups_append, cleanups_failedAttempts, cleanups_lastAttempt, hmin]
      rfl
    · rw [htrace, hmin, if_pos hk]
  · obtain ⟨htrace, last, hres⟩ :=
      gitWriteLoop_all_locked operation removeLocks label maxGitRetries 0 none
        (fun i _ hi => hlock i (by omega))
    have hmin : min k maxGitRetries = maxGitRetries := by omega
    have hmin2 : min (k + 1) maxGitRetries = maxGitRetries := by omega
    have htrace2 : (gitWriteOperation operation removeLocks label).2
        = failedAttempts 0 maxGitRetries := htrace
    refine ⟨rfl, ?_, ?_, ?_, ?_, ?_⟩
    · rw [htrace2, invocations_failedAttempts, hmin2]
    · intro h5
      exact absurd h5 (by unfold maxGitRetries at hk; omega)
    · intro _ hnone
      have : (gitWriteOperation operation removeLocks label).1
          = some (gitRetriesExhausted label last) := hres
      rw [this] at hnone
      exact Option.noConfusion hnone
    · rw [htrace2, cleanups_failedAttempts, hmin]
    · rw [htrace2, hmin, if_neg hk, List.append_nil]

/-- C11, for an operation that meets `index.lock` twice and then succeeds: three calls,
two cleanups, nil. -/
theorem C11_lock_contention_retried_up_to_five_times_witness :
    (gitWriteOperation (lockedThenOk 2) (fun _ => none) (bytes "commit")).1 = none
    ∧ invocations (gitWriteOperation (lockedThenOk 2) (fun _ => none) (bytes "commit")).2 = 3
    ∧ cleanups (gitWriteOperation (lockedThenOk 2) (fun _ => none) (bytes "commit")).2 = 2 := by
  have h := C11_lock_contention_retried_up_to_five_times (lockedThenOk 2) (fun _ => none)
    (bytes "commit") 2
    (by
      intro i hi
      refine ⟨_, if_pos hi, ?_⟩
      decide)
    (by
      intro i hi
      exact if_neg (by omega))
  exact ⟨h.2.2.1 (by decide), h.2.1, h.2.2.2.2.1⟩

/-- C12. When the operation fails with lock-contention errors in the calls before the
one with index `a < maxGitRetries` and in that call returns an error that is not a
lock-contention error (its message contains neither `index.lock` nor `cannot lock ref`),
`gitWriteOperation` returns exactly that error; the call is the last event of the run, so
the operation is not called again and no lock-file cleanup follows it. -/
theorem C12_other_error_returned_at_once
    (operation removeLocks : Nat → Option GoError) (label : GoString) (a : Nat) (e : GoError)
    (ha : a < maxGitRetries)
    (hlock : ∀ i, i < a → ∃ e, operation i = some e ∧ isLockError e = true)
    (he : operation a = some e)
    (hnot : Contains e.Error (bytes "index.lock") = false
      ∧ Contains e.Error (bytes "cannot lock ref") = false) :
    (gitWriteOperation operation removeLocks label).1 = some e
    ∧ (gitWriteOperation operation removeLocks label).2 = failedAttempts 0 a ++ lastAttempt a
    ∧ (gitWriteOperation operation removeLocks label).2.getLast? = some (GitEvent.operation a)
    ∧ invocations (gitWriteOperation operation removeLocks label).2 = a + 1
    ∧ cleanups (gitWriteOperation operation removeLocks label).2 = a
    ∧ GitEvent.removeLocks a ∉ (gitWriteOperation operation removeLocks label).2 := by
  have hel : isLockError e = false := by simp [isLockError, hnot.1, hnot.2]
  have hrun := gitWriteLoop_stops operation removeLocks label a maxGitRetries 0 none ha
    (fun i _ hi => hlock i (by omega))
    (by
      intro e2 he2
      rw [Nat.zero_add, he] at he2
      rw [← Option.some.inj he2]
      exact hel)
  rw [Nat.zero_add, he] at hrun
  have htrace : (gitWriteOperation operation removeLocks label).2
      = failedAttempts 0 a ++ lastAttempt a := by
    unfold gitWriteOperation
    rw [hrun]
  refine ⟨?_, htrace, ?_, ?_, ?_, ?_⟩
  · unfold gitWriteOperation
    rw [hrun]
  · rw [htrace, lastAttempt, ← List.append_assoc]
    simp
  · rw [htrace, invocations_append, invocations_failedAttempts, invocations_lastAttempt]
  · rw [htrace, cleanups_append, cleanups_failedAttempts, cleanups_lastAttempt]
    rfl
  · rw [htrace, List.mem_append]
    rintro (h | h)
    · have := removeLocks_mem_failedAttempts a a 0 h
      omega
    · by_cases h0 : a > 0 <;> simp [lastAttempt, h0] at h

/-- C12, for an operation that meets a ref lock twice and then is told that the
directory is not a repository. -/
theorem C12_other_error_returned_at_once_witness :
    (gitWriteOperation lockedThenFatal (fun _ => none) (bytes "commit")).1
        = some { Error := bytes "fatal: not a git repository" }
    ∧ (gitWriteOperation lockedThenFatal (fun _ => none) (bytes "commit")).2.getLast?
        = some (GitEvent.operation 2) := by
  have h := C12_other_error_returned_at_once lockedThenFatal (fun _ => none) (bytes "commit") 2
    { Error := bytes "fatal: not a git repository" } (by decide)
    (by
      intro i hi
      refine ⟨_, if_pos hi, ?_⟩
      decide)
    rfl (by decide)
  exact ⟨h.1, h.2.2.1⟩
/-- C13. Every run of `gitWriteOperation` is a sequence of iterations 0, 1, 2, … in which
the first iteration starts with the call of the operation and every iteration `a ≥ 1`
starts with a sleep of `2 ^ (a - 1) * 100ms` followed by the call: 100, 200, 400 and 800 ms
before the calls 1, 2, 3 and 4, each delay twice the one before. A run in which all five
calls fail with lock contention sleeps 100, 200, 400 and 800 ms, 1500 ms in total. -/
theorem C13_exponential_backoff (operation removeLocks : Nat → Option GoError)
    (label : GoString) :
    (∃ j, j ≤ maxGitRetries
      ∧ (gitWriteOperation operation removeLocks label).2
          = failedAttempts 0 j ++ (if j < maxGitRetries then lastAttempt j else []))
    ∧ lastAttempt 0 = [GitEvent.operation 0]
    ∧ (∀ a, 1 ≤ a → a < maxGitRetries →
        lastAttempt a = [GitEvent.sleep (2 ^ (a - 1) * (100 * Millisecond)), GitEvent.operation a])
    ∧ (gitRetryDelay 1 = 100 * Millisecond ∧ gitRetryDelay 2 = 200 * Millisecond
        ∧ gitRetryDelay 3 = 400 * Millisecond ∧ gitRetryDelay 4 = 800 * Millisecond)
    ∧ (∀ a, 1 ≤ a → a + 1 < maxGitRetries → gitRetryDelay (a + 1) = 2 * gitRetryDelay a)
    ∧ ((∀ i, i < maxGitRetries → ∃ e, operation i = some e ∧ isLockError e = true) →
        sleeps (gitWriteOperation operation removeLocks label).2
            = [100 * Millisecond, 200 * Millisecond, 400 * Millisecond, 800 * Millisecond]
          ∧ (sleeps (gitWriteOperation operation removeLocks label).2).sum
            = 1500 * Millisecond) := by
  refine ⟨?_, rfl, ?_, by decide, ?_, ?_⟩
  · obtain ⟨j, hj, hshape⟩ := gitWriteLoop_shape operation removeLocks label maxGitRetries 0 none
    rw [Nat.zero_add] at hshape
    exact ⟨j, hj, hshape⟩
  · intro a ha _
    have h0 : a > 0 := ha
    simp [lastAttempt, h0, gitRetryDelay, baseGitRetryDelay]
  · intro a ha _
    obtain ⟨b, rfl⟩ : ∃ b, a = b + 1 := ⟨a - 1, by omega⟩
    simp only [gitRetryDelay, Nat.add_sub_cancel]
    push_cast
    ring
  · intro hlock
    obtain ⟨htrace, _⟩ :=
      gitWriteLoop_all_locked operation removeLocks label maxGitRetries 0 none
        (fun i _ hi => hlock i (by omega))
    have htrace2 : (gitWriteOperation operation removeLocks label).2
        = failedAttempts 0 maxGitRetries := htrace
    rw [htrace2]
    decide

/-- C13, for an operation that meets `index.lock` in every call. -/
theorem C13_exponential_backoff_witness :
    sleeps (gitWriteOperation (lockedThenOk 9) (fun _ => none) (bytes "commit")).2
        = [100000000, 200000000, 400000000, 800000000]
    ∧ (sleeps (gitWriteOperation (lockedThenOk 9) (fun _ => none) (bytes "commit")).2).sum
        = 1500000000 :=
  (C13_exponential_backoff (lockedThenOk 9) (fun _ => none) (bytes "commit")).2.2.2.2.2
    (by
      intro i hi
      refine ⟨_, if_pos (by unfold maxGitRetries at hi; omega), ?_⟩
      decide)

/-! ## Removal of the lock files -/

theorem mem_intersperse_of_mem {α : Type} (sep x : α) :
    ∀ l : List α, x ∈ l → x ∈ l.intersperse sep := by
  intro l
  induction l with
  | nil => intro h; exact h
  | cons a t ih =>
    intro h
    cases t with
    | nil => simpa using h
    | cons b t =>
      show x ∈ a :: sep :: List.intersperse sep (b :: t)
      rcases List.mem_cons.mp h with rfl | h
      · exact List.mem_cons_self _ _
      · exact List.mem_cons_of_mem _ (List.mem_cons_of_mem _ (ih h))

theorem infix_intercalate_of_mem (sep x : GoString) (l : List GoString) (h : x ∈ l) :
    x <:+: List.intercalate sep l := by
  unfold List.intercalate
  exact List.infix_of_mem_flatten (mem_intersperse_of_mem sep x l h)

theorem infix_fmtErrors (errs : List GoError) (e : GoError) (h : e ∈ errs) :
    e.Error <:+: fmtErrors errs := by
  have h1 : e.Error <:+: List.intercalate (bytes " ") (errs.map (fun e => e.Error)) :=
    infix_intercalate_of_mem _ _ _ (List.mem_map.mpr ⟨e, h, rfl⟩)
  obtain ⟨s, t, hst⟩ := h1
  refine ⟨bytes "[" ++ s, t ++ bytes "]", ?_⟩
  unfold fmtErrors
  rw [← hst]
  simp [List.append_assoc]

theorem lockFileResults_getD (repoDir : GoString) (fs : Nat → LockFileFs) (i : Nat)
    (hi : i < 3) :
    (lockFileResults repoDir fs).getD i none
      = removeLockFile ((lockFilePaths repoDir).getD i []) (fs i) := by
  interval_cases i <;> rfl

/-- C14. `gitRemoveIndexLockFileIfExists` starts a removal for each of the three paths
`.git/index.lock`, `.git/refs/heads/HEAD.lock` and `.git/HEAD.lock` of the repository and,
in whatever order the three results arrive, returns nil if and only if each of the three
removals returned nil, and otherwise one error whose message contains the message of every
removal that returned an error. -/
theorem C14_lock_file_errors_collected (repoDir : GoString) (fs : Nat → LockFileFs)
    (order : List Nat) (horder : order.Perm [0, 1, 2]) :
    lockFilePaths repoDir
        = [repoDir ++ bytes "/.git/index.lock", repoDir ++ bytes "/.git/refs/heads/HEAD.lock",
            repoDir ++ bytes "/.git/HEAD.lock"]
    ∧ (gitRemoveIndexLockFileIfExists repoDir fs order = none
        ↔ ∀ i, i < 3 → removeLockFile ((lockFilePaths repoDir).getD i []) (fs i) = none)
    ∧ (∀ err, gitRemoveIndexLockFileIfExists repoDir fs order = some err →
        ∀ i, i < 3 → ∀ e, removeLockFile ((lockFilePaths repoDir).getD i []) (fs i) = some e →
          e.Error <:+: err.Error) := by
  have hmem : ∀ i, i ∈ order ↔ i < 3 := by
    intro i
    rw [horder.mem_iff]
    simp only [List.mem_cons, List.mem_singleton, List.not_mem_nil, or_false]
    omega
  have herrs : ∀ e, e ∈ order.filterMap (fun i => (lockFileResults repoDir fs).getD i none)
      ↔ ∃ i, i < 3 ∧ removeLockFile ((lockFilePaths repoDir).getD i []) (fs i) = some e := by
    intro e
    rw [List.mem_filterMap]
    constructor
    · rintro ⟨i, hi, he⟩
      have hi3 := (hmem i).mp hi
      exact ⟨i, hi3, by rw [← lockFileResults_getD repoDir fs i hi3]; exact he⟩
    · rintro ⟨i, hi3, he⟩
      exact ⟨i, (hmem i).mpr hi3, by rw [lockFileResults_getD repoDir fs i hi3]; exact he⟩
  refine ⟨?_, ?_, ?_⟩
  · simp [lockFilePaths, joinPath, List.intercalate, List.intersperse, bytes]
  · unfold gitRemoveIndexLockFileIfExists
    constructor
    · intro hnone i hi
      by_contra hne
      obtain ⟨e, he⟩ := Option.ne_none_iff_exists'.mp hne
      have hin := (herrs e).mpr ⟨i, hi, he⟩
      have hpos : (order.filterMap (fun i => (lockFileResults repoDir fs).getD i none)).length > 0 :=
        List.length_pos_of_mem hin
      simp only [hpos, if_true] at hnone
      exact Option.noConfusion hnone
    · intro hall
      have hnil : order.filterMap (fun i => (lockFileResults repoDir fs).getD i none) = [] := by
        apply List.eq_nil_iff_forall_not_mem.mpr
        intro e he
        obtain ⟨i, hi, hi2⟩ := (herrs e).mp he
        rw [hall i hi] at hi2
        exact Option.noConfusion hi2
      show (if (order.filterMap
          (fun i => (lockFileResults repoDir fs).getD i none)).length > 0 then _ else none) = none
      rw [hnil]
      rfl
  · intro err herr i hi e he
    unfold gitRemoveIndexLockFileIfExists at herr
    have hin := (herrs e).mpr ⟨i, hi, he⟩
    have hpos : (order.filterMap (fun i => (lockFileResults repoDir fs).getD i none)).length > 0 :=
      List.length_pos_of_mem hin
    simp only [hpos, if_true, Option.some.injEq] at herr
    rw [← herr]
    obtain ⟨s, t, hst⟩ := infix_fmtErrors _ e hin
    exact ⟨bytes "error removing lock files: " ++ s, t, by
      simp only [← hst, List.append_assoc]⟩

/-- C14, when the first and the last lock file cannot be removed and the results arrive in
the order 2, 0, 1: the error carries both messages, the one that arrived first in front. -/
theorem C14_lock_file_errors_collected_witness :
    gitRemoveIndexLockFileIfExists (bytes "/p") (fun i => if i = 1 then fsRemoved else fsDenied)
        [2, 0, 1]
      = some { Error := bytes ("error removing lock files: "
          ++ "[error removing lock file /p/.git/HEAD.lock: permission denied "
          ++ "error removing lock file /p/.git/index.lock: permission denied]") }
    ∧ bytes "error removing lock file /p/.git/index.lock: permission denied"
        <:+: bytes ("error removing lock files: "
          ++ "[error removing lock file /p/.git/HEAD.lock: permission denied "
          ++ "error removing lock file /p/.git/index.lock: permission denied]") := by
  have h := C14_lock_file_errors_collected (bytes "/p")
    (fun i => if i = 1 then fsRemoved else fsDenied) [2, 0, 1] (by decide)
  have hres : gitRemoveIndexLockFileIfExists (bytes "/p")
      (fun i => if i = 1 then fsRemoved else fsDenied) [2, 0, 1]
      = some { Error := bytes ("error removing lock files: "
          ++ "[error removing lock file /p/.git/HEAD.lock: permission denied "
          ++ "error removing lock file /p/.git/index.lock: permission denied]") } := by
    rfl
  exact ⟨hres, h.2.2 _ hres 0 (by decide) _ (by decide)⟩

/-! ## The loggers -/

/-- C19, at a failing input. For a config with `Enabled = true` and a file path below a
directory that cannot be created, `NewLogger` of package `plandex-server/pkg/llmlog`
returns a nil logger and a non-nil error, and likewise when the file cannot be opened. The
`NewLogger` of `pkg/llmlog` does what `TestNewLogger_InvalidDirFallbackToStdout` expects:
a nil error and a logger without file handle that writes to stdout and whose `Close`
returns nil. -/
theorem C19_server_NewLogger_fails_without_fallback :
    ServerLlmlog.NewLogger unwritableConfig (some { Error := bytes "permission denied" }) none
        = (none, some ⟨bytes
            "failed to create log directory /root/llmlog_should_fail: permission denied"⟩)
    ∧ ServerLlmlog.NewLogger unwritableConfig none (some { Error := bytes "permission denied" })
        = (none, some ⟨bytes
            "failed to open log file /root/llmlog_should_fail/test.log: permission denied"⟩)
    ∧ Llmlog.NewLogger unwritableConfig (some { Error := bytes "permission denied" }) none
        = (some { cfg := unwritableConfig, out := File.stdout, file := none, enabled := true },
            none)
    ∧ (Llmlog.Close
          { cfg := unwritableConfig, out := File.stdout, file := none, enabled := true }
          (some { Error := bytes "file already closed" })).2 = none := by
  refine ⟨by rfl, by rfl, by rfl, by rfl⟩

theorem ServerLlmlog_closed_perform (s : ServerLlmlog.LogState) (io : IoOutcome)
    (call : ServerLlmlog.Call) (hclosed : s.logger.closed = true) :
    (ServerLlmlog.perform s io call).1.logger.closed = true
      ∧ (ServerLlmlog.perform s io call).1.logger.file = s.logger.file
      ∧ (ServerLlmlog.perform s io call).1.written = s.written
      ∧ (ServerLlmlog.perform s io call).2 = none := by
  cases call with
  | LogRequest req => simp [ServerLlmlog.perform, ServerLlmlog.LogRequest, hclosed]
  | LogStreamChunk requestID chunk =>
    simp [ServerLlmlog.perform, ServerLlmlog.LogStreamChunk, hclosed]
  | LogStreamEnd requestID err =>
    simp [ServerLlmlog.perform, ServerLlmlog.LogStreamEnd, hclosed]
  | LogError requestID err =>
    cases err <;> simp [ServerLlmlog.perform, ServerLlmlog.LogError, hclosed]
  | Log entry => simp [ServerLlmlog.perform, ServerLlmlog.Log, hclosed]
  | Close => simp [ServerLlmlog.perform, ServerLlmlog.Close, hclosed]
  | EnableLogging => simp [ServerLlmlog.perform, ServerLlmlog.EnableLogging, hclosed]
  | DisableLogging => simp [ServerLlmlog.perform, ServerLlmlog.DisableLogging, hclosed]

theorem ServerLlmlog_closed_performAll (calls : List (ServerLlmlog.Call × IoOutcome)) :
    ∀ (s : ServerLlmlog.LogState), s.logger.closed = true →
      (ServerLlmlog.performAll s calls).1.logger.closed = true
        ∧ (ServerLlmlog.performAll s calls).1.written = s.written
        ∧ ∀ r ∈ (ServerLlmlog.performAll s calls).2, r = none := by
  induction calls with
  | nil =>
    intro s hclosed
    simp [ServerLlmlog.performAll, hclosed]
  | cons c rest ih =>
    intro s hclosed
    obtain ⟨call, io⟩ := c
    obtain ⟨h1, _, h3, h4⟩ := ServerLlmlog_closed_perform s io call hclosed
    obtain ⟨g1, g2, g3⟩ := ih (ServerLlmlog.perform s io call).1 h1
    refine ⟨g1, g2.trans h3, ?_⟩
    intro r hr
    simp only [ServerLlmlog.performAll, List.mem_cons] at hr
    rcases hr with rfl | hr
    · exact h4
    · exact g3 r hr

theorem ServerLlmlog_Close_closes (s : ServerLlmlog.LogState) (io : IoOutcome) :
    (ServerLlmlog.Close s io).1.logger.closed = true
      ∧ (ServerLlmlog.Close s io).1.written = s.written := by
  unfold ServerLlmlog.Close
  by_cases hclosed : s.logger.closed = true
  · simp [hclosed]
  · simp only [hclosed]
    cases hf : s.logger.file with
    | none => simp
    | some file =>
      by_cases hstd : file = File.stdout
      · simp [hstd]
      · cases io.syncErr <;> cases io.closeErr <;> simp [hstd]

/-- C20. Once `Close` has been called on a server logger, whatever it returned, every
later sequence of calls of `LogRequest`, `LogStreamChunk`, `LogStreamEnd`, `LogError`,
`Log`, `EnableLogging`, `DisableLogging` and `Close` leaves the logger closed and writes
nothing, each of these calls returns nil, and afterwards `IsClosed` is true and
`IsEnabled` is false. -/
theorem C20_closed_logger_stays_silent (s : ServerLlmlog.LogState) (io : IoOutcome)
    (calls : List (ServerLlmlog.Call × IoOutcome)) :
    ServerLlmlog.IsClosed (ServerLlmlog.performAll (ServerLlmlog.Close s io).1 calls).1 = true
    ∧ ServerLlmlog.IsEnabled (ServerLlmlog.performAll (ServerLlmlog.Close s io).1 calls).1 = false
    ∧ (ServerLlmlog.performAll (ServerLlmlog.Close s io).1 calls).1.written = s.written
    ∧ (∀ r ∈ (ServerLlmlog.performAll (ServerLlmlog.Close s io).1 calls).2, r = none) := by
  obtain ⟨hc, hw⟩ := ServerLlmlog_Close_closes s io
  obtain ⟨g1, g2, g3⟩ := ServerLlmlog_closed_performAll calls (ServerLlmlog.Close s io).1 hc
  refine ⟨g1, ?_, g2.trans hw, g3⟩
  simp [ServerLlmlog.IsEnabled, g1]

/-! ## Connecting to an active plan -/

theorem convoMsgById_concat (convo : List ConvoMessage) (c : ConvoMessage) (id : GoString) :
    convoMsgById (convo ++ [c]) id = if id = c.Id then some c else convoMsgById convo id := by
  simp [convoMsgById, List.foldl_append]

theorem convoMsgById_of_mem (convo : List ConvoMessage) :
    (convo.map (fun c => c.Id)).Nodup → ∀ c ∈ convo, convoMsgById convo c.Id = some c := by
  induction convo using List.reverseRecOn with
  | nil => intro _ c hc; simp at hc
  | append_singleton convo last ih =>
    intro hnodup c hc
    rw [convoMsgById_concat]
    rw [List.map_append, List.nodup_append] at hnodup
    obtain ⟨hleft, _, hdisj⟩ := hnodup
    rcases List.mem_append.mp hc with hc | hc
    · have hne : c.Id ≠ last.Id := by
        intro heq
        have h1 : c.Id ∈ convo.map (fun c => c.Id) := List.mem_map.mpr ⟨c, hc, rfl⟩
        have h2 : c.Id ∈ [last].map (fun c => c.Id) := by simp [heq]
        exact hdisj h1 h2
      rw [if_neg hne]
      exact ih hleft c hc
    · have : c = last := by simpa using hc
      subst this
      simp

theorem appendStoredReplies_eq (convo : List ConvoMessage) (storedReplyIds : List GoString) :
    ∀ init, appendStoredReplies convo storedReplyIds init
      = init ++ storedReplyIds.filterMap
          (fun id => (convoMsgById convo id).map (fun c => c.Message)) := by
  induction storedReplyIds with
  | nil => intro init; simp [appendStoredReplies]
  | cons id rest ih =>
    intro init
    have hstep : appendStoredReplies convo (id :: rest) init
        = appendStoredReplies convo rest
            (match convoMsgById convo id with
              | some convoMsg => init ++ [convoMsg.Message]
              | none => init) := by
      simp [appendStoredReplies]
    rw [hstep, ih]
    cases h : convoMsgById convo id <;> simp [List.filterMap_cons, h]

theorem connectActiveMessage_replies (active : ActivePlan) (convo : List ConvoMessage) :
    (connectActiveMessage active convo).InitReplies
      = active.StoredReplyIds.filterMap
          (fun id => (convoMsgById convo id).map (fun c => c.Message))
        ++ (if active.CurrentReplyContent = [] then [] else [active.CurrentReplyContent]) := by
  have hstored : (if active.StoredReplyIds.length > 0 then
        appendStoredReplies convo active.StoredReplyIds [] else [])
      = active.StoredReplyIds.filterMap
          (fun id => (convoMsgById convo id).map (fun c => c.Message)) := by
    cases hs : active.StoredReplyIds with
    | nil => simp
    | cons id rest => simp [appendStoredReplies_eq]
  rw [← hstored]
  unfold connectActiveMessage
  cases h1 : (active.Prompt != [] && !active.BuildOnly) <;>
  cases h2 : active.BuildOnly <;>
  cases h3 : decide (active.StoredReplyIds.length > 0) <;>
  cases h4 : (active.CurrentReplyContent != []) <;>
  cases h5 : (active.MissingFilePath != []) <;>
  simp_all

theorem connectActiveMessage_type (active : ActivePlan) (convo : List ConvoMessage) :
    (connectActiveMessage active convo).MessageType = StreamMessageType.connectActive := by
  unfold connectActiveMessage
  cases h1 : (active.Prompt != [] && !active.BuildOnly) <;>
  cases h2 : active.BuildOnly <;>
  cases h3 : decide (active.StoredReplyIds.length > 0) <;>
  cases h4 : (active.CurrentReplyContent != []) <;>
  cases h5 : (active.MissingFilePath != []) <;>
  simp_all

theorem sendBuildInfos_types (marshalErr writeErr : Nat → Option GoError) :
    ∀ (queues : List (GoString × List ActiveBuild)) (index : Nat),
      ∀ m ∈ (sendBuildInfos marshalErr writeErr queues index).1,
        m.MessageType = StreamMessageType.buildInfo := by
  intro queues
  induction queues with
  | nil => intro index m hm; simp [sendBuildInfos] at hm
  | cons q rest ih =>
    intro index m hm
    obtain ⟨path, queue⟩ := q
    simp only [sendBuildInfos] at hm
    cases hme : marshalErr index with
    | some err => simp [hme] at hm
    | none =>
      cases hwe : writeErr index with
      | some err =>
        simp only [hme, hwe, List.mem_singleton] at hm
        rw [hm]
      | none =>
        simp only [hme, hwe, List.mem_cons] at hm
        rcases hm with rfl | hm
        · rfl
        · exact ih (index + 1) m hm
theorem convoMsgById_eq_getLast (convo : List ConvoMessage) (id : GoString) :
    convoMsgById convo id = (convo.filter (fun c => c.Id == id)).getLast? := by
  induction convo using List.reverseRecOn with
  | nil => rfl
  | append_singleton convo last ih =>
    rw [convoMsgById_concat, List.filter_append]
    by_cases h : id = last.Id
    · subst h
      simp
    · have h2 : (last.Id == id) = false := by
        simpa using fun h3 => h h3.symm
      rw [if_neg h, ih]
      simp [List.filter_cons, h2]

theorem heldMessage_eq (convo : List ConvoMessage) (id : GoString) :
    heldMessage convo id
      = match convoMsgById convo id with
        | some c => c.Message
        | none => [] := by
  unfold heldMessage
  rw [convoMsgById_eq_getLast]

theorem convoMsgById_isSome (convo : List ConvoMessage) (id : GoString) :
    (convoMsgById convo id).isSome = convo.any (fun c => c.Id == id) := by
  rw [convoMsgById_eq_getLast]
  by_cases hany : convo.any (fun c => c.Id == id) = true
  · have hne : convo.filter (fun c => c.Id == id) ≠ [] := by
      obtain ⟨c, hc, hid⟩ := List.any_eq_true.mp hany
      intro hnil
      have : c ∈ convo.filter (fun c => c.Id == id) := List.mem_filter.mpr ⟨hc, hid⟩
      rw [hnil] at this
      exact absurd this (List.not_mem_nil _)
    rw [hany, List.getLast?_eq_getLast _ hne]
    rfl
  · have hnil : convo.filter (fun c => c.Id == id) = [] := by
      apply List.filter_eq_nil_iff.mpr
      intro c hc hid
      exact hany (List.any_eq_true.mpr ⟨c, hc, hid⟩)
    have hfalse : convo.any (fun c => c.Id == id) = false := by simpa using hany
    rw [hfalse, hnil]
    rfl

theorem filterMap_held (convo : List ConvoMessage) :
    ∀ ids : List GoString,
      ids.filterMap (fun id => (convoMsgById convo id).map (fun c => c.Message))
        = (ids.filter (fun id => convo.any (fun c => c.Id == id))).map (heldMessage convo) := by
  intro ids
  induction ids with
  | nil => rfl
  | cons id rest ih =>
    have hsome := convoMsgById_isSome convo id
    have hheld := heldMessage_eq convo id
    rw [List.filterMap_cons, List.filter_cons, ih, ← hsome]
    cases h : convoMsgById convo id with
    | none => simp
    | some c =>
      rw [h] at hheld
      simp [hheld]

/-- C15 as stated fails: on a plan with the stored replies `r1` and `r2` and a reply in
progress whose conversation holds no message for `r2`, `InitReplies` is the message of `r1`
followed by the reply in progress. It has fewer elements than one per stored reply id and
the reply in progress, so the reply `r2` is omitted, whatever text one takes for it. -/
theorem C15_stored_reply_without_message_counterexample :
    sampleActivePlan.StoredReplyIds = [bytes "r1", bytes "r2"]
    ∧ sampleActivePlan.CurrentReplyContent = bytes "third"
    ∧ (∀ c ∈ shortConvo, c.Id ≠ bytes "r2")
    ∧ (connectActiveMessage sampleActivePlan shortConvo).InitReplies
        = [bytes "first", bytes "third"]
    ∧ (initConnectActive (bytes "P1") (bytes "main") (some sampleActivePlan)
          (Except.ok shortConvo) (some sampleActivePlan) (fun _ => none) (fun _ => none)).1.head?
        = some (connectActiveMessage sampleActivePlan shortConvo)
    ∧ ¬ ∃ reply : GoString → GoString,
        (connectActiveMessage sampleActivePlan shortConvo).InitReplies
          = sampleActivePlan.StoredReplyIds.map reply
            ++ [sampleActivePlan.CurrentReplyContent] := by
  refine ⟨by decide, by decide, by decide, by decide, by decide, ?_⟩
  rintro ⟨reply, h⟩
  have hlen := congrArg List.length h
  have h1 : (connectActiveMessage sampleActivePlan shortConvo).InitReplies.length = 2 := by
    decide
  have h2 : sampleActivePlan.StoredReplyIds.length = 2 := by decide
  rw [List.length_append, List.length_map, h1, h2] at hlen
  simp at hlen

/-- C15, amended. When every stored reply id of the plan is the id of a message of the
conversation, the connect-active-state message that `initConnectActive` builds carries in
`InitReplies` the messages the conversation holds for the plan's `StoredReplyIds`, one for
each id and in the order of the ids, followed by `CurrentReplyContent` as last element when
that is non-empty: nothing is omitted, duplicated or reordered. In general `InitReplies`
holds these messages for the stored reply ids that have a message, the others being
skipped. When the ids of the conversation are pairwise distinct, the message held for an id
is the text of the message with that id. In every run of `initConnectActive` the connect
message is the first message handed to `sendStreamMessage` and every message after it is a
build-info message. -/
theorem C15_connect_message_replays_held_replies (active : ActivePlan)
    (convo : List ConvoMessage) :
    (connectActiveMessage active convo).MessageType = StreamMessageType.connectActive
    ∧ ((∀ id ∈ active.StoredReplyIds, ∃ c ∈ convo, c.Id = id) →
        (connectActiveMessage active convo).InitReplies
          = active.StoredReplyIds.map (heldMessage convo)
            ++ (if active.CurrentReplyContent = [] then [] else [active.CurrentReplyContent]))
    ∧ (connectActiveMessage active convo).InitReplies
        = (active.StoredReplyIds.filter (fun id => convo.any (fun c => c.Id == id))).map
            (heldMessage convo)
          ++ (if active.CurrentReplyContent = [] then [] else [active.CurrentReplyContent])
    ∧ ((convo.map (fun c => c.Id)).Nodup → ∀ c ∈ convo, heldMessage convo c.Id = c.Message)
    ∧ (∀ (planId branch : GoString) (activeLater : Option ActivePlan)
        (marshalErr writeErr : Nat → Option GoError),
        (initConnectActive planId branch (some active) (Except.ok convo) activeLater marshalErr
            writeErr).1 = []
        ∨ ∃ rest,
            (initConnectActive planId branch (some active) (Except.ok convo) activeLater
              marshalErr writeErr).1 = connectActiveMessage active convo :: rest
            ∧ ∀ m ∈ rest, m.MessageType = StreamMessageType.buildInfo) := by
  have hgen : (connectActiveMessage active convo).InitReplies
      = (active.StoredReplyIds.filter (fun id => convo.any (fun c => c.Id == id))).map
          (heldMessage convo)
        ++ (if active.CurrentReplyContent = [] then [] else [active.CurrentReplyContent]) := by
    rw [connectActiveMessage_replies, filterMap_held]
  refine ⟨connectActiveMessage_type active convo, ?_, hgen, ?_, ?_⟩
  · intro hall
    rw [hgen]
    congr 2
    apply List.filter_eq_self.mpr
    intro id hid
    obtain ⟨c, hc, hcid⟩ := hall id hid
    exact List.any_eq_true.mpr ⟨c, hc, by simpa using hcid⟩
  · intro hdistinct c hc
    unfold heldMessage
    rw [← convoMsgById_eq_getLast, convoMsgById_of_mem convo hdistinct c hc]
  · intro planId branch activeLater marshalErr writeErr
    have hconvo : ∀ c, (if active.StoredReplyIds.length > 0 then
          (Except.ok convo : Except GoError (List ConvoMessage)) else Except.ok []) = Except.ok c →
        connectActiveMessage active c = connectActiveMessage active convo := by
      intro c hc
      by_cases hlen : active.StoredReplyIds.length > 0
      · rw [if_pos hlen] at hc
        cases hc
        rfl
      · rw [if_neg hlen] at hc
        cases hc
        unfold connectActiveMessage
        simp [hlen]
    unfold initConnectActive
    simp only
    split
    · exact Or.inl rfl
    · rename_i c hc
      rw [hconvo c hc]
      cases marshalErr 0 with
      | some err => exact Or.inl rfl
      | none =>
        cases writeErr 0 with
        | some err => exact Or.inr ⟨[], rfl, by simp⟩
        | none =>
          cases activeLater with
          | none => exact Or.inr ⟨[], rfl, by simp⟩
          | some later =>
            exact Or.inr ⟨_, rfl, sendBuildInfos_types marshalErr writeErr _ 1⟩

/-- C15, amended, on a plan with the stored replies `r1` and `r2`, a reply in progress and
two build queues, whose conversation holds a message for both replies: the replies are
replayed in order, the reply in progress last, and the two build-info messages follow the
connect message. -/
theorem C15_connect_message_replays_held_replies_witness :
    (∀ id ∈ sampleActivePlan.StoredReplyIds, ∃ c ∈ sampleConvo, c.Id = id)
    ∧ (connectActiveMessage sampleActivePlan sampleConvo).InitReplies
        = [bytes "first", bytes "second", bytes "third"]
    ∧ ((initConnectActive (bytes "P1") (bytes "main") (some sampleActivePlan)
          (Except.ok sampleConvo) (some sampleActivePlan) (fun _ => none) (fun _ => none)).1.map
        (fun m => m.MessageType))
        = [StreamMessageType.connectActive, StreamMessageType.buildInfo,
            StreamMessageType.buildInfo] := by
  have hall : ∀ id ∈ sampleActivePlan.StoredReplyIds, ∃ c ∈ sampleConvo, c.Id = id := by
    decide
  have h := (C15_connect_message_replays_held_replies sampleActivePlan sampleConvo).2.1 hall
  refine ⟨hall, ?_, by decide⟩
  rw [h]
  decide

/-! ## Creating and deleting a branch -/

/-- C16 as stated fails, for `CreateBranch` and a branch other than `main`. Called without
transaction, when the insert succeeds and the creation of the git branch fails, it returns
an error and leaves the committed row of the branch in the database, without git branch.
Called in a transaction, when the insert and the creation of the git branch succeed and
`IncActiveBranches` fails, it returns an error and leaves the git branch in the
repository. -/
theorem C16_create_error_counterexample :
    (CreateBranch false (bytes "feature") none (some { Error := bytes "exit status 128" }) none
        noBranch).2
      = some { Error := bytes "error creating git branch: exit status 128" }
    ∧ (CreateBranch false (bytes "feature") none (some { Error := bytes "exit status 128" }) none
        noBranch).1.row = true
    ∧ (CreateBranch false (bytes "feature") none (some { Error := bytes "exit status 128" }) none
        noBranch).1.gitBranch = false
    ∧ (CreateBranch true (bytes "feature") none none (some { Error := bytes "deadlock" })
        noBranch).2
      = some { Error := bytes "error incrementing active branches: deadlock" }
    ∧ (CreateBranch true (bytes "feature") none none (some { Error := bytes "deadlock" })
        noBranch).1.gitBranch = true := by
  refine ⟨by rfl, by rfl, by rfl, by rfl, by rfl⟩

/-- C16, amended. For a name other than `main`, `CreateBranch` undoes nothing when it
fails: when it returns the error of the insert the store is unchanged, so neither the row
nor the git branch has been created; when it returns the error of `GitCreateBranch` the row
has been inserted (in the transaction if it is given one, committed otherwise) and no git
branch has been created; when it returns the error of `IncActiveBranches` the row has been
inserted and the git branch created. When it returns nil both have been created. Whenever
`DeleteBranch` returns an error the store is unchanged, so both the row and the git branch
still exist, and when it returns nil both have been removed. -/
theorem C16_create_undoes_nothing_delete_is_atomic (hasTx : Bool) (name : GoString)
    (insertErr gitCreateErr incErr deleteErr decErr gitDeleteErr : Option GoError)
    (store : BranchStore) (hname : name ≠ bytes "main") :
    (∀ e, insertErr = some e →
        CreateBranch hasTx name insertErr gitCreateErr incErr store
          = (store, some (wrapErrorV "error creating branch" e)))
    ∧ (∀ e, insertErr = none → gitCreateErr = some e →
        CreateBranch hasTx name insertErr gitCreateErr incErr store
          = ((if hasTx then { store with txInserted := true } else { store with row := true }),
             some (wrapErrorV "error creating git branch" e)))
    ∧ (∀ e, insertErr = none → gitCreateErr = none → incErr = some e →
        CreateBranch hasTx name insertErr gitCreateErr incErr store
          = ({ (if hasTx then { store with txInserted := true } else { store with row := true })
                with gitBranch := true },
             some (wrapErrorV "error incrementing active branches" e)))
    ∧ ((CreateBranch hasTx name insertErr gitCreateErr incErr store).2 = none →
        (CreateBranch hasTx name insertErr gitCreateErr incErr store).1.gitBranch = true
        ∧ (if hasTx then (CreateBranch hasTx name insertErr gitCreateErr incErr store).1.txInserted
            else (CreateBranch hasTx name insertErr gitCreateErr incErr store).1.row) = true)
    ∧ ((DeleteBranch deleteErr decErr gitDeleteErr store).2 ≠ none →
        (DeleteBranch deleteErr decErr gitDeleteErr store).1 = store)
    ∧ ((DeleteBranch deleteErr decErr gitDeleteErr store).2 = none →
        (DeleteBranch deleteErr decErr gitDeleteErr store).1.row = false
        ∧ (DeleteBranch deleteErr decErr gitDeleteErr store).1.gitBranch = false)
    ∧ ((DeleteBranch deleteErr decErr gitDeleteErr store).2 = none
        ↔ deleteErr = none ∧ decErr = none ∧ gitDeleteErr = none) := by
  have hne : (name != bytes "main") = true := by simpa using hname
  refine ⟨?_, ?_, ?_, ?_, ?_, ?_, ?_⟩
  · rintro e rfl
    simp [CreateBranch]
  · rintro e rfl rfl
    cases hasTx <;> simp [CreateBranch, hne]
  · rintro e rfl rfl rfl
    cases hasTx <;> simp [CreateBranch, hne]
  · intro h
    cases insertErr with
    | some e => simp [CreateBranch] at h
    | none =>
      cases gitCreateErr with
      | some e => simp [CreateBranch, hne] at h
      | none =>
        cases incErr with
        | some e => simp [CreateBranch, hne] at h
        | none => cases hasTx <;> simp [CreateBranch, hne]
  · intro _
    cases deleteErr <;> cases decErr <;> cases gitDeleteErr <;>
      simp_all [DeleteBranch, WithTx, deleteBranchTx]
  · intro h
    cases deleteErr <;> cases decErr <;> cases gitDeleteErr <;>
      simp_all [DeleteBranch, WithTx, deleteBranchTx]
  · cases deleteErr <;> cases decErr <;> cases gitDeleteErr <;>
      simp [DeleteBranch, WithTx, deleteBranchTx]

/-- C16, amended, for the branch `feature`: created in a transaction when every step
succeeds; deleted when every step succeeds; and left in place, row and git branch, when the
deletion of the git branch fails after the row was deleted in the transaction. -/
theorem C16_create_undoes_nothing_delete_is_atomic_witness :
    ((CreateBranch true (bytes "feature") none none none noBranch).1.gitBranch = true
      ∧ (CreateBranch true (bytes "feature") none none none noBranch).1.txInserted = true)
    ∧ ((DeleteBranch none none none fullBranch).1.row = false
      ∧ (DeleteBranch none none none fullBranch).1.gitBranch = false)
    ∧ (DeleteBranch none none (some { Error := bytes "exit status 1" }) fullBranch).2
        = some { Error := bytes "error deleting branch dir: exit status 1" }
    ∧ (DeleteBranch none none (some { Error := bytes "exit status 1" }) fullBranch).1
        = fullBranch :=
  ⟨(C16_create_undoes_nothing_delete_is_atomic true (bytes "feature") none none none none none
      none noBranch (by decide)).2.2.2.1 rfl,
   (C16_create_undoes_nothing_delete_is_atomic true (bytes "feature") none none none none none
      none fullBranch (by decide)).2.2.2.2.2.1 rfl,
   by rfl,
   (C16_create_undoes_nothing_delete_is_atomic true (bytes "feature") none none none none none
      (some { Error := bytes "exit status 1" }) fullBranch (by decide)).2.2.2.2.1 (by decide)⟩

/-! ## Closing a logger twice -/

/-- C21, at a failing input. A logger of package `plandex-server/pkg/llmlog` opened on a
file: the first `Close` returns nil and a second `Close` returns nil and changes nothing,
but after the first `Close` the file handle of the logger is still the closed file, not
nil as `TestNewLogger_FileAndStdoutFallback` expects. The `Close` of `pkg/llmlog` sets the
handle to nil, and its second `Close` returns nil and changes nothing. -/
theorem C21_server_Close_keeps_file_handle :
    (ServerLlmlog.Close openLogState ioOk).2 = none
    ∧ (ServerLlmlog.Close openLogState ioOk).1.logger.file
        = some (File.opened (bytes "/tmp/llm.log"))
    ∧ ServerLlmlog.Close (ServerLlmlog.Close openLogState ioOk).1 ioOk
        = ((ServerLlmlog.Close openLogState ioOk).1, none)
    ∧ (Llmlog.NewLogger unwritableConfig none none).1
        = some { cfg := unwritableConfig, out := File.opened unwritableConfig.FilePath,
                 file := some (File.opened unwritableConfig.FilePath), enabled := true }
    ∧ Llmlog.Close
          { cfg := unwritableConfig, out := File.opened unwritableConfig.FilePath,
            file := some (File.opened unwritableConfig.FilePath), enabled := true } none
        = ({ cfg := unwritableConfig, out := File.opened unwritableConfig.FilePath,
             file := none, enabled := true }, none)
    ∧ Llmlog.Close
          { cfg := unwritableConfig, out := File.opened unwritableConfig.FilePath,
            file := none, enabled := true } none
        = ({ cfg := unwritableConfig, out := File.opened unwritableConfig.FilePath,
             file := none, enabled := true }, none) := by
  refine ⟨by rfl, by rfl, by rfl, by rfl, by rfl, by rfl⟩

/-! ## The error after the last retry -/

/-- C26, at a failing input. An operation that fails with the `index.lock` error in each of
its five calls: when the removal of the lock files succeeds every time, the error
`gitWriteOperation` returns ends in `<nil>` and does not contain the operation's error;
when the removal fails, it reports the error of the removal instead. -/
theorem C26_last_operation_error_lost :
    (gitWriteOperation (lockedThenOk 9) (fun _ => none) (bytes "commit")).1
        = some { Error := bytes "operation commit failed after 5 attempts: <nil>" }
    ∧ lockedThenOk 9 4
        = some { Error := bytes "fatal: Unable to create '.git/index.lock': File exists." }
    ∧ Contains (bytes "operation commit failed after 5 attempts: <nil>")
        (bytes "fatal: Unable to create '.git/index.lock': File exists.") = false
    ∧ (gitWriteOperation (lockedThenOk 9) (fun _ => some { Error := bytes "rm failed" })
        (bytes "commit")).1
        = some { Error := bytes "operation commit failed after 5 attempts: rm failed" }
    ∧ Contains (bytes "operation commit failed after 5 attempts: rm failed")
        (bytes "fatal: Unable to create '.git/index.lock': File exists.") = false := by
  refine ⟨by rfl, by rfl, by rfl, by rfl, by rfl⟩

/-! ## The base model config of a fallback result -/

/-- C28, at a failing input. For a retriable overloaded error on the first attempt, the
receiver at address 1 being a role whose `GetBaseModelConfig` is not nil,
`GetFallbackForModelError` returns the receiver with `IsFallback = false` and a nil
`BaseModelConfig`; for a nil error it returns the receiver with `IsFallback = false` and
the receiver's base model config. -/
theorem C28_no_fallback_result_lacks_base_config :
    GetFallbackForModelError threeBaseEnv "openrouter" 1 0 false
        (some { Kind := ErrOverloaded, Retriable := true, RetryAfterSeconds := 0 })
      = { ModelRoleConfig := .addr 1, IsFallback := false, FallbackType := "",
          BaseModelConfig := none }
    ∧ threeBaseEnv.GetBaseModelConfig (threeBaseEnv.heap 1) = some (mkBase "medium")
    ∧ GetFallbackForModelError threeBaseEnv "openrouter" 1 0 false none
      = { ModelRoleConfig := .addr 1, IsFallback := false, FallbackType := "",
          BaseModelConfig := some (mkBase "medium") } := by
  refine ⟨by decide, by decide, by decide⟩

/-! ## The build-info messages of a connection -/

theorem queueBuildInfo_concat (path : GoString) (queue : List ActiveBuild) (build : ActiveBuild) :
    queueBuildInfo path (queue ++ [build])
      = if build.BuildFinished then
          { queueBuildInfo path queue with NumTokens := 0, Finished := true }
        else { queueBuildInfo path queue with Finished := false } := by
  simp [queueBuildInfo, List.foldl_append]

theorem queueBuildInfo_eq (path : GoString) (queue : List ActiveBuild) :
    queueBuildInfo path queue
      = { Path := path, NumTokens := 0,
          Finished := match queue.getLast? with
            | some build => build.BuildFinished
            | none => false } := by
  induction queue using List.reverseRecOn with
  | nil => rfl
  | append_singleton queue build ih =>
    rw [queueBuildInfo_concat, ih]
    cases hb : build.BuildFinished <;> simp [hb]

theorem sendBuildInfos_all_sent (marshalErr writeErr : Nat → Option GoError)
    (hmarshal : ∀ k, marshalErr k = none) (hwrite : ∀ k, writeErr k = none) :
    ∀ (queues : List (GoString × List ActiveBuild)) (index : Nat),
      sendBuildInfos marshalErr writeErr queues index
        = (queues.map (fun q =>
            { MessageType := StreamMessageType.buildInfo, InitPrompt := [],
              InitBuildOnly := false, InitReplies := [], MissingFilePath := [],
              BuildInfo := some (queueBuildInfo q.1 q.2) }),
           InitResult.ok) := by
  intro queues
  induction queues with
  | nil => intro index; rfl
  | cons q rest ih =>
    intro index
    obtain ⟨path, queue⟩ := q
    simp [sendBuildInfos, hmarshal, hwrite, ih]

/-- C29 as stated fails: for a queue whose first build has not finished and whose last
build has, the build info of the path has `Finished = true`. -/
theorem C29_unfinished_build_counterexample :
    (queueBuildInfo (bytes "a.go") [{ BuildFinished := false }, { BuildFinished := true }]).Finished
        = true
    ∧ ¬ (∀ build ∈ [({ BuildFinished := false } : ActiveBuild), { BuildFinished := true }],
          build.BuildFinished = true) := by
  refine ⟨by rfl, by decide⟩

/-- C29, amended. When no message fails to be encoded or sent, `initConnectActive` sends,
after the connect message, exactly one build-info message for each entry of
`BuildQueuesByPath` of the active plan, in the order in which the map is traversed, and
returns nil; the `Finished` flag of the message of a path is true if and only if the queue
of the path is not empty and its last build has finished. -/
theorem C29_one_build_info_per_path (planId branch : GoString) (active later : ActivePlan)
    (convo : List ConvoMessage) (marshalErr writeErr : Nat → Option GoError)
    (hmarshal : ∀ k, marshalErr k = none) (hwrite : ∀ k, writeErr k = none) :
    initConnectActive planId branch (some active) (Except.ok convo) (some later) marshalErr
        writeErr
      = ((connectActiveMessage active
            (if active.StoredReplyIds.length > 0 then convo else []))
          :: later.BuildQueuesByPath.map (fun q =>
              { MessageType := StreamMessageType.buildInfo, InitPrompt := [],
                InitBuildOnly := false, InitReplies := [], MissingFilePath := [],
                BuildInfo := some
                  { Path := q.1, NumTokens := 0,
                    Finished := match q.2.getLast? with
                      | some build => build.BuildFinished
                      | none => false } }),
         InitResult.ok) := by
  have hsend := sendBuildInfos_all_sent marshalErr writeErr hmarshal hwrite
    later.BuildQueuesByPath 1
  have hmap : later.BuildQueuesByPath.map (fun q =>
        ({ MessageType := StreamMessageType.buildInfo, InitPrompt := [],
           InitBuildOnly := false, InitReplies := [], MissingFilePath := [],
           BuildInfo := some (queueBuildInfo q.1 q.2) } : StreamMessage))
      = later.BuildQueuesByPath.map (fun q =>
        ({ MessageType := StreamMessageType.buildInfo, InitPrompt := [],
           InitBuildOnly := false, InitReplies := [], MissingFilePath := [],
           BuildInfo := some
             { Path := q.1, NumTokens := 0,
               Finished := match q.2.getLast? with
                 | some build => build.BuildFinished
                 | none => false } } : StreamMessage)) := by
    apply List.map_congr_left
    intro q _
    rw [queueBuildInfo_eq]
  rw [← hmap]
  unfold initConnectActive
  by_cases hlen : active.StoredReplyIds.length > 0
  · simp [hlen, hmarshal, hwrite, hsend]
  · simp [hlen, hmarshal, hwrite, hsend]

/-- C29, amended, on a plan with a finished build for `a.go` and an unfinished one for
`b.go`. -/
theorem C29_one_build_info_per_path_witness :
    (initConnectActive (bytes "P1") (bytes "main") (some sampleActivePlan)
        (Except.ok sampleConvo) (some sampleActivePlan) (fun _ => none) (fun _ => none)).1.map
      (fun m => m.BuildInfo)
      = [none,
         some { Path := bytes "a.go", NumTokens := 0, Finished := true },
         some { Path := bytes "b.go", NumTokens := 0, Finished := false }] := by
  rw [C29_one_build_info_per_path (bytes "P1") (bytes "main") sampleActivePlan
    sampleActivePlan sampleConvo (fun _ => none) (fun _ => none) (fun _ => rfl) (fun _ => rfl)]
  decide

/-! ## The truncated content contains no stop string -/

theorem occursAt_of_take (content s : GoString) (k j : Nat) (hs : s ≠ [])
    (h : OccursAt (content.take k) s j) : OccursAt content s j ∧ j < k := by
  obtain ⟨hj, hpre⟩ := h
  rw [List.drop_take] at hpre
  have hlen : s.length ≤ ((content.drop j).take (k - j)).length := hpre.length_le
  have hpos : 0 < s.length := List.length_pos.mpr hs
  rw [List.length_take] at hlen
  have hjk : j < k := by omega
  have hjlen : j ≤ content.length := by
    rw [List.length_take] at hj
    omega
  exact ⟨⟨hjlen, hpre.trans (List.take_prefix _ _)⟩, hjk⟩

theorem ModelRequestContent_unfold (stop : List GoString) (content : GoString)
    (hstop : stop ≠ []) :
    ModelRequestContent true stop content
      = if (stopScan content stop ((content.length : Int), false)).2 = true
        then content.take (stopScan content stop ((content.length : Int), false)).1.toNat
        else content := by
  have hlen : stop.length > 0 := List.length_pos.mpr hstop
  simp [ModelRequestContent, hlen]

theorem ModelRequestContent_of_no_stop (stop : List GoString) (content : GoString)
    (hno : ∀ s ∈ stop, ∀ i, ¬ OccursAt content s i) :
    ModelRequestContent true stop content = content := by
  by_cases hstop : stop = []
  · simp [ModelRequestContent, hstop]
  · obtain ⟨_, _, h3, h4⟩ := stopScan_spec content stop (content.length : Int) false
    have he : (stopScan content stop ((content.length : Int), false)).1 = content.length := by
      rcases h3 with h3 | ⟨t, ht, hne, _⟩
      · exact h3
      · rcases index_eq_neg_one_or_least content t with ⟨h, _⟩ | ⟨k, _, hocc, _⟩
        · exact absurd h hne
        · exact absurd hocc (hno t ht k)
    have hf : ¬ (stopScan content stop ((content.length : Int), false)).2 = true := by
      rw [h4]
      simp [he]
    rw [ModelRequestContent_unfold stop content hstop, if_neg hf]

theorem ModelRequestContent_no_stop_left (stop : List GoString) (content : GoString)
    (hne : ∀ s ∈ stop, s ≠ []) :
    ∀ s ∈ stop, ∀ i, ¬ OccursAt (ModelRequestContent true stop content) s i := by
  by_cases hstop : stop = []
  · intro s hs
    rw [hstop] at hs
    exact absurd hs (List.not_mem_nil s)
  · obtain ⟨h1, h2, h3, h4⟩ := stopScan_spec content stop (content.length : Int) false
    rw [ModelRequestContent_unfold stop content hstop]
    have hbound : ∀ s ∈ stop, ∀ j, OccursAt content s j →
        (stopScan content stop ((content.length : Int), false)).1 ≤ (j : Int) := by
      intro s hs j hocc
      rcases index_eq_neg_one_or_least content s with ⟨_, hnone⟩ | ⟨k, hk, _, hleast⟩
      · exact absurd hocc (hnone j)
      · have hkj : k ≤ j := by
          by_contra hlt
          exact hleast j (by omega) hocc
        have := h2 s hs (by rw [hk]; omega)
        rw [hk] at this
        omega
    by_cases hf : (stopScan content stop ((content.length : Int), false)).2 = true
    · rw [if_pos hf]
      intro s hs i hocc
      have hlt : (stopScan content stop ((content.length : Int), false)).1
          < (content.length : Int) := by
        rcases h4.mp hf with h | h
        · exact absurd h (by decide)
        · exact h
      obtain ⟨hocc2, hik⟩ := occursAt_of_take content s _ i (hne s hs) hocc
      have := hbound s hs i hocc2
      omega
    · rw [if_neg hf]
      intro s hs i hocc
      have hge : ¬ (stopScan content stop ((content.length : Int), false)).1
          < (content.length : Int) := fun hlt => hf (h4.mpr (Or.inr hlt))
      have := hbound s hs i hocc
      have hpre := hocc.2.length_le
      have hpos : 0 < s.length := List.length_pos.mpr (hne s hs)
      rw [List.length_drop] at hpre
      omega

/-- C24. With `StopDisabled` and stop strings that are all non-empty, the content
`ModelRequest` returns contains no occurrence of any of the stop strings, and the same
truncation applied to the returned content leaves it unchanged. -/
theorem C24_returned_content_has_no_stop_string (stop : List GoString) (content : GoString)
    (hne : ∀ s ∈ stop, s ≠ []) :
    (∀ s ∈ stop, ∀ i, ¬ OccursAt (ModelRequestContent true stop content) s i)
    ∧ ModelRequestContent true stop (ModelRequestContent true stop content)
        = ModelRequestContent true stop content :=
  ⟨ModelRequestContent_no_stop_left stop content hne,
   ModelRequestContent_of_no_stop stop _ (ModelRequestContent_no_stop_left stop content hne)⟩

/-- C24, for the stop strings `[3, 4]` and `[2]` and the content `[1, 2, 3, 4]`, which is
cut to `[1]`. -/
theorem C24_returned_content_has_no_stop_string_witness :
    (∀ s ∈ [[3, 4], [2]], ∀ i, ¬ OccursAt (ModelRequestContent true [[3, 4], [2]] [1, 2, 3, 4]) s i)
    ∧ ModelRequestContent true [[3, 4], [2]] (ModelRequestContent true [[3, 4], [2]] [1, 2, 3, 4])
        = ModelRequestContent true [[3, 4], [2]] [1, 2, 3, 4]
    ∧ ModelRequestContent true [[3, 4], [2]] [1, 2, 3, 4] = [1] :=
  ⟨(C24_returned_content_has_no_stop_string [[3, 4], [2]] [1, 2, 3, 4] (by decide)).1,
   (C24_returned_content_has_no_stop_string [[3, 4], [2]] [1, 2, 3, 4] (by decide)).2,
   by decide⟩

/-! ## Comma-separated environment variables -/

theorem splitByte_ne_nil (sep : UInt8) (s : GoString) : splitByte sep s ≠ [] := by
  induction s with
  | nil => simp [splitByte]
  | cons c s ih =>
    by_cases hc : c = sep
    · simp [splitByte, hc]
    · cases h : splitByte sep s <;> simp [splitByte, hc, h]

theorem intercalate_splitByte (sep : UInt8) (s : GoString) :
    List.intercalate [sep] (splitByte sep s) = s := by
  induction s with
  | nil => rfl
  | cons c s ih =>
    by_cases hc : c = sep
    · cases h : splitByte sep s with
      | nil => exact absurd h (splitByte_ne_nil sep s)
      | cons item items =>
        rw [h] at ih
        simp only [splitByte, hc, if_true, h]
        simp only [List.intercalate, List.intersperse, List.flatten] at ih ⊢
        rw [← ih]
        simp
    · cases h : splitByte sep s with
      | nil => exact absurd h (splitByte_ne_nil sep s)
      | cons item items =>
        rw [h] at ih
        simp only [splitByte, hc, if_false, h]
        cases items with
        | nil =>
          simp only [List.intercalate, List.intersperse, List.flatten] at ih ⊢
          rw [← ih]
          simp
        | cons item2 items =>
          simp only [List.intercalate, List.intersperse, List.flatten] at ih ⊢
          rw [← ih]
          simp

theorem not_mem_of_mem_splitByte (sep : UInt8) (s : GoString) :
    ∀ item ∈ splitByte sep s, sep ∉ item := by
  induction s with
  | nil => simp [splitByte]
  | cons c s ih =>
    intro item hitem
    by_cases hc : c = sep
    · simp only [splitByte, hc, if_true, List.mem_cons] at hitem
      rcases hitem with rfl | hitem
      · simp
      · exact ih item hitem
    · cases h : splitByte sep s with
      | nil => exact absurd h (splitByte_ne_nil sep s)
      | cons first items =>
        simp only [splitByte, hc, if_false, h, List.mem_cons] at hitem
        rw [h] at ih
        rcases hitem with rfl | hitem
        · intro hmem
          rcases List.mem_cons.mp hmem with heq | hmem
          · exact hc heq.symm
          · exact ih first (List.mem_cons_self _ _) hmem
        · exact ih item (List.mem_cons_of_mem _ hitem)

theorem appendTrimmed_eq (parts : List GoString) :
    ∀ out, appendTrimmed parts out
      = out ++ (parts.map TrimSpace).filter (fun p => p != []) := by
  induction parts with
  | nil => intro out; simp [appendTrimmed]
  | cons p rest ih =>
    intro out
    have hstep : appendTrimmed (p :: rest) out
        = appendTrimmed rest (if TrimSpace p != [] then out ++ [TrimSpace p] else out) := by
      simp [appendTrimmed]
    rw [hstep, ih]
    by_cases hp : (TrimSpace p != []) = true
    · simp [hp, List.filter_cons]
    · simp [hp, List.filter_cons]

theorem whiteSpace_ne_nil : ∀ e ∈ whiteSpace, e ≠ [] := by decide

theorem whiteSpace_prefix_free :
    ∀ e ∈ whiteSpace, ∀ f ∈ whiteSpace, e.isPrefixOf f = true → e = f := by decide

theorem whiteSpace_suffix_free :
    ∀ e ∈ whiteSpace, ∀ f ∈ whiteSpace, e.isSuffixOf f = true → e = f := by decide

theorem leadingSpace_some {s e : GoString} (h : leadingSpace s = some e) :
    e ∈ whiteSpace ∧ e <+: s := by
  unfold leadingSpace at h
  exact ⟨List.mem_of_find?_eq_some h, by simpa using List.find?_some h⟩

theorem leadingSpace_none {s : GoString} (h : leadingSpace s = none) :
    ∀ e ∈ whiteSpace, ¬ e <+: s := by
  unfold leadingSpace at h
  intro e he hpre
  have := List.find?_eq_none.mp h e he
  simp at this
  exact this hpre

theorem trailingSpace_some {s e : GoString} (h : trailingSpace s = some e) :
    e ∈ whiteSpace ∧ e <:+ s := by
  unfold trailingSpace at h
  exact ⟨List.mem_of_find?_eq_some h, by simpa using List.find?_some h⟩

theorem trailingSpace_none {s : GoString} (h : trailingSpace s = none) :
    ∀ e ∈ whiteSpace, ¬ e <:+ s := by
  unfold trailingSpace at h
  intro e he hsuf
  have := List.find?_eq_none.mp h e he
  simp at this
  exact this hsuf

theorem IsWhiteSpace_nil : IsWhiteSpace [] := ⟨[], by simp, rfl⟩

theorem IsWhiteSpace_append {a b : GoString} (ha : IsWhiteSpace a) (hb : IsWhiteSpace b) :
    IsWhiteSpace (a ++ b) := by
  obtain ⟨ca, hca, rfl⟩ := ha
  obtain ⟨cb, hcb, rfl⟩ := hb
  refine ⟨ca ++ cb, ?_, by simp⟩
  intro c hc
  rcases List.mem_append.mp hc with h | h
  · exact hca c h
  · exact hcb c h

theorem IsWhiteSpace_of_mem {e : GoString} (he : e ∈ whiteSpace) : IsWhiteSpace e :=
  ⟨[e], by simpa using he, by simp⟩

theorem trimLeftSpace_spec :
    ∀ (fuel : Nat) (s : GoString), s.length ≤ fuel →
      (∃ pre, IsWhiteSpace pre ∧ s = pre ++ trimLeftSpace fuel s)
        ∧ leadingSpace (trimLeftSpace fuel s) = none := by
  intro fuel
  induction fuel with
  | zero =>
    intro s hs
    have : s = [] := List.length_eq_zero.mp (Nat.le_zero.mp hs)
    subst this
    exact ⟨⟨[], IsWhiteSpace_nil, rfl⟩, by decide⟩
  | succ fuel ih =>
    intro s hs
    cases h : leadingSpace s with
    | none =>
      have e : trimLeftSpace (fuel + 1) s = s := by simp only [trimLeftSpace, h]
      rw [e]
      exact ⟨⟨[], IsWhiteSpace_nil, rfl⟩, h⟩
    | some e =>
      simp only [trimLeftSpace, h]
      obtain ⟨he, t, rfl⟩ := leadingSpace_some h
      have hlen : 0 < e.length := List.length_pos.mpr (whiteSpace_ne_nil e he)
      have hdrop : (e ++ t).drop e.length = t := List.drop_left _ _
      rw [hdrop]
      have hle : t.length ≤ fuel := by
        rw [List.length_append] at hs
        omega
      obtain ⟨⟨pre, hpre, hpe⟩, hnone⟩ := ih t hle
      refine ⟨⟨e ++ pre, IsWhiteSpace_append (IsWhiteSpace_of_mem he) hpre, ?_⟩, hnone⟩
      rw [List.append_assoc, ← hpe]

theorem trimRightSpace_spec :
    ∀ (fuel : Nat) (s : GoString), s.length ≤ fuel →
      (∃ post, IsWhiteSpace post ∧ s = trimRightSpace fuel s ++ post)
        ∧ trailingSpace (trimRightSpace fuel s) = none := by
  intro fuel
  induction fuel with
  | zero =>
    intro s hs
    have : s = [] := List.length_eq_zero.mp (Nat.le_zero.mp hs)
    subst this
    exact ⟨⟨[], IsWhiteSpace_nil, rfl⟩, by decide⟩
  | succ fuel ih =>
    intro s hs
    cases h : trailingSpace s with
    | none =>
      have e : trimRightSpace (fuel + 1) s = s := by simp only [trimRightSpace, h]
      rw [e]
      exact ⟨⟨[], IsWhiteSpace_nil, by simp⟩, h⟩
    | some e =>
      simp only [trimRightSpace, h]
      obtain ⟨he, t, rfl⟩ := trailingSpace_some h
      have hlen : 0 < e.length := List.length_pos.mpr (whiteSpace_ne_nil e he)
      have htake : (t ++ e).take ((t ++ e).length - e.length) = t := by
        rw [List.length_append, Nat.add_sub_cancel]
        exact List.take_left _ _
      rw [htake]
      have hle : t.length ≤ fuel := by
        rw [List.length_append] at hs
        omega
      obtain ⟨⟨post, hpost, hpe⟩, hnone⟩ := ih t hle
      refine ⟨⟨post ++ e, IsWhiteSpace_append hpost (IsWhiteSpace_of_mem he), ?_⟩, hnone⟩
      rw [← List.append_assoc, ← hpe]

theorem TrimSpace_decompose (s : GoString) :
    ∃ pre post, IsWhiteSpace pre ∧ IsWhiteSpace post ∧ s = pre ++ TrimSpace s ++ post := by
  obtain ⟨⟨pre, hpre, hs⟩, _⟩ := trimLeftSpace_spec s.length s (le_refl _)
  obtain ⟨⟨post, hpost, ht⟩, _⟩ :=
    trimRightSpace_spec (trimLeftSpace s.length s).length (trimLeftSpace s.length s) (le_refl _)
  refine ⟨pre, post, hpre, hpost, ?_⟩
  unfold TrimSpace
  simp only []
  rw [List.append_assoc, ← ht, ← hs]

theorem TrimSpace_no_trailing (s : GoString) : ∀ e ∈ whiteSpace, ¬ e <:+ TrimSpace s :=
  trailingSpace_none
    (trimRightSpace_spec (trimLeftSpace s.length s).length (trimLeftSpace s.length s)
      (le_refl _)).2

theorem TrimSpace_no_leading (s : GoString) : ∀ e ∈ whiteSpace, ¬ e <+: TrimSpace s := by
  intro e he hpre
  obtain ⟨⟨post, _, ht⟩, _⟩ :=
    trimRightSpace_spec (trimLeftSpace s.length s).length (trimLeftSpace s.length s) (le_refl _)
  have hnone := (trimLeftSpace_spec s.length s (le_refl _)).2
  refine leadingSpace_none hnone e he ?_
  rw [ht]
  exact hpre.trans (List.prefix_append _ _)

theorem trimLeftSpace_of_isWhiteSpace :
    ∀ (chars : List GoString), (∀ c ∈ chars, c ∈ whiteSpace) →
      ∀ fuel, chars.flatten.length ≤ fuel → trimLeftSpace fuel chars.flatten = [] := by
  intro chars
  induction chars with
  | nil =>
    intro _ fuel _
    have h : leadingSpace [] = none := by decide
    cases fuel with
    | zero => rfl
    | succ n => simp only [List.flatten_nil, trimLeftSpace, h]
  | cons c rest ih =>
    intro hall fuel hfuel
    have hc : c ∈ whiteSpace := hall c (List.mem_cons_self _ _)
    have hclen : 0 < c.length := List.length_pos.mpr (whiteSpace_ne_nil c hc)
    rw [List.flatten_cons] at hfuel ⊢
    rw [List.length_append] at hfuel
    obtain ⟨fuel, rfl⟩ : ∃ f, fuel = f + 1 := ⟨fuel - 1, by omega⟩
    cases h : leadingSpace (c ++ rest.flatten) with
    | none =>
      exact absurd (List.prefix_append c _) (leadingSpace_none h c hc)
    | some e =>
      obtain ⟨he, hpre⟩ := leadingSpace_some h
      have hec : e = c := by
        rcases List.prefix_or_prefix_of_prefix hpre (List.prefix_append c rest.flatten)
          with h1 | h1
        · exact whiteSpace_prefix_free e he c hc (by simpa using h1)
        · exact (whiteSpace_prefix_free c hc e he (by simpa using h1)).symm
      subst hec
      simp only [trimLeftSpace, h, List.drop_left]
      exact ih (fun c hc => hall c (List.mem_cons_of_mem _ hc)) fuel (by omega)

theorem TrimSpace_eq_nil_iff (s : GoString) : TrimSpace s = [] ↔ IsWhiteSpace s := by
  constructor
  · intro h
    obtain ⟨pre, post, hpre, hpost, hs⟩ := TrimSpace_decompose s
    rw [h, List.append_nil] at hs
    rw [hs]
    exact IsWhiteSpace_append hpre hpost
  · rintro ⟨chars, hall, rfl⟩
    unfold TrimSpace
    simp only []
    rw [trimLeftSpace_of_isWhiteSpace chars hall _ (le_refl _)]
    rfl

/-- C22. The items of `v` are the substrings between its commas. `getEnvCSV` returns `def`
when `v` is empty or every item of `v` is blank (white space only), and otherwise the items
of `v` in their order, each without its leading and trailing white space, the blank ones
left out; no entry of that list is empty or begins or ends with a white space character.
White space is that of Unicode. The value `planner,builder` yields `planner` and
`builder`. -/
theorem C22_getEnvCSV_trimmed_items (v : GoString) (dflt : List GoString) :
    (List.intercalate [44] (splitByte 44 v) = v ∧ ∀ item ∈ splitByte 44 v, (44 : UInt8) ∉ item)
    ∧ (∀ item : GoString, ∃ pre post, IsWhiteSpace pre ∧ IsWhiteSpace post
        ∧ item = pre ++ TrimSpace item ++ post)
    ∧ (∀ item : GoString, TrimSpace item = [] ↔ IsWhiteSpace item)
    ∧ ((v = [] ∨ ∀ item ∈ splitByte 44 v, IsWhiteSpace item) → getEnvCSV v dflt = dflt)
    ∧ (¬ (v = [] ∨ ∀ item ∈ splitByte 44 v, IsWhiteSpace item) →
        getEnvCSV v dflt = ((splitByte 44 v).map TrimSpace).filter (fun p => p != [])
        ∧ ∀ entry ∈ getEnvCSV v dflt, entry ≠ []
            ∧ (∀ e ∈ whiteSpace, ¬ e <+: entry)
            ∧ (∀ e ∈ whiteSpace, ¬ e <:+ entry))
    ∧ getEnvCSV (bytes "planner,builder") dflt = [bytes "planner", bytes "builder"] := by
  have hout : appendTrimmed (splitByte 44 v) []
      = ((splitByte 44 v).map TrimSpace).filter (fun p => p != []) := by
    rw [appendTrimmed_eq]
    rfl
  refine ⟨⟨intercalate_splitByte 44 v, not_mem_of_mem_splitByte 44 v⟩, TrimSpace_decompose,
    TrimSpace_eq_nil_iff, ?_, ?_, by rfl⟩
  · rintro (hv | hblank)
    · simp [getEnvCSV, hv]
    · have hnil : ((splitByte 44 v).map TrimSpace).filter (fun p => p != []) = [] := by
        apply List.filter_eq_nil_iff.mpr
        intro p hp
        obtain ⟨item, hitem, rfl⟩ := List.mem_map.mp hp
        simp [(TrimSpace_eq_nil_iff item).mpr (hblank item hitem)]
      unfold getEnvCSV
      by_cases hv : (v == []) = true
      · simp [hv]
      · simp only [hv, hout, hnil]
        rfl
  · intro hnot
    have hv : ¬ v = [] := fun h => hnot (Or.inl h)
    have hsome : ¬ ∀ item ∈ splitByte 44 v, TrimSpace item = [] :=
      fun h => hnot (Or.inr (fun item hitem => (TrimSpace_eq_nil_iff item).mp (h item hitem)))
    have hne : ((splitByte 44 v).map TrimSpace).filter (fun p => p != []) ≠ [] := by
      intro hnil
      apply hsome
      intro item hitem
      by_contra hitemne
      have : TrimSpace item ∈ ((splitByte 44 v).map TrimSpace).filter (fun p => p != []) := by
        apply List.mem_filter.mpr
        exact ⟨List.mem_map.mpr ⟨item, hitem, rfl⟩, by simpa using hitemne⟩
      rw [hnil] at this
      exact absurd this (List.not_mem_nil _)
    have hres : getEnvCSV v dflt
        = ((splitByte 44 v).map TrimSpace).filter (fun p => p != []) := by
      unfold getEnvCSV
      have hv2 : (v == []) = false := by simpa using hv
      have hlen : ((((splitByte 44 v).map TrimSpace).filter (fun p => p != [])).length == 0)
          = false := by
        simpa using hne
      simp only [hv2, hout, hlen]
      rfl
    refine ⟨hres, ?_⟩
    intro entry hentry
    rw [hres] at hentry
    obtain ⟨hmem, hnonempty⟩ := List.mem_filter.mp hentry
    obtain ⟨item, _, rfl⟩ := List.mem_map.mp hmem
    exact ⟨by simpa using hnonempty, TrimSpace_no_leading item, TrimSpace_no_trailing item⟩

/-- C22, for two values with white space beyond ASCII. In the first the item `planner`
follows an ideographic space (U+3000) and is followed by a no-break space (U+00A0), and two
items are blank; in the second every item is blank, one of them an ideographic space. -/
theorem C22_getEnvCSV_trimmed_items_witness :
    getEnvCSV ([0xE3, 0x80, 0x80] ++ bytes "planner" ++ [0xC2, 0xA0] ++ bytes ", ,builder,")
        [bytes "*"] = [bytes "planner", bytes "builder"]
    ∧ getEnvCSV ([0xE3, 0x80, 0x80] ++ bytes ", ,") [bytes "*"] = [bytes "*"] := by
  have h := C22_getEnvCSV_trimmed_items
    ([0xE3, 0x80, 0x80] ++ bytes "planner" ++ [0xC2, 0xA0] ++ bytes ", ,builder,") [bytes "*"]
  have h2 := (C22_getEnvCSV_trimmed_items ([0xE3, 0x80, 0x80] ++ bytes ", ,")
    [bytes "*"]).2.2.2.1
    (Or.inr (fun item hitem => (TrimSpace_eq_nil_iff item).mp
      ((by decide : ∀ item ∈ splitByte 44 ([0xE3, 0x80, 0x80] ++ bytes ", ,"),
        TrimSpace item = []) item hitem)))
  refine ⟨?_, h2⟩
  have hnot : ¬ (([0xE3, 0x80, 0x80] ++ bytes "planner" ++ [0xC2, 0xA0] ++ bytes ", ,builder,"
      : GoString) = []
      ∨ ∀ item ∈ splitByte 44
          ([0xE3, 0x80, 0x80] ++ bytes "planner" ++ [0xC2, 0xA0] ++ bytes ", ,builder,"),
        IsWhiteSpace item) := by
    rintro (h0 | hall)
    · exact absurd h0 (by decide)
    · have := (TrimSpace_eq_nil_iff _).mpr
        (hall ([0xE3, 0x80, 0x80] ++ bytes "planner" ++ [0xC2, 0xA0]) (by decide))
      exact absurd this (by decide)
  rw [(h.2.2.2.2.1 hnot).1]
  decide

/-! ## The model a request names -/

/-- C23, at a failing input. An 8k role whose fallback has a 32k limit, asked for an
estimate of 10000 input tokens: `ModelRequest` selects the fallback config, but the request
and both hooks name the base model of the config it was given, the hook
`DidSendModelRequest` together with the selected config. -/
theorem C23_request_names_original_model :
    (ModelRequestModelsOf twoBaseEnv smallRole 10000 0).map (fun r => r.selected)
        = some (mkRole "fallback" none none)
    ∧ twoBaseEnv.GetBaseModelConfig (mkRole "fallback" none none) = some (mkBase "fallback")
    ∧ (ModelRequestModelsOf twoBaseEnv smallRole 10000 0).map (fun r => r.reqModel)
        = some "small"
    ∧ (ModelRequestModelsOf twoBaseEnv smallRole 10000 0).map (fun r => r.willSend)
        = some { ModelName := "small", ModelId := "small", ModelTag := "small" }
    ∧ (ModelRequestModelsOf twoBaseEnv smallRole 10000 0).map (fun r => r.didSend)
        = some { ModelName := "small", ModelId := "small", ModelTag := "small" }
    ∧ (ModelRequestModelsOf twoBaseEnv smallRole 10000 0).map (fun r => r.didSendConfig)
        = some (mkRole "fallback" none none) := by
  have hsel : GetRoleForInputTokens twoBaseEnv smallRole 10000 = mkRole "fallback" none none := by
    simp only [GetRoleForInputTokens, twoBaseEnv, mkEnv]
    decide
  have hall : ModelRequestModelsOf twoBaseEnv smallRole 10000 0
      = some
        { selected := mkRole "fallback" none none
          reqModel := "small"
          willSend := { ModelName := "small", ModelId := "small", ModelTag := "small" }
          didSend := { ModelName := "small", ModelId := "small", ModelTag := "small" }
          didSendProvider := "openai"
          didSendRole := "planner"
          didSendConfig := mkRole "fallback" none none } := by
    have hbase : twoBaseEnv.GetBaseModelConfig smallRole = some (mkBase "small") := by decide
    simp only [ModelRequestModelsOf, hbase, hsel]
    decide
  rw [hall]
  refine ⟨by rfl, by decide, by rfl, by rfl, by rfl, by rfl⟩

/-! ## The prompt of a continued turn -/

/-- C25, at a failing input. The user continues a plan whose last message is the user
message `u7`. In tell mode `resolvePromptMessage` uses the content of that message as the
prompt and marks no message to be skipped; in chat-only mode it uses the same prompt and
marks `u7`. -/
theorem C25_tell_continue_does_not_skip_last_message :
    resolvePromptMessage plainPrompts (continueState false)
        = { text := some (bytes "now add tests"), ok := true, sentNoMessagesError := false,
            userPrompt := bytes "now add tests", skipConvoMessages := [] }
    ∧ resolvePromptMessage plainPrompts (continueState true)
        = { text := some (bytes "now add tests"), ok := true, sentNoMessagesError := false,
            userPrompt := bytes "now add tests", skipConvoMessages := [bytes "u7"] } := by
  refine ⟨by decide, by decide⟩

/-! ## Permissions for a resource -/

/-- C27, at a failing input. A permission without resource is stored by
`GetUserPermissions` under a key without separator; on a map with such a key
`HasPermissionForResource` panics when it visits the key, also when a later key would
match, whereas `HasPermission` answers. A key with three parts makes it answer true
although no key equals the permission, the separator and the resource id. -/
theorem C27_key_without_separator_panics :
    permissionKey (bytes "create_plan") none = bytes "create_plan"
    ∧ HasPermissionForResource [bytes "create_plan"] (bytes "create_plan") (bytes "res1") = none
    ∧ HasPermissionForResource [bytes "create_plan", bytes "rename_any_plan|res1"]
        (bytes "rename_any_plan") (bytes "res1") = none
    ∧ HasPermission [bytes "create_plan"] (bytes "create_plan") = true
    ∧ HasPermissionForResource [bytes "rename_any_plan|res1|x"] (bytes "rename_any_plan")
        (bytes "res1") = some true
    ∧ bytes "rename_any_plan|res1|x" ≠ bytes "rename_any_plan" ++ bytes "|" ++ bytes "res1" := by
  refine ⟨by rfl, by decide, by decide, by decide, by decide, by decide⟩

/-! ## Clearing uncommitted changes -/

/-- C30, at a failing input. The server runs in `/srv/app`, a clean directory, and the
repository of plan `p1` has a modified file. The status command of
`GitClearUncommittedChanges` has neither the option `-C` nor a `Dir`, so it works on
`/srv/app`, reports no change, and the function returns nil after that one command: the
plan's repository is neither reset nor cleaned. Run from the plan's directory the same
call goes on to the reset and the clean; these two carry `-C` and the plan's directory and
work on it from any working directory, the status command on the working directory. -/
theorem C30_status_runs_in_process_directory :
    getPlanDir (bytes "/plandex-server") (bytes "o1") (bytes "p1")
        = bytes "/plandex-server/orgs/o1/plans/p1"
    ∧ GitClearUncommittedChanges (bytes "/plandex-server") (bytes "o1") (bytes "p1")
          (bytes "/srv/app") dirtyPlanOnly (fun _ => none) (fun _ => none) (fun _ => none)
        = (none, [{ args := [bytes "git", bytes "status", bytes "--porcelain"], dir := [] }])
    ∧ gitWorkDir (bytes "/srv/app")
          { args := [bytes "git", bytes "status", bytes "--porcelain"], dir := [] }
        = bytes "/srv/app"
    ∧ (GitClearUncommittedChanges (bytes "/plandex-server") (bytes "o1") (bytes "p1")
          (bytes "/plandex-server/orgs/o1/plans/p1") dirtyPlanOnly (fun _ => none)
          (fun _ => none) (fun _ => none)).2.map (gitWorkDir (bytes "/srv/app"))
        = [bytes "/srv/app", bytes "/plandex-server/orgs/o1/plans/p1",
            bytes "/plandex-server/orgs/o1/plans/p1"] := by
  refine ⟨by rfl, by rfl, by rfl, by rfl⟩

end Plandex
